import Mathlib

/-!
# IPCity: range search, registry dispatch and codecs

A shallow embedding of the Go packages `ipcity/provider`, `ipcity` and `engine`, with
the functions of the Go standard library they call (`sort.Search`, `io.ReadFull`,
`encoding/binary`, `net.IP`, `strings`, `strconv`, `fmt`) transcribed next to them.

Conventions of the embedding:

* a Go `string` or `[]byte` is a list of bytes, each byte a natural number;
* a Go pointer that may be `nil` is an `Option`;
* `uint64`, `uint32` and `byte` values are natural numbers, reduced modulo the
  width wherever the Go operation can overflow;
* a method that mutates its receiver returns the receiver's new value;
* a function whose name ends in `Checked` is the Go function of that name with the
  run-time bounds check of each index and slice expression made explicit: it returns an
  `Except GoPanic` value, the error being the panic Go would raise.
-/

namespace IPCity

/-- Go byte sequence (`string`, `[]byte`). -/
abbrev Bytes := List Nat

/-! ## Go standard library: `sort.Search` -/

/-- The loop of `sort.Search`: `for i < j { h := int(uint(i+j) >> 1); if !f(h) { i = h + 1 }
else { j = h } }; return i`.  The first argument bounds the number of iterations; `j - i`
iterations always suffice (`sortSearchLoop_fuel`). -/
def sortSearchLoop (f : Int → Bool) : Nat → Nat → Nat → Nat
  | 0, i, _ => i
  | fuel + 1, i, j =>
    if i < j then
      let h := (i + j) / 2
      if !f (h : Int) then sortSearchLoop f fuel (h + 1) j
      else sortSearchLoop f fuel i h
    else i

/-- Go `sort.Search(n, f)`: binary search started with `i, j := 0, n`. -/
def sortSearch (n : Nat) (f : Int → Bool) : Int :=
  (sortSearchLoop f n 0 n : Nat)

/-! ## Go standard library: `encoding/binary` and `net.IP` -/

/-- Go `binary.BigEndian.Uint32(b)`:
`uint32(b[3]) | uint32(b[2])<<8 | uint32(b[1])<<16 | uint32(b[0])<<24`. -/
def BigEndianUint32 (b : Bytes) : Nat :=
  b.getD 3 0 ||| (b.getD 2 0 <<< 8) ||| (b.getD 1 0 <<< 16) ||| (b.getD 0 0 <<< 24)

/-- Go `binary.BigEndian.Uint64(b)`. -/
def BigEndianUint64 (b : Bytes) : Nat :=
  b.getD 7 0 ||| (b.getD 6 0 <<< 8) ||| (b.getD 5 0 <<< 16) ||| (b.getD 4 0 <<< 24) |||
    (b.getD 3 0 <<< 32) ||| (b.getD 2 0 <<< 40) ||| (b.getD 1 0 <<< 48) |||
    (b.getD 0 0 <<< 56)

/-- Go `(ip IP) To4()`: a 4-byte address as it is, the last 4 bytes of a 16-byte
IPv4-mapped address, `nil` otherwise.  A `net.IP` is a byte sequence; `nil` is the
empty one. -/
def IPTo4 (ip : Bytes) : Option Bytes :=
  if ip.length = 4 then some ip
  else if ip.length = 16 ∧ (ip.take 10).all (fun b => b == 0) ∧ ip.getD 10 0 = 255 ∧
      ip.getD 11 0 = 255 then some (ip.drop 12)
  else none

/-- Go `(ip IP) To16()`: the IPv4-mapped form of a 4-byte address, a 16-byte address as
it is, `nil` otherwise. -/
def IPTo16 (ip : Bytes) : Option Bytes :=
  if ip.length = 4 then some ([0, 0, 0, 0, 0, 0, 0, 0, 0, 0, 255, 255] ++ ip)
  else if ip.length = 16 then some ip
  else none

/-- Go `binary.BigEndian.PutUint32`, as `binary.Write(w, binary.BigEndian, v)` uses it for
a `uint32`: `byte(v >> 24), byte(v >> 16), byte(v >> 8), byte(v)`. -/
def BigEndianPutUint32 (v : Nat) : Bytes :=
  [(v >>> 24) % 256, (v >>> 16) % 256, (v >>> 8) % 256, v % 256]

/-! ## Errors and `io.ReadFull` -/

/-- The parameter names passed to `newNilParamError`. -/
inductive ParamName where
  | Header
  | EntityUnmarshaler
  | EntityMarshaler
  | Reader
  | Writer
  | Entity
deriving DecidableEq, Repr

/-- The error values the packages return. -/
inductive GoError where
  /-- Go `io.EOF`. -/
  | EOF
  /-- Go `io.ErrUnexpectedEOF`. -/
  | ErrUnexpectedEOF
  /-- Go `strconv.ErrSyntax`, inside a `*strconv.NumError`. -/
  | ErrSyntax
  /-- Go `strconv.ErrRange`, inside a `*strconv.NumError`. -/
  | ErrRange
  /-- Go `newNilParamError(paramName)`. -/
  | nilParam (paramName : ParamName)
  /-- Go `fmt.Errorf("init <nil> header")`. -/
  | initNilHeader
  /-- Go `fmt.Errorf("dump <nil> header")`. -/
  | dumpNilHeader
  /-- Go `fmt.Errorf("unrecognized magic number %X", string(mn))`. -/
  | unrecognizedMagic (mn : Bytes)
  /-- Go `fmt.Errorf("entity unmarshaler with invalid index size")`. -/
  | unmarshalerInvalidIndexSize
  /-- Go `fmt.Errorf("entity marshaler with invalid index size")`. -/
  | marshalerInvalidIndexSize
  /-- Go `fmt.Errorf("unmarshal header error, %s", err)`. -/
  | unmarshalHeaderError (err : GoError)
  /-- Go `fmt.Errorf("unmarshal meta table row[%d/%d] error, %s", i, count, err)`. -/
  | unmarshalMetaTableRowError (i count : Nat) (err : GoError)
  /-- Go `fmt.Errorf("invalid meta table size %d, header.MetaRowCount is %d", size, count)`. -/
  | invalidMetaTableSize (size count : Nat)
  /-- Go `fmt.Errorf("unmarshal entity list error, %s", err)`. -/
  | unmarshalEntityListError (err : GoError)
  /-- Go `fmt.Errorf("invalid entity list size %d, header.EntityCount is %d", size, count)`. -/
  | invalidEntityListSize (size count : Nat)
  /-- The error of `os.Open(filename)`. -/
  | openError
deriving DecidableEq, Repr

/-- What `io.ReadFull(r, buffer)` leaves behind: the buffer, the count `n`, the error and
the rest of the stream. -/
structure ReadFullResult where
  buffer : Bytes
  n : Nat
  err : Option GoError
  rest : Bytes
deriving DecidableEq, Repr

/-- Go `io.ReadFull(r, buffer)` on a stream holding the bytes `r`, with a zeroed buffer of
`len` bytes: the buffer is filled when `len` bytes are there; otherwise all bytes are
read and the error is `io.EOF` when none was read, `io.ErrUnexpectedEOF` when some were. -/
def ioReadFull (r : Bytes) (len : Nat) : ReadFullResult :=
  if len ≤ r.length then ⟨r.take len, len, none, r.drop len⟩
  else if r.length = 0 then ⟨List.replicate len 0, 0, some GoError.EOF, []⟩
  else ⟨r ++ List.replicate (len - r.length) 0, r.length, some GoError.ErrUnexpectedEOF, []⟩

/-- What `ReadBytes` leaves behind: the line, the error and the rest of the stream. -/
structure ReadBytesResult where
  line : Bytes
  err : Option GoError
  rest : Bytes
deriving DecidableEq, Repr

/-- Go `(b *bufio.Reader) ReadBytes(delim)` on a stream holding the bytes `r`: the bytes
up to and including the first `delim`; when the stream ends before a `delim`, all its
bytes with the error `io.EOF`. -/
def bufioReadBytes (delim : Nat) : Bytes → ReadBytesResult
  | [] => ⟨[], some GoError.EOF, []⟩
  | c :: rest =>
    if c = delim then ⟨[c], none, rest⟩
    else
      let res := bufioReadBytes delim rest
      ⟨c :: res.line, res.err, res.rest⟩

/-! ## Go standard library: `strings`, `strconv`, `fmt` -/

/-- Go `strings.TrimSuffix(s, "\n")`: `s` without one trailing newline byte (10). -/
def stringsTrimSuffixNewline (s : Bytes) : Bytes :=
  if s.getLast? = some 10 then s.dropLast else s

/-- Go `strings.Split(s, sep)` for a separator of one byte: the pieces between the
separators, one more than there are separators. -/
def stringsSplit (sep : Nat) : Bytes → List Bytes
  | [] => [[]]
  | c :: rest =>
    if c = sep then [] :: stringsSplit sep rest
    else
      match stringsSplit sep rest with
      | [] => [[c]]
      | piece :: pieces => (c :: piece) :: pieces

/-- The digit loop of Go `strconv.ParseUint(s, 10, 64)` from the accumulated value `n`:
a byte that is not a decimal digit is a syntax error with value 0; an overflow of 64 bits
is a range error with value `2^64 - 1`.  `1844674407370955162` is `maxUint64/10 + 1`. -/
def parseUintLoop : Bytes → Nat → Nat × Option GoError
  | [], n => (n, none)
  | c :: rest, n =>
    if ¬ (48 ≤ c ∧ c ≤ 57) then (0, some GoError.ErrSyntax)
    else if n ≥ 1844674407370955162 then (2 ^ 64 - 1, some GoError.ErrRange)
    else if n * 10 + (c - 48) > 2 ^ 64 - 1 then (2 ^ 64 - 1, some GoError.ErrRange)
    else parseUintLoop rest (n * 10 + (c - 48))

/-- Go `strconv.ParseUint(s, 10, 64)`. -/
def strconvParseUint (s : Bytes) : Nat × Option GoError :=
  if s = [] then (0, some GoError.ErrSyntax) else parseUintLoop s 0

/-- Go `strconv.Atoi(s)` with a 64-bit `int`, as `ParseInt(s, 10, 0)` computes it (the fast
path of `Atoi` for short strings gives the same result): an optional sign `+` (43) or `-`
(45), then decimal digits; a syntax error has value 0, a range error the nearest bound. -/
def strconvAtoi (s : Bytes) : Int × Option GoError :=
  if s = [] then (0, some GoError.ErrSyntax)
  else
    let neg : Bool := s.head? = some 45
    let body := if s.head? = some 43 ∨ s.head? = some 45 then s.tail else s
    let un := strconvParseUint body
    if un.2 = some GoError.ErrSyntax then (0, un.2)
    else if !neg && un.1 ≥ 2 ^ 63 then (2 ^ 63 - 1, some GoError.ErrRange)
    else if neg && un.1 > 2 ^ 63 then (-(2 ^ 63), some GoError.ErrRange)
    else (if neg then -(un.1 : Int) else (un.1 : Int), none)

/-- The decimal digits of `n` as ASCII bytes, most significant first; the first argument
bounds the number of digits. -/
def formatDecimal : Nat → Nat → Bytes
  | 0, _ => []
  | fuel + 1, n =>
    if n < 10 then [48 + n] else formatDecimal fuel (n / 10) ++ [48 + n % 10]

/-- Go `fmt.Sprintf("%d", i)` for an `int`: a `-` (45) for a negative value, then the
decimal digits of its magnitude. -/
def fmtInt (i : Int) : Bytes :=
  if i < 0 then 45 :: formatDecimal ((-i).toNat + 1) (-i).toNat
  else formatDecimal (i.toNat + 1) i.toNat

/-! ## entity.go -/

/-- Go `type Entity struct { ipIndex uint64; metaRowIndex uint32 }`. -/
structure Entity where
  ipIndex : Nat
  metaRowIndex : Nat
deriving DecidableEq, Repr

/-- Go `(e *Entity) IPIndex()`: 0 on a nil receiver. -/
def Entity.IPIndex : Option Entity → Nat
  | some e => e.ipIndex
  | none => 0

/-- Go `(e *Entity) MetaRowIndex()`: 0 on a nil receiver. -/
def Entity.MetaRowIndex : Option Entity → Nat
  | some e => e.metaRowIndex
  | none => 0

/-- The loop `for i := range bytes { *value |= uintW(bytes[i]) << (8 * (l - i)) }` shared by
the two readers, from position `i` on, for the integer width `W`. -/
def readScalableLoop (W l : Nat) : Bytes → Nat → Nat → Nat
  | [], _, value => value
  | b :: rest, i, value =>
    readScalableLoop W l rest (i + 1) (value ||| ((b <<< (8 * (l - i))) % 2 ^ W))

/-- Go `readScalableBigEndianOrderBytesToUint32(bytes, value)`: the new `*value`.  With
`l := len(bytes) - 1`, the loop runs only when `l >= 0`. -/
def readScalableBigEndianOrderBytesToUint32 (bytes : Bytes) (value : Nat) : Nat :=
  if bytes.length ≥ 1 then readScalableLoop 32 (bytes.length - 1) bytes 0 value else value

/-- Go `readScalableBigEndianOrderBytesToUint64(bytes, value)`: the new `*value`. -/
def readScalableBigEndianOrderBytesToUint64 (bytes : Bytes) (value : Nat) : Nat :=
  if bytes.length ≥ 1 then readScalableLoop 64 (bytes.length - 1) bytes 0 value else value

/-- Go `writeUint32ToScalableBigEndianOrderBytes(value, bytes)` for a slice of `len` bytes:
the new content, `bytes[i] = byte(value >> (8 * (l - i)))` with `l := len(bytes) - 1`. -/
def writeUint32ToScalableBigEndianOrderBytes (value len : Nat) : Bytes :=
  (List.range len).map (fun i => (value >>> (8 * (len - 1 - i))) % 256)

/-- Go `writeUint64ToScalableBigEndianOrderBytes(value, bytes)` for a slice of `len` bytes:
the new content. -/
def writeUint64ToScalableBigEndianOrderBytes (value len : Nat) : Bytes :=
  (List.range len).map (fun i => (value >>> (8 * (len - 1 - i))) % 256)

/-- Go `validateIPIndexSize(size)`: membership in `ipIndexSizeSelector`, the sizes 4, 8. -/
def validateIPIndexSize (size : Nat) : Bool := size == 4 || size == 8

/-- Go `validateMetaRowIndexSize(size)`: membership in `metaRowIndexSizeSelector`, the
sizes 1, 2, 3, 4. -/
def validateMetaRowIndexSize (size : Nat) : Bool :=
  size == 1 || size == 2 || size == 3 || size == 4

/-- Go `type EntityUnmarshaler struct { IPIndexSize uint32; MetaRowIndexSize uint32 }`. -/
structure EntityUnmarshaler where
  IPIndexSize : Nat
  MetaRowIndexSize : Nat
deriving DecidableEq, Repr

/-- Go `(u *EntityUnmarshaler) UnmarshalFrom(reader, entity)` on a non-nil reader holding
the bytes `reader`: the entity after the call and the rest of the stream, with the
error. -/
def EntityUnmarshaler.UnmarshalFrom (u : Option EntityUnmarshaler) (reader : Bytes)
    (entity : Option Entity) : (Option Entity × Bytes) × Option GoError :=
  match u with
  | none => ((entity, reader), some (GoError.nilParam ParamName.EntityUnmarshaler))
  | some u =>
    if !validateIPIndexSize u.IPIndexSize || !validateMetaRowIndexSize u.MetaRowIndexSize then
      ((entity, reader), some GoError.unmarshalerInvalidIndexSize)
    else
      match entity with
      | none => ((none, reader), some (GoError.nilParam ParamName.Entity))
      | some e =>
        let rd := ioReadFull reader (u.IPIndexSize + u.MetaRowIndexSize)
        if rd.n = 1 ∧ rd.buffer.getD 0 0 = 0 then ((some e, rd.rest), some GoError.EOF)
        else if rd.err.isSome then ((some e, rd.rest), rd.err)
        else
          ((some ⟨readScalableBigEndianOrderBytesToUint64
                (rd.buffer.take u.IPIndexSize) e.ipIndex,
              readScalableBigEndianOrderBytesToUint32
                (rd.buffer.drop u.IPIndexSize) e.metaRowIndex⟩, rd.rest), none)

/-- Go `type EntityMarshaler struct`. -/
structure EntityMarshaler where
  DataVersion : Nat
  IPIndexSize : Nat
  MetaRowIndexSize : Nat
deriving DecidableEq, Repr

/-- Go `(m *EntityMarshaler) MarshalTo(entity, writer)` into a non-nil in-memory writer:
the bytes written (their number is the count returned) and the error. -/
def EntityMarshaler.MarshalTo (m : Option EntityMarshaler) (entity : Option Entity) :
    Bytes × Option GoError :=
  match m with
  | none => ([], some (GoError.nilParam ParamName.EntityMarshaler))
  | some m =>
    if !validateIPIndexSize m.IPIndexSize || !validateMetaRowIndexSize m.MetaRowIndexSize then
      ([], some GoError.marshalerInvalidIndexSize)
    else
      match entity with
      | none => ([], some (GoError.nilParam ParamName.Entity))
      | some e =>
        (writeUint64ToScalableBigEndianOrderBytes e.ipIndex m.IPIndexSize ++
          writeUint32ToScalableBigEndianOrderBytes e.metaRowIndex m.MetaRowIndexSize, none)

/-- Positional value of a big-endian byte sequence: the sum of `byte[i] * 256^(n-1-i)`. -/
def bigEndianValue : Bytes → Nat
  | [] => 0
  | b :: rest => b * 256 ^ rest.length + bigEndianValue rest

/-! ## meta.go: the row type -/

/-- Go `type Meta struct`: six strings and two `int`s. -/
structure Meta where
  country : Bytes
  province : Bytes
  city : Bytes
  district : Bytes
  isp : Bytes
  backboneISP : Bytes
  countryCode : Int
  areaCode : Int
deriving DecidableEq, Repr

/-! ## header.go: the header type -/

/-- Go `type headerImpl struct`. -/
structure headerImpl where
  Version : Nat
  Mode : Nat
  IPIndexSize : Nat
  MetaRowIndexSize : Nat
  MetaRowCount : Nat
  EntityCount : Nat
  SourceUpdatedTime : Nat
  UpdatedTime : Nat
deriving DecidableEq, Repr

/-- Go `type Header struct { impl *headerImpl }`. -/
structure Header where
  impl : Option headerImpl
deriving DecidableEq, Repr

/-- Go `DataModeIPv4 = DataMode(1)`. -/
def DataModeIPv4 : Nat := 1

/-- Go `DataModeIPv6 = DataMode(2)`. -/
def DataModeIPv6 : Nat := 2

/-- Go `(h *Header) Version()`: `DataVersionUnknown` (0) on a nil header or nil impl. -/
def Header.Version : Option Header → Nat
  | some ⟨some impl⟩ => impl.Version
  | _ => 0

/-- Go `(h *Header) Mode()`: `DataModeUnknown` (0) on a nil header or nil impl. -/
def Header.Mode : Option Header → Nat
  | some ⟨some impl⟩ => impl.Mode
  | _ => 0

/-- Go `DataMagicNumber = []byte("ipCT")`. -/
def DataMagicNumber : Bytes := [105, 112, 67, 84]

/-- Go `headerBytesLength = 24`. -/
def headerBytesLength : Nat := 24

/-- Go `(h *headerImpl) ReadFrom(r io.Reader)`: the receiver after the call and the rest of
the stream, with the error. -/
def headerImpl.ReadFrom (h : Option headerImpl) (r : Bytes) :
    (Option headerImpl × Bytes) × Option GoError :=
  match h with
  | none => ((none, r), some GoError.initNilHeader)
  | some h =>
    let rd := ioReadFull r headerBytesLength
    if rd.err.isSome then ((some h, rd.rest), rd.err)
    else
      let buffer := rd.buffer
      let mn := buffer.take 4
      if DataMagicNumber ≠ mn then ((some h, rd.rest), some (GoError.unrecognizedMagic mn))
      else
        ((some ⟨buffer.getD 4 0, buffer.getD 5 0, buffer.getD 6 0, buffer.getD 7 0,
            BigEndianUint32 ((buffer.drop 8).take 4),
            BigEndianUint32 ((buffer.drop 12).take 4),
            BigEndianUint32 ((buffer.drop 16).take 4),
            BigEndianUint32 (buffer.drop 20)⟩, rd.rest), none)

/-- Go `(h *headerImpl) WriteTo(w io.Writer)` into an in-memory writer: the bytes written
(their number is the count returned) and the error.  `bytes.Buffer` writes do not fail;
`byte(x)` is `x % 256`. -/
def headerImpl.WriteTo (h : Option headerImpl) : Bytes × Option GoError :=
  match h with
  | none => ([], some GoError.dumpNilHeader)
  | some h =>
    (DataMagicNumber ++ [h.Version % 256] ++ [h.Mode % 256] ++ [h.IPIndexSize % 256] ++
      [h.MetaRowIndexSize % 256] ++ BigEndianPutUint32 h.MetaRowCount ++
      BigEndianPutUint32 h.EntityCount ++ BigEndianPutUint32 h.SourceUpdatedTime ++
      BigEndianPutUint32 h.UpdatedTime, none)

/-- Go `(h *Header) UnmarshalFrom(r io.Reader)`: the header after the call and the rest
of the stream, with the error. -/
def Header.UnmarshalFrom (h : Option Header) (r : Bytes) :
    (Option Header × Bytes) × Option GoError :=
  match h with
  | some ⟨some impl⟩ =>
    let res := headerImpl.ReadFrom (some impl) r
    ((some ⟨res.1.1⟩, res.1.2), res.2)
  | _ => ((h, r), some (GoError.nilParam ParamName.Header))

/-- Go `(h *Header) Unmarshal(data []byte)`. -/
def Header.Unmarshal (h : Option Header) (data : Bytes) : Option Header × Option GoError :=
  let res := Header.UnmarshalFrom h data
  (res.1.1, res.2)

/-- Go `(h *Header) MarshalTo(w io.Writer)` into an in-memory writer. -/
def Header.MarshalTo (h : Option Header) : Bytes × Option GoError :=
  match h with
  | some ⟨some impl⟩ => headerImpl.WriteTo (some impl)
  | _ => ([], some (GoError.nilParam ParamName.Header))

/-- Go `(h *Header) Marshal()`. -/
def Header.Marshal (h : Option Header) : Bytes × Option GoError :=
  Header.MarshalTo h

/-- Go `(h *Header) MetaRowCount()`: 0 on a nil header or nil impl. -/
def Header.MetaRowCount : Option Header → Nat
  | some ⟨some impl⟩ => impl.MetaRowCount
  | _ => 0

/-- Go `(h *Header) EntityCount()`: 0 on a nil header or nil impl. -/
def Header.EntityCount : Option Header → Nat
  | some ⟨some impl⟩ => impl.EntityCount
  | _ => 0

/-- Go `defaultIPIndexSizeMap[version][mode]` with its two `ok` flags: the only entries
are version 3 with `DataModeIPv4: 4` and `DataModeIPv6: 8`. -/
def defaultIPIndexSizeMap (version mode : Nat) : Option Nat :=
  if version = 3 then
    if mode = DataModeIPv4 then some 4
    else if mode = DataModeIPv6 then some 8
    else none
  else none

/-- Go `(h *Header) IPIndexSize()`. -/
def Header.IPIndexSize (h : Option Header) : Nat :=
  match h with
  | some ⟨some impl⟩ =>
    if impl.IPIndexSize > 0 then impl.IPIndexSize
    else
      match defaultIPIndexSizeMap (Header.Version h) (Header.Mode h) with
      | some ipIndex => ipIndex
      | none => 0
  | _ => 0

/-- Go `belong(value, min, max)`. -/
def belong (value min max : Nat) : Bool := value ≥ min && value ≤ max

/-- Go `(h *Header) MetaRowIndexSize()`. -/
def Header.MetaRowIndexSize (h : Option Header) : Nat :=
  match h with
  | some ⟨some impl⟩ =>
    if impl.MetaRowIndexSize > 0 then impl.MetaRowIndexSize
    else if Header.Version h = 3 then
      if belong (Header.MetaRowCount h) 0 0x000000FF then 1
      else if belong (Header.MetaRowCount h) 0x00000100 0x0000FFFF then 2
      else if belong (Header.MetaRowCount h) 0x00010000 0x00FFFFFF then 3
      else if belong (Header.MetaRowCount h) 0x01000000 0xFFFFFFFF then 4
      else 0
    else 0
  | _ => 0

/-- Go `&Meta{}`: the row with all eight fields at their zero value. -/
def emptyRowValue : IPCity.Meta := ⟨[], [], [], [], [], [], 0, 0⟩

/-! ## meta.go: accessors -/

/-- Go `(r *Meta) Country()`. -/
def Meta.Country : Option IPCity.Meta → Bytes
  | some r => r.country
  | none => []

/-- Go `(r *Meta) Province()`. -/
def Meta.Province : Option IPCity.Meta → Bytes
  | some r => r.province
  | none => []

/-- Go `(r *Meta) City()`. -/
def Meta.City : Option IPCity.Meta → Bytes
  | some r => r.city
  | none => []

/-- Go `(r *Meta) District()`. -/
def Meta.District : Option IPCity.Meta → Bytes
  | some r => r.district
  | none => []

/-- Go `(r *Meta) ISP()`. -/
def Meta.ISP : Option IPCity.Meta → Bytes
  | some r => r.isp
  | none => []

/-- Go `(r *Meta) BackboneISP()`. -/
def Meta.BackboneISP : Option IPCity.Meta → Bytes
  | some r => r.backboneISP
  | none => []

/-- Go `(r *Meta) CountryCode()`. -/
def Meta.CountryCode : Option IPCity.Meta → Int
  | some r => r.countryCode
  | none => 0

/-- Go `(r *Meta) AreaCode()`. -/
def Meta.AreaCode : Option IPCity.Meta → Int
  | some r => r.areaCode
  | none => 0

/-- Go `(r *Meta) IsEmpty()`: all eight accessors give the zero value. -/
def Meta.IsEmpty (r : Option IPCity.Meta) : Bool :=
  Meta.Country r == [] && Meta.Province r == [] && Meta.City r == [] &&
    Meta.District r == [] && Meta.ISP r == [] && Meta.BackboneISP r == [] &&
    Meta.CountryCode r == 0 && Meta.AreaCode r == 0

/-! ## meta.go: the row codec -/

/-- The closure `toInt` of `UnmarshalString`: 0 for the empty string, `strconv.Atoi`
otherwise. -/
def toInt (s : Bytes) : Int × Option GoError :=
  if s = [] then (0, none) else strconvAtoi s

/-- The loop `for i, item := range pieces { switch i { ... } }` of `UnmarshalString` from
position `i` on: the row and the variable `e` after it.  The `break` in cases 6 and 7
leaves the `switch`, not the loop. -/
def Meta.UnmarshalStringLoop :
    List Bytes → Nat → IPCity.Meta → Option GoError → IPCity.Meta × Option GoError
  | [], _, r, e => (r, e)
  | item :: rest, i, r, e =>
    if i = 0 then Meta.UnmarshalStringLoop rest (i + 1) { r with country := item } e
    else if i = 1 then Meta.UnmarshalStringLoop rest (i + 1) { r with province := item } e
    else if i = 2 then Meta.UnmarshalStringLoop rest (i + 1) { r with city := item } e
    else if i = 3 then Meta.UnmarshalStringLoop rest (i + 1) { r with district := item } e
    else if i = 4 then Meta.UnmarshalStringLoop rest (i + 1) { r with isp := item } e
    else if i = 5 then
      Meta.UnmarshalStringLoop rest (i + 1) { r with backboneISP := item } e
    else if i = 6 then
      Meta.UnmarshalStringLoop rest (i + 1) { r with countryCode := (toInt item).1 }
        (toInt item).2
    else if i = 7 then
      Meta.UnmarshalStringLoop rest (i + 1) { r with areaCode := (toInt item).1 }
        (toInt item).2
    else Meta.UnmarshalStringLoop rest (i + 1) r e

/-- Go `(r *Meta) UnmarshalString(line string)`: the row after the call and the error. -/
def Meta.UnmarshalString (r : Option IPCity.Meta) (line : Bytes) :
    Option IPCity.Meta × Option GoError :=
  match r with
  | none => (none, none)
  | some r =>
    let res := Meta.UnmarshalStringLoop (stringsSplit 9 (stringsTrimSuffixNewline line)) 0 r none
    (some res.1, res.2)

/-- Go `(r *Meta) Unmarshal(buffer []byte)`. -/
def Meta.Unmarshal (r : Option IPCity.Meta) (buffer : Bytes) :
    Option IPCity.Meta × Option GoError :=
  Meta.UnmarshalString r buffer

/-- Go `(r *Meta) MarshalString()`: the eight fields joined by tabs (9), the two integers
in decimal; the empty string on a nil receiver. -/
def Meta.MarshalString (r : Option IPCity.Meta) : Bytes × Option GoError :=
  match r with
  | none => ([], none)
  | some _ =>
    (Meta.Country r ++ [9] ++ Meta.Province r ++ [9] ++ Meta.City r ++ [9] ++
      Meta.District r ++ [9] ++ Meta.ISP r ++ [9] ++ Meta.BackboneISP r ++ [9] ++
      fmtInt (Meta.CountryCode r) ++ [9] ++ fmtInt (Meta.AreaCode r), none)

/-! ## Decimal numerals, as the row format means them -/

/-- The value of a run of decimal digits, most significant first. -/
def decimalDigitsValue (s : Bytes) : Nat :=
  s.foldl (fun acc c => acc * 10 + (c - 48)) 0

/-- The integer that a decimal numeral denotes: an optional sign `+` (43) or `-` (45)
followed by one or more digits `0` to `9`, when the value fits a 64-bit `int`; nothing for
any other string. -/
def decimalIntValue (s : Bytes) : Option Int :=
  let body := if s.head? = some 43 ∨ s.head? = some 45 then s.tail else s
  let v : Int :=
    if s.head? = some 45 then -(decimalDigitsValue body : Int) else (decimalDigitsValue body : Int)
  if body ≠ [] ∧ (∀ c ∈ body, 48 ≤ c ∧ c ≤ 57) ∧ -(2 ^ 63) ≤ v ∧ v < 2 ^ 63 then some v
  else none

/-- The integer value of a numeric field of a row: 0 for a missing or empty piece, the
value of the decimal numeral otherwise. -/
def fieldIntValue (p : Option Bytes) : Option Int :=
  match p with
  | none => some 0
  | some s => if s = [] then some 0 else decimalIntValue s

/-! ## store.go: accessors and range search -/

/-- Go `type Store struct { header *Header; metaTable []*Meta; entityList []*Entity }`.
The two slices hold non-nil pointers, as in every store built by `UnmarshalFrom`
(`meta := &Meta{}`, `entity := &Entity{}`); the receiver of the methods below is a
non-nil store, as are the stores a `Client` holds. -/
structure Store where
  header : Option Header
  metaTable : List IPCity.Meta
  entityList : List IPCity.Entity
deriving DecidableEq, Repr

/-- Go `(s *Store) MetaRowCount()`. -/
def Store.MetaRowCount (s : Store) : Int := s.metaTable.length

/-- Go `(s *Store) EntityCount()`. -/
def Store.EntityCount (s : Store) : Int := s.entityList.length

/-- Go `(s *Store) Meta(i int)`: `nil` unless `0 <= i < MetaRowCount()`. -/
def Store.Meta (s : Store) (i : Int) : Option IPCity.Meta :=
  if i < s.MetaRowCount ∧ i ≥ 0 then s.metaTable[i.toNat]? else none

/-- Go `(s *Store) Entity(i int)`: `nil` unless `0 <= i < EntityCount()`. -/
def Store.Entity (s : Store) (i : Int) : Option IPCity.Entity :=
  if i < s.EntityCount ∧ i ≥ 0 then s.entityList[i.toNat]? else none

/-- Go `(s *Store) searchByIPIndex(ipIndex uint64)`. -/
def Store.searchByIPIndex (s : Store) (ipIndex : Nat) : Option IPCity.Meta :=
  let index : Int := sortSearch s.entityList.length
    (fun i => decide (Entity.IPIndex (s.Entity i) ≥ ipIndex))
  if (s.Entity index).isSome then
    let index := if Entity.IPIndex (s.Entity index) ≠ ipIndex then index - 1 else index
    s.Meta (Entity.MetaRowIndex (s.Entity index) : Nat)
  else none

/-- The entity whose `MetaRowIndex()` the range search hands to `Meta`: `s.Entity(index)`
after the step back, when the first lookup `s.Entity(index)` is not nil; nil otherwise,
and nil when the step back leaves the entity list. -/
def Store.selectedEntity (s : Store) (ipIndex : Nat) : Option IPCity.Entity :=
  let index : Int := sortSearch s.entityList.length
    (fun i => decide (Entity.IPIndex (s.Entity i) ≥ ipIndex))
  if (s.Entity index).isSome then
    s.Entity (if Entity.IPIndex (s.Entity index) ≠ ipIndex then index - 1 else index)
  else none

/-- Go `(s *Store) Search(addr net.IP)`. -/
def Store.Search (s : Store) (addr : Bytes) : Option IPCity.Meta :=
  let ipIndex : Nat :=
    if Header.Mode s.header = DataModeIPv4 then
      match IPTo4 addr with
      | some b =>
        if Header.Version s.header = 2 then BigEndianUint32 b >>> 8
        else BigEndianUint32 b
      | none => 0
    else if Header.Mode s.header = DataModeIPv6 then
      match IPTo16 addr with
      | some b => BigEndianUint64 (b.take 8)
      | none => 0
    else 0
  s.searchByIPIndex ipIndex

/-! ## Run-time bounds checks of the search path -/

/-- The run-time panics of the Go index expression `a[i]` and slice expression
`a[lo:hi]`. -/
inductive GoPanic where
  | indexOutOfRange
  | sliceBoundsOutOfRange
deriving DecidableEq, Repr

/-- Go index expression `a[i]` on a slice: the element, or the run-time panic "index out
of range" unless `0 <= i < len(a)`. -/
def goIndex {α : Type} (a : List α) (i : Int) : Except GoPanic α :=
  if i < 0 then Except.error GoPanic.indexOutOfRange
  else
    match a[i.toNat]? with
    | some x => Except.ok x
    | none => Except.error GoPanic.indexOutOfRange

/-- Go slice expression `a[lo:hi]` with constant bounds on a byte slice: the run-time panic
"slice bounds out of range" unless `lo <= hi <= cap(a)`.  The capacity is taken to be the
length, the least it can be, so the check modelled is at least as strict as Go's. -/
def goSlice (a : Bytes) (lo hi : Nat) : Except GoPanic Bytes :=
  if lo ≤ hi ∧ hi ≤ a.length then Except.ok ((a.take hi).drop lo)
  else Except.error GoPanic.sliceBoundsOutOfRange

/-- Go `binary.BigEndian.Uint32(b)` with its index expressions checked: `_ = b[3]`, then
`uint32(b[3]) | uint32(b[2])<<8 | uint32(b[1])<<16 | uint32(b[0])<<24`. -/
def BigEndianUint32Checked (b : Bytes) : Except GoPanic Nat := do
  let _ ← goIndex b 3
  let b3 ← goIndex b 3
  let b2 ← goIndex b 2
  let b1 ← goIndex b 1
  let b0 ← goIndex b 0
  pure (b3 ||| (b2 <<< 8) ||| (b1 <<< 16) ||| (b0 <<< 24))

/-- Go `binary.BigEndian.Uint64(b)` with its index expressions checked: `_ = b[7]`, then
the eight bytes from `b[7]` to `b[0]`. -/
def BigEndianUint64Checked (b : Bytes) : Except GoPanic Nat := do
  let _ ← goIndex b 7
  let b7 ← goIndex b 7
  let b6 ← goIndex b 6
  let b5 ← goIndex b 5
  let b4 ← goIndex b 4
  let b3 ← goIndex b 3
  let b2 ← goIndex b 2
  let b1 ← goIndex b 1
  let b0 ← goIndex b 0
  pure (b7 ||| (b6 <<< 8) ||| (b5 <<< 16) ||| (b4 <<< 24) ||| (b3 <<< 32) ||| (b2 <<< 40) |||
    (b1 <<< 48) ||| (b0 <<< 56))

/-- Go `(ip IP) To4()` with its slice and index expressions checked:
`if len(ip) == IPv4len { return ip }`, then
`if len(ip) == IPv6len && isZeros(ip[0:10]) && ip[10] == 0xff && ip[11] == 0xff
{ return ip[12:16] }`, the operands of `&&` evaluated from the left as far as needed. -/
def IPTo4Checked (ip : Bytes) : Except GoPanic (Option Bytes) :=
  if ip.length = 4 then pure (some ip)
  else if ip.length = 16 then do
    let z ← goSlice ip 0 10
    if z.all (fun b => b == 0) then
      let b10 ← goIndex ip 10
      if b10 = 255 then
        let b11 ← goIndex ip 11
        if b11 = 255 then
          let r ← goSlice ip 12 16
          pure (some r)
        else pure none
      else pure none
    else pure none
  else pure none

/-- Go `(ip IP) To16()` with its index expressions checked:
`if len(ip) == IPv4len { return IPv4(ip[0], ip[1], ip[2], ip[3]) }`, where `IPv4` copies
the 12-byte prefix into a new 16-byte slice and stores the four bytes after it. -/
def IPTo16Checked (ip : Bytes) : Except GoPanic (Option Bytes) :=
  if ip.length = 4 then do
    let a ← goIndex ip 0
    let b ← goIndex ip 1
    let c ← goIndex ip 2
    let d ← goIndex ip 3
    pure (some ([0, 0, 0, 0, 0, 0, 0, 0, 0, 0, 255, 255] ++ [a, b, c, d]))
  else if ip.length = 16 then pure (some ip)
  else pure none

/-- The loop of `sort.Search` over a predicate that may panic; the panic of a call `f(h)`
ends the search. -/
def sortSearchLoopChecked (f : Int → Except GoPanic Bool) :
    Nat → Nat → Nat → Except GoPanic Nat
  | 0, i, _ => pure i
  | fuel + 1, i, j =>
    if i < j then do
      let h := (i + j) / 2
      let fh ← f (h : Int)
      if !fh then sortSearchLoopChecked f fuel (h + 1) j
      else sortSearchLoopChecked f fuel i h
    else pure i

/-- Go `sort.Search(n, f)` over a predicate that may panic. -/
def sortSearchChecked (n : Nat) (f : Int → Except GoPanic Bool) : Except GoPanic Int := do
  let i ← sortSearchLoopChecked f n 0 n
  pure (i : Int)

/-- Go `(s *Store) Meta(i int)` with the index expression `s.metaTable[i]` checked. -/
def Store.MetaChecked (s : Store) (i : Int) : Except GoPanic (Option IPCity.Meta) :=
  if i < s.MetaRowCount ∧ i ≥ 0 then do
    let m ← goIndex s.metaTable i
    pure (some m)
  else pure none

/-- Go `(s *Store) Entity(i int)` with the index expression `s.entityList[i]` checked. -/
def Store.EntityChecked (s : Store) (i : Int) : Except GoPanic (Option IPCity.Entity) :=
  if i < s.EntityCount ∧ i ≥ 0 then do
    let e ← goIndex s.entityList i
    pure (some e)
  else pure none

/-- Go `(s *Store) searchByIPIndex(ipIndex uint64)` over the checked accessors, one call
of `s.Entity` for each call in the source. -/
def Store.searchByIPIndexChecked (s : Store) (ipIndex : Nat) :
    Except GoPanic (Option IPCity.Meta) := do
  let index ← sortSearchChecked s.entityList.length (fun i => do
    let e ← s.EntityChecked i
    pure (decide (Entity.IPIndex e ≥ ipIndex)))
  let e0 ← s.EntityChecked index
  if e0.isSome then
    let e1 ← s.EntityChecked index
    let index := if Entity.IPIndex e1 ≠ ipIndex then index - 1 else index
    let e2 ← s.EntityChecked index
    s.MetaChecked (Entity.MetaRowIndex e2 : Nat)
  else pure none

/-- Go `(s *Store) Search(addr net.IP)` over the checked functions: `addr.To4()` and
`binary.BigEndian.Uint32(b)`, or `addr.To16()`, `b[0:8]` and `binary.BigEndian.Uint64`,
then `searchByIPIndex`. -/
def Store.SearchChecked (s : Store) (addr : Bytes) : Except GoPanic (Option IPCity.Meta) := do
  let ipIndex : Nat ←
    if Header.Mode s.header = DataModeIPv4 then do
      match ← IPTo4Checked addr with
      | some b =>
        if Header.Version s.header = 2 then do
          let v ← BigEndianUint32Checked b
          pure (v >>> 8)
        else BigEndianUint32Checked b
      | none => pure 0
    else if Header.Mode s.header = DataModeIPv6 then do
      match ← IPTo16Checked addr with
      | some b => do
        let hi ← goSlice b 0 8
        BigEndianUint64Checked hi
      | none => pure 0
    else pure 0
  s.searchByIPIndexChecked ipIndex

/-! ## store.go: loading -/

/-- State of the meta table loop of `Store.UnmarshalFrom`: the table, the rest of the
stream, the loop variable `i` and the variable `err`. -/
structure MetaTableResult where
  metaTable : List IPCity.Meta
  rest : Bytes
  i : Nat
  err : Option GoError
deriving DecidableEq, Repr

/-- The loop `for i = 0; i < int(s.Header().MetaRowCount()); i++` of `Store.UnmarshalFrom`:
each round reads a line with `ReadBytes(10)` and decodes it into a new row; it stops at the
first error.  The first argument is the number of rounds left. -/
def unmarshalMetaTableLoop : Nat → Nat → Bytes → List IPCity.Meta → MetaTableResult
  | 0, i, reader, metaTable => ⟨metaTable, reader, i, none⟩
  | n + 1, i, reader, metaTable =>
    let rd := bufioReadBytes 10 reader
    if rd.err.isSome then ⟨metaTable, rd.rest, i, rd.err⟩
    else
      let res := Meta.Unmarshal (some emptyRowValue) rd.line
      if res.2.isSome then ⟨metaTable, rd.rest, i, res.2⟩
      else unmarshalMetaTableLoop n (i + 1) rd.rest (metaTable ++ [res.1.getD emptyRowValue])

/-- State of the entity loop of `Store.UnmarshalFrom`: the list, the rest of the stream
and the variable `err`. -/
structure EntityListResult where
  entityList : List IPCity.Entity
  rest : Bytes
  err : Option GoError
deriving DecidableEq, Repr

/-- The loop `for { entity := &Entity{}; if err = unmarshaler.UnmarshalFrom(ireader, entity);
err != nil { break }; entityList = append(entityList, entity) }` of `Store.UnmarshalFrom`.
The first argument bounds the number of rounds; one more than the length of the stream
always suffices (`unmarshalEntityListLoop_fuel`), and when it runs out the loop is
reported as still running, with no error. -/
def unmarshalEntityListLoop (u : EntityUnmarshaler) :
    Nat → Bytes → List IPCity.Entity → EntityListResult
  | 0, reader, entityList => ⟨entityList, reader, none⟩
  | fuel + 1, reader, entityList =>
    let res := EntityUnmarshaler.UnmarshalFrom (some u) reader (some ⟨0, 0⟩)
    if res.2.isSome then ⟨entityList, res.1.2, res.2⟩
    else unmarshalEntityListLoop u fuel res.1.2 (entityList ++ [res.1.1.getD ⟨0, 0⟩])

/-- Go `(s *Store) UnmarshalFrom(reader io.Reader)` on a stream holding the bytes `reader`:
the store after the call and the error.  The five stages run by `goUntilError` stop at the
first error; the stages that ran have already assigned their field of the store. -/
def Store.UnmarshalFrom (s : Store) (reader : Bytes) : Store × Option GoError :=
  let hd := Header.UnmarshalFrom (some ⟨some ⟨0, 0, 0, 0, 0, 0, 0, 0⟩⟩) reader
  match hd.2 with
  | some err => (s, some (GoError.unmarshalHeaderError err))
  | none =>
    let s1 : Store := ⟨hd.1.1, s.metaTable, s.entityList⟩
    let mt := unmarshalMetaTableLoop (Header.MetaRowCount s1.header) 0 hd.1.2 []
    match mt.err with
    | some err =>
      (s1, some (GoError.unmarshalMetaTableRowError mt.i (Header.MetaRowCount s1.header) err))
    | none =>
      let s2 : Store := ⟨s1.header, mt.metaTable, s1.entityList⟩
      if s2.MetaRowCount ≠ (Header.MetaRowCount s2.header : Int) then
        (s2, some (GoError.invalidMetaTableSize s2.metaTable.length
          (Header.MetaRowCount s2.header)))
      else
        let u : EntityUnmarshaler :=
          ⟨Header.IPIndexSize s2.header, Header.MetaRowIndexSize s2.header⟩
        let el := unmarshalEntityListLoop u (mt.rest.length + 1) mt.rest []
        if el.err.isSome ∧ el.err ≠ some GoError.EOF then
          (s2, some (GoError.unmarshalEntityListError (el.err.getD GoError.EOF)))
        else
          let s3 : Store := ⟨s2.header, s2.metaTable, el.entityList⟩
          if Header.EntityCount s3.header > 0 ∧
              s3.EntityCount ≠ (Header.EntityCount s3.header : Int) then
            (s3, some (GoError.invalidEntityListSize s3.entityList.length
              (Header.EntityCount s3.header)))
          else (s3, none)

/-- The whole records of `a + b` bytes that a stream holds, in stream order: record `i`
has the positional value of its first `a` bytes as ip index and of its next `b` bytes as
meta row index. -/
def entityRecords (a b : Nat) (stream : Bytes) : List IPCity.Entity :=
  (List.range (stream.length / (a + b))).map (fun i =>
    ⟨bigEndianValue ((stream.drop (i * (a + b))).take a),
      bigEndianValue ((stream.drop (i * (a + b) + a)).take b)⟩)

/-! ## ipcity.go: the registry -/

/-- Go `type Client struct { stores []*Store }`. -/
structure Client where
  stores : List Store
deriving DecidableEq, Repr

/-- The test `meta != nil && !meta.IsEmpty()` that ends the loop of `Client.Search`. -/
def populated (m : Option IPCity.Meta) : Bool := m.isSome && !Meta.IsEmpty m

/-- The loop of `Client.Search` over the remaining stores; the last argument is the
current value of the variable `meta`, and `ip` is the value of `net.ParseIP(addr)`. -/
def Client.SearchLoop (ip : Bytes) : List Store → Option IPCity.Meta → Option IPCity.Meta
  | [], m => m
  | v :: rest, _ =>
    let m := v.Search ip
    if populated m then m else Client.SearchLoop ip rest m

/-- Go `(c *Client) Search(addr string)`.  The argument `ip` is the value of
`net.ParseIP(addr)` for the address string: `nil` (the empty sequence) when the string
is not an IP address, its 16-byte form otherwise. -/
def Client.Search (c : Client) (ip : Bytes) : Option IPCity.Meta :=
  Client.SearchLoop ip c.stores none

/-- Go package-level `Search(addr string)` over the package variable `stores`: the same
loop as `Client.Search`. -/
def Search (stores : List Store) (ip : Bytes) : Option IPCity.Meta :=
  Client.SearchLoop ip stores none

/-- Go `(c *Client) Load(filename string)`: the client after the call and the error.  The
argument is the content of the named file, or nothing when `os.Open` fails. -/
def Client.Load (c : Client) (file : Option Bytes) : Client × Option GoError :=
  match file with
  | none => (c, some GoError.openError)
  | some content =>
    let res := Store.UnmarshalFrom ⟨none, [], []⟩ content
    match res.2 with
    | some err => (c, some err)
    | none => (⟨c.stores ++ [res.1]⟩, none)

/-! ## engine.go: the lookup boundary -/

/-- The JSON body and status that `searchIPAddress` answers with. -/
structure SearchResponse where
  status : Nat
  ip : Bytes
  country : Bytes
  province : Bytes
  city : Bytes
  district : Bytes
  isp : Bytes
  backboneISP : Bytes
  countryCode : Int
  areaCode : Int
deriving DecidableEq, Repr

/-- Go `searchIPAddress(context)` for the query parameter `ip`, whose `net.ParseIP` value
is `parsed`: status 400 and zero fields when the parameter is not an IP address,
otherwise status 200 and the accessors of `IPCityClient.Search(ip)`. -/
def searchIPAddress (client : Client) (ip parsed : Bytes) : SearchResponse :=
  if parsed = [] then ⟨400, [], [], [], [], [], [], [], 0, 0⟩
  else
    let m := client.Search parsed
    ⟨200, ip, Meta.Country m, Meta.Province m, Meta.City m, Meta.District m, Meta.ISP m,
      Meta.BackboneISP m, Meta.CountryCode m, Meta.AreaCode m⟩

/-! ## Example data -/

/-- A row with only the country set. -/
def rowNamed (c : Bytes) : IPCity.Meta := ⟨c, [], [], [], [], [], 0, 0⟩

/-- Entities `[100, 200, 300]` mapping to rows `[0, 1, 2]` over a three-row table. -/
def exampleStore : Store :=
  ⟨none, [rowNamed [65], rowNamed [66], rowNamed [67]], [⟨100, 0⟩, ⟨200, 1⟩, ⟨300, 2⟩]⟩

/-- The row with all eight fields at their zero value. -/
def emptyRow : IPCity.Meta := ⟨[], [], [], [], [], [], 0, 0⟩

/-- A store without header whose only entity maps index 0 to its only row. -/
def storeAtZero (row : IPCity.Meta) : Store := ⟨none, [row], [⟨0, 0⟩]⟩

/-! # Theorems -/

/-! ## Binary search -/

/-- The loop of `sort.Search`, run with at least `j - i` iterations on a predicate that is
monotone below `n`, stops at the least index of `[i, j]` from which the predicate holds. -/
theorem sortSearchLoop_spec (f : Int → Bool) (n : Nat)
    (hmono : ∀ a b : Nat, a ≤ b → b < n → f (a : Int) = true → f (b : Int) = true) :
    ∀ fuel i j : Nat, i ≤ j → j ≤ n → j - i ≤ fuel →
      i ≤ sortSearchLoop f fuel i j ∧ sortSearchLoop f fuel i j ≤ j ∧
      (∀ k : Nat, i ≤ k → k < sortSearchLoop f fuel i j → f (k : Int) = false) ∧
      (sortSearchLoop f fuel i j < j → f ((sortSearchLoop f fuel i j : Nat) : Int) = true) := by
  intro fuel
  induction fuel with
  | zero =>
    intro i j hij _ hfuel
    have hji : j = i := by omega
    subst hji
    refine ⟨le_refl _, le_refl _, ?_, ?_⟩
    · intro k hk1 hk2
      simp only [sortSearchLoop] at hk2
      omega
    · intro hlt
      simp only [sortSearchLoop] at hlt
      omega
  | succ fuel ih =>
    intro i j hij hjn hfuel
    by_cases hlt : i < j
    · have hh1 : i ≤ (i + j) / 2 := by omega
      have hh2 : (i + j) / 2 < j := by omega
      cases hf : f (((i + j) / 2 : Nat) : Int) with
      | false =>
        have hstep : sortSearchLoop f (fuel + 1) i j
            = sortSearchLoop f fuel ((i + j) / 2 + 1) j := by
          simp only [sortSearchLoop, hlt, hf, if_true, Bool.not_false, Bool.not_true,
            Bool.false_eq_true, if_false]
        rw [hstep]
        obtain ⟨h1, h2, h3, h4⟩ := ih ((i + j) / 2 + 1) j (by omega) hjn (by omega)
        refine ⟨by omega, h2, ?_, h4⟩
        intro k hk1 hk2
        by_cases hk : (i + j) / 2 + 1 ≤ k
        · exact h3 k hk hk2
        · cases hfk : f (k : Int) with
          | false => rfl
          | true =>
            have := hmono k ((i + j) / 2) (by omega) (by omega) hfk
            rw [hf] at this
            exact absurd this (by simp)
      | true =>
        have hstep : sortSearchLoop f (fuel + 1) i j
            = sortSearchLoop f fuel i ((i + j) / 2) := by
          simp only [sortSearchLoop, hlt, hf, if_true, Bool.not_false, Bool.not_true,
            Bool.false_eq_true, if_false]
        rw [hstep]
        obtain ⟨h1, h2, h3, h4⟩ := ih i ((i + j) / 2) hh1 (by omega) (by omega)
        refine ⟨h1, by omega, h3, ?_⟩
        intro _
        by_cases hr : sortSearchLoop f fuel i ((i + j) / 2) < (i + j) / 2
        · exact h4 hr
        · have : sortSearchLoop f fuel i ((i + j) / 2) = (i + j) / 2 := by omega
          rw [this]
          exact hf
    · have hji : j = i := by omega
      subst hji
      have hstep : sortSearchLoop f (fuel + 1) j j = j := by
        simp [sortSearchLoop]
      rw [hstep]
      refine ⟨le_refl _, le_refl _, ?_, ?_⟩
      · intro k hk1 hk2
        omega
      · intro h
        omega

/-- Characterisation of `sort.Search(n, f)` for a predicate monotone below `n`: the result
is at most `n`, the predicate fails below it and holds at it when it is below `n`. -/
theorem sortSearch_spec (f : Int → Bool) (n : Nat)
    (hmono : ∀ a b : Nat, a ≤ b → b < n → f (a : Int) = true → f (b : Int) = true) :
    ∃ r : Nat, sortSearch n f = (r : Int) ∧ r ≤ n ∧
      (∀ k : Nat, k < r → f (k : Int) = false) ∧ (r < n → f (r : Int) = true) := by
  obtain ⟨_, h2, h3, h4⟩ := sortSearchLoop_spec f n hmono n 0 n (Nat.zero_le _) (le_refl _)
    (by omega)
  exact ⟨sortSearchLoop f n 0 n, rfl, h2, fun k hk => h3 k (Nat.zero_le _) hk, h4⟩

/-- The loop of `sort.Search` leaves by its own test `i < j`: once the fuel covers `j - i`,
more fuel does not change the result, whatever the predicate. -/
theorem sortSearchLoop_fuel (f : Int → Bool) :
    ∀ fuel i j : Nat, j - i ≤ fuel →
      sortSearchLoop f (fuel + 1) i j = sortSearchLoop f fuel i j := by
  intro fuel
  induction fuel with
  | zero =>
    intro i j hfuel
    have hij : ¬ i < j := by omega
    simp only [sortSearchLoop, hij, if_false]
  | succ fuel ih =>
    intro i j hfuel
    by_cases hlt : i < j
    · have e1 : ∀ k : Nat, sortSearchLoop f (k + 1) i j =
          if !f (((i + j) / 2 : Nat) : Int) then sortSearchLoop f k ((i + j) / 2 + 1) j
          else sortSearchLoop f k i ((i + j) / 2) := by
        intro k
        simp only [sortSearchLoop, hlt, if_true]
      rw [e1 (fuel + 1), e1 fuel, ih ((i + j) / 2 + 1) j (by omega),
        ih i ((i + j) / 2) (by omega)]
    · simp only [sortSearchLoop, hlt, if_false]

/-! ## Store accessors -/

/-- At a natural index, `Store.Entity` is the list lookup. -/
theorem Store.Entity_natCast (s : Store) (k : Nat) :
    s.Entity (k : Int) = s.entityList[k]? := by
  unfold Store.Entity Store.EntityCount
  by_cases hk : k < s.entityList.length
  · simp [hk]
  · have : s.entityList[k]? = none := List.getElem?_eq_none (by omega)
    simp [hk, this]

/-- At a natural index, `Store.Meta` is the list lookup. -/
theorem Store.Meta_natCast (s : Store) (k : Nat) :
    s.Meta (k : Int) = s.metaTable[k]? := by
  unfold Store.Meta Store.MetaRowCount
  by_cases hk : k < s.metaTable.length
  · simp [hk]
  · have : s.metaTable[k]? = none := List.getElem?_eq_none (by omega)
    simp [hk, this]

/-- At a negative index `Store.Entity` is `nil`. -/
theorem Store.Entity_neg (s : Store) (i : Int) (hi : i < 0) : s.Entity i = none := by
  unfold Store.Entity
  have : ¬ (i < s.EntityCount ∧ i ≥ 0) := by omega
  simp [this]

/-- In a list strictly ascending by `ipIndex`, a later entry has a larger `ipIndex`. -/
theorem ascending_getElem? (L : List Entity)
    (hasc : L.Pairwise (fun a b => a.ipIndex < b.ipIndex)) (a b : Nat) (ea eb : Entity)
    (ha : L[a]? = some ea) (hb : L[b]? = some eb) (hab : a < b) :
    ea.ipIndex < eb.ipIndex := by
  rw [List.pairwise_iff_getElem] at hasc
  obtain ⟨ha1, ha2⟩ := List.getElem?_eq_some.mp ha
  obtain ⟨hb1, hb2⟩ := List.getElem?_eq_some.mp hb
  have := hasc a b ha1 hb1 hab
  rw [ha2, hb2] at this
  exact this

/-- The range search unfolded at the natural number that `sort.Search` returns. -/
theorem Store.searchByIPIndex_of_index (s : Store) (t r : Nat)
    (hr : sortSearch s.entityList.length
      (fun i => decide (Entity.IPIndex (s.Entity i) ≥ t)) = (r : Int)) :
    s.searchByIPIndex t =
      if (s.entityList[r]?).isSome then
        s.Meta (Entity.MetaRowIndex
          (s.Entity (if Entity.IPIndex (s.entityList[r]?) ≠ t then (r : Int) - 1 else (r : Int)))
            : Nat)
      else none := by
  unfold Store.searchByIPIndex
  simp only [hr, Store.Entity_natCast]

/-! ## Range search (C1, C2, C3) -/

/-- C1: in a store whose entity list is strictly ascending by `ipIndex`, for a target `t`
between the first and the last `ipIndex`, `searchByIPIndex` returns the meta row at the
`metaRowIndex` of the entity with the greatest `ipIndex <= t`; when that index is inside
the meta table the result is that row. -/
theorem searchByIPIndex_in_range (s : Store) (t : Nat) (e0 eL : Entity)
    (hasc : s.entityList.Pairwise (fun a b => a.ipIndex < b.ipIndex))
    (h0 : s.entityList.head? = some e0) (hL : s.entityList.getLast? = some eL)
    (hlo : e0.ipIndex ≤ t) (hhi : t ≤ eL.ipIndex) :
    ∃ e ∈ s.entityList, e.ipIndex ≤ t ∧
      (∀ e2 ∈ s.entityList, e2.ipIndex ≤ t → e2.ipIndex ≤ e.ipIndex) ∧
      s.searchByIPIndex t = s.Meta (e.metaRowIndex : Nat) ∧
      ∀ h : e.metaRowIndex < s.metaTable.length,
        s.searchByIPIndex t = some (s.metaTable[e.metaRowIndex]) := by
  have hmono : ∀ a b : Nat, a ≤ b → b < s.entityList.length →
      (fun i : Int => decide (Entity.IPIndex (s.Entity i) ≥ t)) (a : Int) = true →
      (fun i : Int => decide (Entity.IPIndex (s.Entity i) ≥ t)) (b : Int) = true := by
    intro a b hab hb
    simp only [Store.Entity_natCast]
    have hga : s.entityList[a]? = some s.entityList[a] := List.getElem?_eq_getElem (by omega)
    have hgb : s.entityList[b]? = some s.entityList[b] := List.getElem?_eq_getElem hb
    rw [hga, hgb]
    simp only [Entity.IPIndex, decide_eq_true_eq]
    intro hta
    rcases Nat.eq_or_lt_of_le hab with heq | hlt
    · subst heq
      exact hta
    · have := ascending_getElem? s.entityList hasc a b _ _ hga hgb hlt
      omega
  obtain ⟨r, hr, hrn, hbelow, hat⟩ := sortSearch_spec
    (fun i : Int => decide (Entity.IPIndex (s.Entity i) ≥ t)) s.entityList.length hmono
  simp only [Store.Entity_natCast] at hbelow hat
  rw [List.getLast?_eq_getElem?] at hL
  rw [List.head?_eq_getElem?] at h0
  have hnpos : s.entityList.length - 1 < s.entityList.length :=
    (List.getElem?_eq_some.mp hL).1
  have hrlt : r < s.entityList.length := by
    by_contra hcon
    have hrn2 : r = s.entityList.length := by omega
    have := hbelow (s.entityList.length - 1) (by omega)
    rw [hL] at this
    simp only [Entity.IPIndex, decide_eq_false_iff_not] at this
    omega
  have her : s.entityList[r]? = some s.entityList[r] := List.getElem?_eq_getElem hrlt
  have hge := hat hrlt
  rw [her] at hge
  simp only [Entity.IPIndex, decide_eq_true_eq] at hge
  rw [Store.searchByIPIndex_of_index s t r hr, her]
  simp only [Option.isSome_some, if_true, Entity.IPIndex]
  by_cases heq : s.entityList[r].ipIndex = t
  · have hres : s.Meta (Entity.MetaRowIndex (s.Entity
        (if s.entityList[r].ipIndex ≠ t then (r : Int) - 1 else (r : Int))) : Nat)
        = s.Meta (s.entityList[r].metaRowIndex : Nat) := by
      simp only [heq, ne_eq, not_true_eq_false, if_false, Store.Entity_natCast, her,
        Entity.MetaRowIndex]
    refine ⟨s.entityList[r], List.getElem_mem _, by omega, ?_, hres, ?_⟩
    · intro e2 _ he2
      omega
    · intro h
      rw [hres, Store.Meta_natCast, List.getElem?_eq_getElem h]
  · have hr0 : r ≠ 0 := by
      intro hz
      subst hz
      rw [her] at h0
      have : s.entityList[0] = e0 := Option.some.inj h0
      rw [this] at heq hge
      omega
    obtain ⟨p, rfl⟩ := Nat.exists_eq_succ_of_ne_zero hr0
    have hplt : p < s.entityList.length := by omega
    have hep : s.entityList[p]? = some s.entityList[p] := List.getElem?_eq_getElem hplt
    have hcast : (((p + 1 : Nat) : Int) - 1) = (p : Int) := by push_cast; ring
    have hres : s.Meta (Entity.MetaRowIndex (s.Entity
        (if s.entityList[p + 1].ipIndex ≠ t then ((p + 1 : Nat) : Int) - 1
          else ((p + 1 : Nat) : Int))) : Nat)
        = s.Meta (s.entityList[p].metaRowIndex : Nat) := by
      rw [if_pos heq, hcast, Store.Entity_natCast, hep]
      rfl
    have hpl := hbelow p (by omega)
    rw [hep] at hpl
    simp only [Entity.IPIndex, decide_eq_false_iff_not] at hpl
    refine ⟨s.entityList[p], List.getElem_mem _, by omega, ?_, hres, ?_⟩
    · intro e2 he2 hle
      obtain ⟨m, hm, hme⟩ := List.getElem_of_mem he2
      have hgm : s.entityList[m]? = some e2 := by
        rw [List.getElem?_eq_getElem hm, hme]
      by_cases hmp : m ≤ p
      · rcases Nat.eq_or_lt_of_le hmp with h1 | h1
        · subst h1
          rw [hep] at hgm
          rw [Option.some.inj hgm]
        · have := ascending_getElem? s.entityList hasc m p _ _ hgm hep h1
          omega
      · rcases Nat.eq_or_lt_of_le (show p + 1 ≤ m by omega) with h1 | h1
        · subst h1
          rw [her] at hgm
          rw [← Option.some.inj hgm] at hle
          omega
        · have := ascending_getElem? s.entityList hasc (p + 1) m _ _ her hgm h1
          omega
    · intro h
      rw [hres, Store.Meta_natCast, List.getElem?_eq_getElem h]

/-- Witness for C1 on the entities `[100, 200, 300]` with target 150. -/
theorem searchByIPIndex_in_range_witness :
    (exampleStore.entityList.Pairwise (fun a b => a.ipIndex < b.ipIndex) ∧
      exampleStore.entityList.head? = some ⟨100, 0⟩ ∧
      exampleStore.entityList.getLast? = some ⟨300, 2⟩ ∧ 100 ≤ 150 ∧ 150 ≤ 300) ∧
    ∃ e ∈ exampleStore.entityList, e.ipIndex ≤ 150 ∧
      (∀ e2 ∈ exampleStore.entityList, e2.ipIndex ≤ 150 → e2.ipIndex ≤ e.ipIndex) ∧
      exampleStore.searchByIPIndex 150 = exampleStore.Meta (e.metaRowIndex : Nat) ∧
      ∀ h : e.metaRowIndex < exampleStore.metaTable.length,
        exampleStore.searchByIPIndex 150 = some (exampleStore.metaTable[e.metaRowIndex]) :=
  ⟨by decide, searchByIPIndex_in_range exampleStore 150 ⟨100, 0⟩ ⟨300, 2⟩
    (by decide) (by decide) (by decide) (by decide) (by decide)⟩

/-- C2 as stated fails: on the ascending entities `[100, 200, 300]` mapping to rows
`[0, 1, 2]`, the target 350 exceeds every `ipIndex`, yet `searchByIPIndex` does not return
the row of the last entity. -/
theorem searchByIPIndex_above_last_counterexample :
    ¬ (∀ (s : Store) (t : Nat) (eL : Entity),
        s.entityList.Pairwise (fun a b => a.ipIndex < b.ipIndex) →
        s.entityList.getLast? = some eL →
        (∀ e ∈ s.entityList, e.ipIndex < t) →
        s.searchByIPIndex t = s.Meta (eL.metaRowIndex : Nat)) := by
  intro h
  have h350 := h exampleStore 350 ⟨300, 2⟩ (by decide) (by decide) (by decide)
  revert h350
  decide

/-- C2, amended: for every store and every target greater than every entity's `ipIndex`
(in particular when the entity list is non-empty and ascending), `sort.Search` lands past
the end and `searchByIPIndex` yields a missing result. -/
theorem searchByIPIndex_above_last_missing (s : Store) (t : Nat)
    (hgt : ∀ e ∈ s.entityList, e.ipIndex < t) :
    s.searchByIPIndex t = none := by
  have hfalse : ∀ a : Nat, a < s.entityList.length →
      (fun i : Int => decide (Entity.IPIndex (s.Entity i) ≥ t)) (a : Int) = false := by
    intro a ha
    simp only [Store.Entity_natCast]
    rw [List.getElem?_eq_getElem ha]
    have := hgt _ (List.getElem_mem ha)
    simp only [Entity.IPIndex, decide_eq_false_iff_not]
    omega
  have hmono : ∀ a b : Nat, a ≤ b → b < s.entityList.length →
      (fun i : Int => decide (Entity.IPIndex (s.Entity i) ≥ t)) (a : Int) = true →
      (fun i : Int => decide (Entity.IPIndex (s.Entity i) ≥ t)) (b : Int) = true := by
    intro a b hab hb hta
    have h2 := hfalse a (by omega)
    simp only [hta] at h2
    exact absurd h2 (by simp)
  obtain ⟨r, hr, hrn, _, hat⟩ := sortSearch_spec
    (fun i : Int => decide (Entity.IPIndex (s.Entity i) ≥ t)) s.entityList.length hmono
  have hrn2 : r = s.entityList.length := by
    by_contra hcon
    have hlt : r < s.entityList.length := by omega
    have h1 := hat hlt
    have h2 := hfalse r hlt
    simp only [h1] at h2
    exact absurd h2 (by simp)
  subst hrn2
  rw [Store.searchByIPIndex_of_index s t _ hr]
  have : s.entityList[s.entityList.length]? = none := List.getElem?_eq_none (le_refl _)
  simp [this]

/-- Witness for the amended C2: entities `[100, 200, 300]`, target 350. -/
theorem searchByIPIndex_above_last_missing_witness :
    (∀ e ∈ exampleStore.entityList, e.ipIndex < 350) ∧
      exampleStore.searchByIPIndex 350 = none :=
  ⟨by decide, searchByIPIndex_above_last_missing exampleStore 350 (by decide)⟩

/-- Below the first entity of an ascending list the range search steps back to index -1,
where the nil-safe `MetaRowIndex` gives 0, and so returns `Meta(0)`. -/
theorem searchByIPIndex_below_first (s : Store) (t : Nat) (e0 : Entity)
    (hasc : s.entityList.Pairwise (fun a b => a.ipIndex < b.ipIndex))
    (h0 : s.entityList.head? = some e0) (hlt : t < e0.ipIndex) :
    s.searchByIPIndex t = s.Meta 0 := by
  rw [List.head?_eq_getElem?] at h0
  have htrue : ∀ a : Nat, a < s.entityList.length →
      (fun i : Int => decide (Entity.IPIndex (s.Entity i) ≥ t)) (a : Int) = true := by
    intro a ha
    simp only [Store.Entity_natCast]
    have hga : s.entityList[a]? = some s.entityList[a] := List.getElem?_eq_getElem ha
    rw [hga]
    simp only [Entity.IPIndex, decide_eq_true_eq]
    rcases Nat.eq_zero_or_pos a with hz | hpos
    · subst hz
      rw [hga] at h0
      rw [Option.some.inj h0]
      omega
    · have := ascending_getElem? s.entityList hasc 0 a _ _ h0 hga hpos
      omega
  obtain ⟨r, hr, _, hbelow, _⟩ := sortSearch_spec
    (fun i : Int => decide (Entity.IPIndex (s.Entity i) ≥ t)) s.entityList.length
    (fun a b _ hb _ => htrue b hb)
  have hpos : 0 < s.entityList.length := (List.getElem?_eq_some.mp h0).1
  have hr0 : r = 0 := by
    by_contra hne
    have h1 := hbelow 0 (by omega)
    have h2 := htrue 0 hpos
    simp only [h1] at h2
    exact absurd h2 (by simp)
  subst hr0
  have hne : e0.ipIndex ≠ t := by omega
  rw [Store.searchByIPIndex_of_index s t 0 hr, h0]
  simp only [Option.isSome_some, if_true, Entity.IPIndex, hne, ne_eq, not_false_eq_true]
  rw [Store.Entity_neg s _ (by decide)]
  rfl

/-- C3, the code at the failing input: on the ascending entities `[100, 200, 300]` the
target 50 is below the first `ipIndex`, and `searchByIPIndex` returns meta row 0 (the row
of the entity 100) instead of a missing result. -/
theorem searchByIPIndex_below_first_row0 :
    exampleStore.entityList.Pairwise (fun a b => a.ipIndex < b.ipIndex) ∧
    exampleStore.entityList.head? = some ⟨100, 0⟩ ∧ 50 < 100 ∧
    exampleStore.searchByIPIndex 50 = exampleStore.Meta 0 ∧
    exampleStore.searchByIPIndex 50 = some (rowNamed [65]) := by
  decide

/-! ## Registry dispatch (C4, C5, C6) -/

/-- The loop of `Client.Search` stops at the first store with a populated result. -/
theorem Client.SearchLoop_stop (ip : Bytes) (pre : List Store) (s : Store)
    (post : List Store) (m0 : Option IPCity.Meta)
    (hpre : ∀ p ∈ pre, populated (p.Search ip) = false)
    (hs : populated (s.Search ip) = true) :
    Client.SearchLoop ip (pre ++ s :: post) m0 = s.Search ip := by
  induction pre generalizing m0 with
  | nil => simp [Client.SearchLoop, hs]
  | cons p ps ih =>
    have hp : populated (p.Search ip) = false := hpre p (List.mem_cons_self _ _)
    have hps : ∀ q ∈ ps, populated (q.Search ip) = false :=
      fun q hq => hpre q (List.mem_cons_of_mem _ hq)
    simp only [List.cons_append, Client.SearchLoop, hp, Bool.false_eq_true, if_false]
    exact ih _ hps

/-- When no store has a populated result, the loop of `Client.Search` ends with the
result of the last store, or with the initial value of `meta` when there is no store. -/
theorem Client.SearchLoop_exhaust (ip : Bytes) (l : List Store) (m0 : Option IPCity.Meta)
    (hall : ∀ p ∈ l, populated (p.Search ip) = false) :
    Client.SearchLoop ip l m0 =
      match l.getLast? with
      | some s => s.Search ip
      | none => m0 := by
  induction l generalizing m0 with
  | nil => simp [Client.SearchLoop]
  | cons p ps ih =>
    have hp : populated (p.Search ip) = false := hall p (List.mem_cons_self _ _)
    have hps : ∀ q ∈ ps, populated (q.Search ip) = false :=
      fun q hq => hall q (List.mem_cons_of_mem _ hq)
    simp only [Client.SearchLoop, hp, Bool.false_eq_true, if_false]
    rw [ih _ hps]
    cases ps with
    | nil => simp
    | cons q qs =>
      rw [List.getLast?_cons_cons, List.getLast?_eq_getLast _ (List.cons_ne_nil q qs)]

/-- A list with an element satisfying a test splits at the first such element. -/
theorem exists_first_split (P : Store → Bool) (l : List Store)
    (h : ∃ s ∈ l, P s = true) :
    ∃ pre s post, l = pre ++ s :: post ∧ (∀ p ∈ pre, P p = false) ∧ P s = true := by
  induction l with
  | nil =>
    obtain ⟨s, hs, _⟩ := h
    exact absurd hs (List.not_mem_nil s)
  | cons a as ih =>
    cases ha : P a with
    | true => exact ⟨[], a, as, rfl, fun p hp => absurd hp (List.not_mem_nil p), ha⟩
    | false =>
      have h2 : ∃ s ∈ as, P s = true := by
        obtain ⟨s, hs, hps⟩ := h
        rcases List.mem_cons.mp hs with heq | hmem
        · subst heq
          rw [ha] at hps
          exact absurd hps (by simp)
        · exact ⟨s, hmem, hps⟩
      obtain ⟨pre, s, post, hsplit, hpre, hs⟩ := ih h2
      refine ⟨a :: pre, s, post, by rw [hsplit]; rfl, ?_, hs⟩
      intro p hp
      rcases List.mem_cons.mp hp with heq | hmem
      · subst heq
        exact ha
      · exact hpre p hmem

/-- C4: if some store of the registry has a result that is non-missing and not `IsEmpty`,
`Client.Search` returns the result of the first such store in load order; in particular
with two stores of which the first is not populated (for instance empty but present), the
result of the second store is returned. -/
theorem Client_Search_first_populated (c : Client) (ip : Bytes)
    (hex : ∃ s ∈ c.stores, populated (s.Search ip) = true) :
    (∃ pre s post, c.stores = pre ++ s :: post ∧
      (∀ p ∈ pre, populated (p.Search ip) = false) ∧
      populated (s.Search ip) = true ∧ c.Search ip = s.Search ip) ∧
    (∀ A B : Store, c.stores = [A, B] → populated (A.Search ip) = false →
      populated (B.Search ip) = true ∧ c.Search ip = B.Search ip) := by
  constructor
  · obtain ⟨pre, s, post, hsplit, hpre, hs⟩ :=
      exists_first_split (fun s => populated (s.Search ip)) c.stores hex
    refine ⟨pre, s, post, hsplit, hpre, hs, ?_⟩
    unfold Client.Search
    rw [hsplit]
    exact Client.SearchLoop_stop ip pre s post none hpre hs
  · intro A B hAB hA
    have hB : populated (B.Search ip) = true := by
      obtain ⟨s, hs, hps⟩ := hex
      rw [hAB] at hs
      simp only [List.mem_cons, List.mem_singleton, List.not_mem_nil, or_false] at hs
      rcases hs with h1 | h1
      · subst h1
        rw [hA] at hps
        exact absurd hps (by simp)
      · subst h1
        exact hps
    refine ⟨hB, ?_⟩
    unfold Client.Search
    rw [hAB]
    exact Client.SearchLoop_stop ip [A] B [] none
      (fun p hp => by rw [List.mem_singleton.mp hp]; exact hA) hB

/-- Witness for C4: the first store holds an empty row at index 0, the second a named
row; the lookup of the absent address returns the second store's row. -/
theorem Client_Search_first_populated_witness :
    (∃ s ∈ (Client.mk [storeAtZero emptyRow, storeAtZero (rowNamed [65])]).stores,
      populated (s.Search []) = true) ∧
    (Client.mk [storeAtZero emptyRow, storeAtZero (rowNamed [65])]).Search []
      = (storeAtZero (rowNamed [65])).Search [] :=
  ⟨⟨storeAtZero (rowNamed [65]), by decide, by decide⟩,
    ((Client_Search_first_populated
      (Client.mk [storeAtZero emptyRow, storeAtZero (rowNamed [65])]) []
      ⟨storeAtZero (rowNamed [65]), by decide, by decide⟩).2
        (storeAtZero emptyRow) (storeAtZero (rowNamed [65])) rfl (by decide)).2⟩

/-- C5 as stated fails: a registry whose only store answers with an empty but present
row returns that row, not a missing result. -/
theorem Client_Search_none_populated_counterexample :
    ¬ (∀ (c : Client) (ip : Bytes),
        (∀ s ∈ c.stores, populated (s.Search ip) = false) → c.Search ip = none) := by
  intro h
  have h1 := h (Client.mk [storeAtZero emptyRow]) [] (by decide)
  revert h1
  decide

/-- C5, amended: if no store of the registry has a populated result, `Client.Search`
returns the result of the last store in load order (missing, or an empty but present
row), so that `IsEmpty` holds of it; with no store at all it returns a missing result.
The package-level `Search` over the same stores returns the same. -/
theorem Client_Search_none_populated (c : Client) (ip : Bytes)
    (hall : ∀ s ∈ c.stores, populated (s.Search ip) = false) :
    c.Search ip = (c.stores.getLast?).bind (fun s => s.Search ip) ∧
    Meta.IsEmpty (c.Search ip) = true ∧
    (c.stores = [] → c.Search ip = none) ∧
    Search c.stores ip = c.Search ip := by
  have hloop := Client.SearchLoop_exhaust ip c.stores none hall
  have hres : c.Search ip = (c.stores.getLast?).bind (fun s => s.Search ip) := by
    unfold Client.Search
    rw [hloop]
    cases c.stores.getLast? <;> rfl
  refine ⟨hres, ?_, ?_⟩
  · rw [hres]
    cases hlast : c.stores.getLast? with
    | none => rfl
    | some s =>
      have hs := hall s (List.mem_of_getLast?_eq_some hlast)
      simp only [Option.some_bind]
      unfold populated at hs
      cases hr : s.Search ip with
      | none => rfl
      | some r =>
        rw [hr] at hs
        simpa using hs
  · refine ⟨?_, rfl⟩
    intro hnil
    rw [hres, hnil]
    rfl

/-- Witness for the amended C5: one store answering with an empty but present row. -/
theorem Client_Search_none_populated_witness :
    (∀ s ∈ (Client.mk [storeAtZero emptyRow]).stores, populated (s.Search []) = false) ∧
    (Client.mk [storeAtZero emptyRow]).Search [] = some emptyRow :=
  ⟨by decide,
    (Client_Search_none_populated (Client.mk [storeAtZero emptyRow]) [] (by decide)).1⟩

/-- C6 as stated fails: for an address string that is not an IP address (`net.ParseIP`
gives `nil`), a registry whose store maps index 0 to a named row returns that row. -/
theorem Client_Search_unparsed_counterexample :
    ¬ (∀ c : Client, Meta.IsEmpty (c.Search []) = true) := by
  intro h
  have h1 := h (Client.mk [storeAtZero (rowNamed [65])])
  revert h1
  decide

/-- C6, amended: for an address string that is not an IP address, the lookup boundary
`searchIPAddress` answers with all eight metadata fields at their zero value whatever the
registry holds, and every store's `Search` of the absent address is the range search for
index 0. -/
theorem unparsed_address_lookup (client : Client) (ip : Bytes) :
    searchIPAddress client ip [] = ⟨400, [], [], [], [], [], [], [], 0, 0⟩ ∧
    (∀ s : Store, s.Search [] = s.searchByIPIndex 0) := by
  refine ⟨rfl, ?_⟩
  intro s
  unfold Store.Search
  have h4 : IPTo4 [] = none := by decide
  have h16 : IPTo16 [] = none := by decide
  simp only [h4, h16]
  split_ifs <;> rfl

/-! ## Header codec (C7) -/

/-- A bitwise or with a value shifted past the bits of the other operand is a sum. -/
theorem lor_shiftLeft_eq_add (x y k : Nat) (hx : x < 2 ^ k) :
    x ||| (y <<< k) = x + y * 2 ^ k := by
  rw [Nat.shiftLeft_eq, Nat.lor_comm, Nat.mul_comm y, ← Nat.mul_add_lt_is_or hx y,
    Nat.add_comm]

/-- The value `binary.BigEndian.Uint32` reads from four bytes. -/
theorem BigEndianUint32_bytes (a b c d : Nat) (hb : b < 256) (hc : c < 256)
    (hd : d < 256) :
    BigEndianUint32 [a, b, c, d] = a * 2 ^ 24 + b * 2 ^ 16 + c * 2 ^ 8 + d := by
  have h1 : BigEndianUint32 [a, b, c, d] = d ||| (c <<< 8) ||| (b <<< 16) ||| (a <<< 24) := rfl
  rw [h1, lor_shiftLeft_eq_add d c 8 (by omega),
    lor_shiftLeft_eq_add _ b 16 (by omega), lor_shiftLeft_eq_add _ a 24 (by omega)]
  omega

/-- Reading back the four bytes written for a 32-bit value gives the value. -/
theorem BigEndianUint32_PutUint32 (v : Nat) (hv : v < 2 ^ 32) :
    BigEndianUint32 (BigEndianPutUint32 v) = v := by
  unfold BigEndianPutUint32
  rw [BigEndianUint32_bytes _ _ _ _ (Nat.mod_lt _ (by decide)) (Nat.mod_lt _ (by decide))
    (Nat.mod_lt _ (by decide))]
  simp only [Nat.shiftRight_eq_div_pow]
  omega

/-- C7: header round trip.  For every header whose version, mode and two widths are bytes
and whose four counts and times are 32-bit values, `Marshal` succeeds and `Unmarshal` of
the bytes it produced, into any header, succeeds and yields the same eight fields. -/
theorem Header_roundtrip (h h0 : headerImpl)
    (hv : h.Version < 256) (hm : h.Mode < 256) (hi : h.IPIndexSize < 256)
    (hr : h.MetaRowIndexSize < 256) (hmc : h.MetaRowCount < 2 ^ 32)
    (hec : h.EntityCount < 2 ^ 32) (hst : h.SourceUpdatedTime < 2 ^ 32)
    (hut : h.UpdatedTime < 2 ^ 32) :
    (Header.Marshal (some ⟨some h⟩)).2 = none ∧
    (Header.Marshal (some ⟨some h⟩)).1.length = 24 ∧
    Header.Unmarshal (some ⟨some h0⟩) (Header.Marshal (some ⟨some h⟩)).1
      = (some ⟨some h⟩, none) := by
  refine ⟨rfl, rfl, ?_⟩
  obtain ⟨v, m, i, r, mc, ec, st, ut⟩ := h
  simp only at hv hm hi hr hmc hec hst hut
  have e1 := BigEndianUint32_PutUint32 mc hmc
  have e2 := BigEndianUint32_PutUint32 ec hec
  have e3 := BigEndianUint32_PutUint32 st hst
  have e4 := BigEndianUint32_PutUint32 ut hut
  unfold BigEndianPutUint32 at e1 e2 e3 e4
  simp [Header.Unmarshal, Header.UnmarshalFrom, Header.Marshal, Header.MarshalTo,
    headerImpl.WriteTo, headerImpl.ReadFrom, ioReadFull, headerBytesLength, DataMagicNumber,
    BigEndianPutUint32, e1, e2, e3, e4, Nat.mod_eq_of_lt hv, Nat.mod_eq_of_lt hm,
    Nat.mod_eq_of_lt hi, Nat.mod_eq_of_lt hr]

/-- Witness for C7: a version 3 IPv4 header with 70000 rows. -/
theorem Header_roundtrip_witness :
    Header.Unmarshal (some ⟨some ⟨0, 0, 0, 0, 0, 0, 0, 0⟩⟩)
      (Header.Marshal (some ⟨some ⟨3, 1, 0, 0, 70000, 5, 1700000000, 1700000001⟩⟩)).1
      = (some ⟨some ⟨3, 1, 0, 0, 70000, 5, 1700000000, 1700000001⟩⟩, none) :=
  (Header_roundtrip ⟨3, 1, 0, 0, 70000, 5, 1700000000, 1700000001⟩ ⟨0, 0, 0, 0, 0, 0, 0, 0⟩
    (by decide) (by decide) (by decide) (by decide) (by decide) (by decide) (by decide)
    (by decide)).2.2

/-! ## Entity codec (C8) -/

/-- The reading loop adds the positional value of the bytes left to a value whose bits
below them are clear, as long as they fit the integer width. -/
theorem readScalableLoop_eq (W l : Nat) :
    ∀ (bytes : Bytes) (i value : Nat), (∀ b ∈ bytes, b < 256) →
      l + 1 = i + bytes.length → 8 * bytes.length ≤ W →
      2 ^ (8 * bytes.length) ∣ value →
      readScalableLoop W l bytes i value = value + bigEndianValue bytes := by
  intro bytes
  induction bytes with
  | nil =>
    intro i value _ _ _ _
    simp [readScalableLoop, bigEndianValue]
  | cons b rest ih =>
    intro i value hb hl hW hdvd
    have hb256 : b < 256 := hb b (List.mem_cons_self _ _)
    have hrest : ∀ c ∈ rest, c < 256 := fun c hc => hb c (List.mem_cons_of_mem _ hc)
    simp only [List.length_cons] at hl hW hdvd
    have hli : l - i = rest.length := by omega
    have hpow : (2 : Nat) ^ (8 * (rest.length + 1)) = 2 ^ (8 * rest.length) * 256 := by
      rw [Nat.mul_add, Nat.pow_add]
    have hterm_lt : b * 2 ^ (8 * rest.length) < 2 ^ (8 * (rest.length + 1)) := by
      rw [hpow, Nat.mul_comm]
      exact Nat.mul_lt_mul_of_pos_left hb256 (Nat.pow_pos (by decide))
    have hle : (2 : Nat) ^ (8 * (rest.length + 1)) ≤ 2 ^ W :=
      Nat.pow_le_pow_right (by decide) hW
    have hterm : (b <<< (8 * (l - i))) % 2 ^ W = b * 2 ^ (8 * rest.length) := by
      rw [hli, Nat.shiftLeft_eq]
      exact Nat.mod_eq_of_lt (by omega)
    obtain ⟨q, hq⟩ := hdvd
    have hor : value ||| b * 2 ^ (8 * rest.length) = value + b * 2 ^ (8 * rest.length) := by
      rw [hq]
      exact (Nat.mul_add_lt_is_or hterm_lt q).symm
    have hdvd2 : 2 ^ (8 * rest.length) ∣ value + b * 2 ^ (8 * rest.length) := by
      refine Dvd.dvd.add ?_ (Dvd.intro_left _ rfl)
      rw [hq, hpow, Nat.mul_assoc]
      exact Dvd.intro _ rfl
    simp only [readScalableLoop, hterm, hor]
    rw [ih (i + 1) _ hrest (by omega) (by omega) hdvd2]
    simp only [bigEndianValue]
    have h256 : (256 : Nat) ^ rest.length = 2 ^ (8 * rest.length) := by
      rw [Nat.pow_mul]
    rw [h256]
    omega

/-- Writing one more byte puts the most significant byte in front. -/
theorem writeUint64_succ (value n : Nat) :
    writeUint64ToScalableBigEndianOrderBytes value (n + 1)
      = ((value >>> (8 * n)) % 256) :: writeUint64ToScalableBigEndianOrderBytes value n := by
  unfold writeUint64ToScalableBigEndianOrderBytes
  rw [List.range_succ_eq_map, List.map_cons, List.map_map]
  refine congrArg₂ _ (by simp) ?_
  apply List.map_congr_left
  intro i hi
  have hin : i < n := List.mem_range.mp hi
  have h1 : n - (i + 1) = n - 1 - i := by omega
  simp [h1]

/-- The bytes written are `len` bytes. -/
theorem writeUint64_length (value len : Nat) :
    (writeUint64ToScalableBigEndianOrderBytes value len).length = len := by
  simp [writeUint64ToScalableBigEndianOrderBytes]

/-- The bytes written are below 256. -/
theorem writeUint64_lt (value len : Nat) :
    ∀ b ∈ writeUint64ToScalableBigEndianOrderBytes value len, b < 256 := by
  intro b hb
  simp only [writeUint64ToScalableBigEndianOrderBytes, List.mem_map] at hb
  obtain ⟨i, _, rfl⟩ := hb
  exact Nat.mod_lt _ (by decide)

/-- The positional value of the bytes written is the value truncated to `len` bytes. -/
theorem bigEndianValue_writeUint64 (value len : Nat) :
    bigEndianValue (writeUint64ToScalableBigEndianOrderBytes value len)
      = value % 256 ^ len := by
  induction len with
  | zero => simp [writeUint64ToScalableBigEndianOrderBytes, bigEndianValue, Nat.mod_one]
  | succ n ih =>
    rw [writeUint64_succ]
    simp only [bigEndianValue, writeUint64_length, ih, Nat.shiftRight_eq_div_pow]
    rw [Nat.pow_mul, Nat.mod_pow_succ]
    norm_num
    ring

/-- The two writers compute the same bytes. -/
theorem writeUint32_eq_writeUint64 (value len : Nat) :
    writeUint32ToScalableBigEndianOrderBytes value len
      = writeUint64ToScalableBigEndianOrderBytes value len := rfl

/-- Reading the bytes written for a value, into a zero, gives the value truncated to the
number of bytes, when they fit the integer width. -/
theorem readScalableLoop_write (W value len : Nat) (hW : 8 * len ≤ W) (hlen : 1 ≤ len) :
    readScalableLoop W (len - 1) (writeUint64ToScalableBigEndianOrderBytes value len) 0 0
      = value % 256 ^ len := by
  rw [readScalableLoop_eq W (len - 1) _ 0 0 (writeUint64_lt value len)
    (by rw [writeUint64_length]; omega) (by rw [writeUint64_length]; exact hW)
    (Nat.dvd_zero _), bigEndianValue_writeUint64]
  simp

/-- C8: entity round trip.  For an ip width in `{4, 8}`, a meta width in `{1, 2, 3, 4}` and
an entity whose two fields fit these widths, `MarshalTo` succeeds and `UnmarshalFrom` of
the bytes it wrote, with the same widths into a new zero entity, succeeds, consumes all
the bytes and yields the same entity. -/
theorem Entity_roundtrip (a b dv : Nat) (e : Entity) (ha : a = 4 ∨ a = 8)
    (hb : b = 1 ∨ b = 2 ∨ b = 3 ∨ b = 4) (hip : e.ipIndex < 2 ^ (8 * a))
    (hmeta : e.metaRowIndex < 2 ^ (8 * b)) :
    (EntityMarshaler.MarshalTo (some ⟨dv, a, b⟩) (some e)).2 = none ∧
    EntityUnmarshaler.UnmarshalFrom (some ⟨a, b⟩)
      (EntityMarshaler.MarshalTo (some ⟨dv, a, b⟩) (some e)).1 (some ⟨0, 0⟩)
      = ((some e, []), none) := by
  have hva : validateIPIndexSize a = true := by
    rcases ha with h | h <;> subst h <;> rfl
  have hvb : validateMetaRowIndexSize b = true := by
    rcases hb with h | h | h | h <;> subst h <;> rfl
  have ha8 : 1 ≤ a ∧ 8 * a ≤ 64 := by omega
  have hb4 : 1 ≤ b ∧ 8 * b ≤ 32 := by omega
  have hmar : EntityMarshaler.MarshalTo (some ⟨dv, a, b⟩) (some e)
      = (writeUint64ToScalableBigEndianOrderBytes e.ipIndex a ++
          writeUint64ToScalableBigEndianOrderBytes e.metaRowIndex b, none) := by
    simp [EntityMarshaler.MarshalTo, hva, hvb, writeUint32_eq_writeUint64]
  rw [hmar]
  refine ⟨rfl, ?_⟩
  have hlen : (writeUint64ToScalableBigEndianOrderBytes e.ipIndex a ++
      writeUint64ToScalableBigEndianOrderBytes e.metaRowIndex b).length = a + b := by
    rw [List.length_append, writeUint64_length, writeUint64_length]
  have hrd : ioReadFull (writeUint64ToScalableBigEndianOrderBytes e.ipIndex a ++
      writeUint64ToScalableBigEndianOrderBytes e.metaRowIndex b) (a + b)
      = ⟨writeUint64ToScalableBigEndianOrderBytes e.ipIndex a ++
          writeUint64ToScalableBigEndianOrderBytes e.metaRowIndex b, a + b, none, []⟩ := by
    unfold ioReadFull
    rw [if_pos (by rw [hlen])]
    rw [List.take_of_length_le (by rw [hlen]), List.drop_of_length_le (by rw [hlen])]
  have htake : (writeUint64ToScalableBigEndianOrderBytes e.ipIndex a ++
      writeUint64ToScalableBigEndianOrderBytes e.metaRowIndex b).take a
      = writeUint64ToScalableBigEndianOrderBytes e.ipIndex a :=
    List.take_left' (writeUint64_length _ _)
  have hdrop : (writeUint64ToScalableBigEndianOrderBytes e.ipIndex a ++
      writeUint64ToScalableBigEndianOrderBytes e.metaRowIndex b).drop a
      = writeUint64ToScalableBigEndianOrderBytes e.metaRowIndex b :=
    List.drop_left' (writeUint64_length _ _)
  have hpa : (256 : Nat) ^ a = 2 ^ (8 * a) := by rw [Nat.pow_mul]
  have hpb : (256 : Nat) ^ b = 2 ^ (8 * b) := by rw [Nat.pow_mul]
  have hr64 : readScalableBigEndianOrderBytesToUint64
      (writeUint64ToScalableBigEndianOrderBytes e.ipIndex a) 0 = e.ipIndex := by
    unfold readScalableBigEndianOrderBytesToUint64
    rw [writeUint64_length, if_pos ha8.1, readScalableLoop_write 64 _ a ha8.2 ha8.1, hpa]
    exact Nat.mod_eq_of_lt hip
  have hr32 : readScalableBigEndianOrderBytesToUint32
      (writeUint64ToScalableBigEndianOrderBytes e.metaRowIndex b) 0 = e.metaRowIndex := by
    unfold readScalableBigEndianOrderBytesToUint32
    rw [writeUint64_length, if_pos hb4.1, readScalableLoop_write 32 _ b hb4.2 hb4.1, hpb]
    exact Nat.mod_eq_of_lt hmeta
  have hn1 : ¬ (a + b = 1 ∧ (writeUint64ToScalableBigEndianOrderBytes e.ipIndex a ++
      writeUint64ToScalableBigEndianOrderBytes e.metaRowIndex b).getD 0 0 = 0) := by
    omega
  simp only [EntityUnmarshaler.UnmarshalFrom, hva, hvb, Bool.not_true, Bool.or_self,
    Bool.false_eq_true, if_false, hrd, hn1, Option.isSome_none, htake, hdrop, hr64, hr32]

/-- Witness for C8: widths 4 and 3, the entity `(16909060, 70000)`. -/
theorem Entity_roundtrip_witness :
    EntityUnmarshaler.UnmarshalFrom (some ⟨4, 3⟩)
      (EntityMarshaler.MarshalTo (some ⟨3, 4, 3⟩) (some ⟨16909060, 70000⟩)).1 (some ⟨0, 0⟩)
      = ((some ⟨16909060, 70000⟩, []), none) :=
  (Entity_roundtrip 4 3 3 ⟨16909060, 70000⟩ (by decide) (by decide) (by decide)
    (by decide)).2

/-! ## Meta row codec (C9, C10) -/

/-- A string without the separator is a single piece. -/
theorem stringsSplit_of_not_mem (sep : Nat) (a : Bytes) (ha : sep ∉ a) :
    stringsSplit sep a = [a] := by
  induction a with
  | nil => rfl
  | cons c rest ih =>
    have hc : c ≠ sep := fun h => ha (by rw [h]; exact List.mem_cons_self _ _)
    have hrest : sep ∉ rest := fun h => ha (List.mem_cons_of_mem _ h)
    simp only [stringsSplit, hc, if_false, ih hrest]

/-- The first piece of a string is what stands before its first separator. -/
theorem stringsSplit_append (sep : Nat) (a rest : Bytes) (ha : sep ∉ a) :
    stringsSplit sep (a ++ sep :: rest) = a :: stringsSplit sep rest := by
  induction a with
  | nil => simp [stringsSplit]
  | cons c a2 ih =>
    have hc : c ≠ sep := fun h => ha (by rw [h]; exact List.mem_cons_self _ _)
    have ha2 : sep ∉ a2 := fun h => ha (List.mem_cons_of_mem _ h)
    rw [List.cons_append, stringsSplit, if_neg hc, ih ha2]

/-- With enough fuel the decimal rendering is a non-empty run of digits. -/
theorem formatDecimal_digits :
    ∀ fuel n : Nat, n < fuel →
      formatDecimal fuel n ≠ [] ∧ ∀ c ∈ formatDecimal fuel n, 48 ≤ c ∧ c ≤ 57 := by
  intro fuel
  induction fuel with
  | zero => intro n hn; omega
  | succ fuel ih =>
    intro n hn
    by_cases h10 : n < 10
    · simp only [formatDecimal, h10, if_true]
      refine ⟨by simp, ?_⟩
      intro c hc
      rw [List.mem_singleton] at hc
      omega
    · simp only [formatDecimal, h10, if_false]
      obtain ⟨_, h2⟩ := ih (n / 10) (by omega)
      refine ⟨by simp, ?_⟩
      intro c hc
      rcases List.mem_append.mp hc with h | h
      · exact h2 c h
      · rw [List.mem_singleton] at h
        omega

/-- Digits parsed without error can be followed by more input. -/
theorem parseUintLoop_append (l l2 : Bytes) :
    ∀ a m : Nat, parseUintLoop l a = (m, none) →
      parseUintLoop (l ++ l2) a = parseUintLoop l2 m := by
  induction l with
  | nil =>
    intro a m h
    simp only [parseUintLoop, Prod.mk.injEq, and_true] at h
    rw [List.nil_append, h]
  | cons c rest ih =>
    intro a m h
    rw [List.cons_append]
    rw [parseUintLoop] at h ⊢
    by_cases h1 : ¬ (48 ≤ c ∧ c ≤ 57)
    · rw [if_pos h1] at h
      simp at h
    · rw [if_neg h1] at h ⊢
      by_cases h2 : a ≥ 1844674407370955162
      · rw [if_pos h2] at h
        simp at h
      · rw [if_neg h2] at h ⊢
        by_cases h3 : a * 10 + (c - 48) > 2 ^ 64 - 1
        · rw [if_pos h3] at h
          simp at h
        · rw [if_neg h3] at h ⊢
          exact ih _ _ h

/-- Parsing the decimal rendering of a 64-bit value gives the value. -/
theorem parseUintLoop_formatDecimal :
    ∀ fuel n : Nat, n < fuel → n < 2 ^ 64 →
      parseUintLoop (formatDecimal fuel n) 0 = (n, none) := by
  intro fuel
  induction fuel with
  | zero => intro n hn; omega
  | succ fuel ih =>
    intro n hn h64
    by_cases h10 : n < 10
    · simp only [formatDecimal, h10, if_true, parseUintLoop]
      have h1 : ¬ ¬ (48 ≤ 48 + n ∧ 48 + n ≤ 57) := by omega
      have h2 : ¬ (0 ≥ 1844674407370955162) := by omega
      have h3 : ¬ (0 * 10 + (48 + n - 48) > 2 ^ 64 - 1) := by omega
      rw [if_neg h1, if_neg h2, if_neg h3]
      simp
    · simp only [formatDecimal, h10, if_false]
      rw [parseUintLoop_append _ _ 0 (n / 10) (ih (n / 10) (by omega) (by omega))]
      simp only [parseUintLoop]
      have h1 : ¬ ¬ (48 ≤ 48 + n % 10 ∧ 48 + n % 10 ≤ 57) := by omega
      have h2 : ¬ (n / 10 ≥ 1844674407370955162) := by omega
      have h3 : ¬ (n / 10 * 10 + (48 + n % 10 - 48) > 2 ^ 64 - 1) := by omega
      rw [if_neg h1, if_neg h2, if_neg h3]
      have h4 : n / 10 * 10 + (48 + n % 10 - 48) = n := by omega
      rw [h4]

/-- Atoi of an unsigned run of digits whose value is below `2^63`. -/
theorem strconvAtoi_digits (s : Bytes) (n : Nat) (hs : s ≠ [])
    (hd : ∀ c ∈ s, 48 ≤ c ∧ c ≤ 57) (hp : parseUintLoop s 0 = (n, none))
    (hn : n < 2 ^ 63) : strconvAtoi s = ((n : Int), none) := by
  cases s with
  | nil => exact absurd rfl hs
  | cons c t =>
    have hc := hd c (List.mem_cons_self _ _)
    have h45 : c ≠ 45 := by omega
    have h43 : c ≠ 43 := by omega
    simp [strconvAtoi, strconvParseUint, hp, h45, h43]
    omega

/-- Atoi of a `-` followed by a run of digits whose value is at most `2^63`. -/
theorem strconvAtoi_neg_digits (s : Bytes) (n : Nat) (hs : s ≠ [])
    (hp : parseUintLoop s 0 = (n, none)) (hn : n ≤ 2 ^ 63) :
    strconvAtoi (45 :: s) = (-(n : Int), none) := by
  simp [strconvAtoi, strconvParseUint, hp, hs]
  omega

/-- The rendering of an integer is non-empty and made of digits and the sign `-`. -/
theorem fmtInt_chars (i : Int) :
    fmtInt i ≠ [] ∧ ∀ c ∈ fmtInt i, c = 45 ∨ (48 ≤ c ∧ c ≤ 57) := by
  unfold fmtInt
  by_cases hneg : i < 0
  · rw [if_pos hneg]
    refine ⟨by simp, ?_⟩
    intro c hc
    rcases List.mem_cons.mp hc with h | h
    · exact Or.inl h
    · exact Or.inr ((formatDecimal_digits _ _ (Nat.lt_succ_self _)).2 c h)
  · rw [if_neg hneg]
    exact ⟨(formatDecimal_digits _ _ (Nat.lt_succ_self _)).1,
      fun c hc => Or.inr ((formatDecimal_digits _ _ (Nat.lt_succ_self _)).2 c hc)⟩

/-- Atoi reads back what `%d` renders, for every 64-bit `int`. -/
theorem strconvAtoi_fmtInt (i : Int) (hlo : -(2 ^ 63) ≤ i) (hhi : i < 2 ^ 63) :
    strconvAtoi (fmtInt i) = (i, none) := by
  unfold fmtInt
  by_cases hneg : i < 0
  · rw [if_pos hneg]
    have hn : (-i).toNat ≤ 2 ^ 63 := by omega
    have hd := formatDecimal_digits ((-i).toNat + 1) (-i).toNat (Nat.lt_succ_self _)
    have hp := parseUintLoop_formatDecimal ((-i).toNat + 1) (-i).toNat (Nat.lt_succ_self _)
      (by omega)
    rw [strconvAtoi_neg_digits _ _ hd.1 hp hn]
    have : (((-i).toNat : Nat) : Int) = -i := Int.toNat_of_nonneg (by omega)
    rw [this]
    simp
  · rw [if_neg hneg]
    have hn : i.toNat < 2 ^ 63 := by omega
    have hd := formatDecimal_digits (i.toNat + 1) i.toNat (Nat.lt_succ_self _)
    have hp := parseUintLoop_formatDecimal (i.toNat + 1) i.toNat (Nat.lt_succ_self _)
      (by omega)
    rw [strconvAtoi_digits _ _ hd.1 hd.2 hp hn]
    have : ((i.toNat : Nat) : Int) = i := Int.toNat_of_nonneg (by omega)
    rw [this]

/-- The closure `toInt` reads back what `%d` renders, for every 64-bit `int`. -/
theorem toInt_fmtInt (i : Int) (hlo : -(2 ^ 63) ≤ i) (hhi : i < 2 ^ 63) :
    toInt (fmtInt i) = (i, none) := by
  unfold toInt
  rw [if_neg (fmtInt_chars i).1, strconvAtoi_fmtInt i hlo hhi]

/-- A string whose last byte is not a newline is left as it is by `TrimSuffix`. -/
theorem stringsTrimSuffixNewline_of_not_mem (a b : Bytes) (hb : b ≠ []) (h10 : 10 ∉ b) :
    stringsTrimSuffixNewline (a ++ b) = a ++ b := by
  unfold stringsTrimSuffixNewline
  have hlast : (a ++ b).getLast? ≠ some 10 := by
    intro h
    rw [List.getLast?_append_of_ne_nil a hb] at h
    exact h10 (List.mem_of_getLast?_eq_some h)
  rw [if_neg hlast]

/-- The rendering of an integer holds no tab and no newline. -/
theorem fmtInt_no_tab_newline (i : Int) : 9 ∉ fmtInt i ∧ 10 ∉ fmtInt i := by
  constructor
  · intro h
    have := (fmtInt_chars i).2 9 h
    omega
  · intro h
    have := (fmtInt_chars i).2 10 h
    omega

/-- C9: meta row round trip.  For every row whose six string fields hold no tab (9) and no
newline (10), with 64-bit integer fields, `MarshalString` succeeds and `UnmarshalString` of
its line, into any row, succeeds and yields the same eight fields. -/
theorem Meta_roundtrip (m r0 : IPCity.Meta)
    (h1 : 9 ∉ m.country ∧ 10 ∉ m.country) (h2 : 9 ∉ m.province ∧ 10 ∉ m.province)
    (h3 : 9 ∉ m.city ∧ 10 ∉ m.city) (h4 : 9 ∉ m.district ∧ 10 ∉ m.district)
    (h5 : 9 ∉ m.isp ∧ 10 ∉ m.isp) (h6 : 9 ∉ m.backboneISP ∧ 10 ∉ m.backboneISP)
    (hcc : -(2 ^ 63) ≤ m.countryCode ∧ m.countryCode < 2 ^ 63)
    (hac : -(2 ^ 63) ≤ m.areaCode ∧ m.areaCode < 2 ^ 63) :
    (Meta.MarshalString (some m)).2 = none ∧
    Meta.UnmarshalString (some r0) (Meta.MarshalString (some m)).1 = (some m, none) := by
  refine ⟨rfl, ?_⟩
  obtain ⟨c, p, ci, d, i, b, cc, ac⟩ := m
  simp only at h1 h2 h3 h4 h5 h6 hcc hac
  have hline : (Meta.MarshalString (some ⟨c, p, ci, d, i, b, cc, ac⟩)).1
      = (c ++ [9] ++ p ++ [9] ++ ci ++ [9] ++ d ++ [9] ++ i ++ [9] ++ b ++ [9] ++
          fmtInt cc ++ [9]) ++ fmtInt ac := rfl
  have htrim := stringsTrimSuffixNewline_of_not_mem
    (c ++ [9] ++ p ++ [9] ++ ci ++ [9] ++ d ++ [9] ++ i ++ [9] ++ b ++ [9] ++
      fmtInt cc ++ [9]) (fmtInt ac) (fmtInt_chars ac).1 (fmtInt_no_tab_newline ac).2
  have hassoc : (c ++ [9] ++ p ++ [9] ++ ci ++ [9] ++ d ++ [9] ++ i ++ [9] ++ b ++ [9] ++
      fmtInt cc ++ [9]) ++ fmtInt ac
      = c ++ 9 :: (p ++ 9 :: (ci ++ 9 :: (d ++ 9 :: (i ++ 9 :: (b ++ 9 ::
          (fmtInt cc ++ 9 :: fmtInt ac)))))) := by
    simp only [List.append_assoc, List.cons_append, List.nil_append]
  have hsplit : stringsSplit 9 (c ++ 9 :: (p ++ 9 :: (ci ++ 9 :: (d ++ 9 :: (i ++ 9 ::
      (b ++ 9 :: (fmtInt cc ++ 9 :: fmtInt ac)))))))
      = [c, p, ci, d, i, b, fmtInt cc, fmtInt ac] := by
    rw [stringsSplit_append 9 c _ h1.1, stringsSplit_append 9 p _ h2.1,
      stringsSplit_append 9 ci _ h3.1, stringsSplit_append 9 d _ h4.1,
      stringsSplit_append 9 i _ h5.1, stringsSplit_append 9 b _ h6.1,
      stringsSplit_append 9 (fmtInt cc) _ (fmtInt_no_tab_newline cc).1,
      stringsSplit_of_not_mem 9 (fmtInt ac) (fmtInt_no_tab_newline ac).1]
  unfold Meta.UnmarshalString
  rw [hline, htrim, hassoc, hsplit]
  simp [Meta.UnmarshalStringLoop, toInt_fmtInt cc hcc.1 hcc.2, toInt_fmtInt ac hac.1 hac.2]

/-- Witness for C9: a row with three named fields and the codes -12 and 340. -/
theorem Meta_roundtrip_witness :
    Meta.UnmarshalString (some emptyRow)
      (Meta.MarshalString (some ⟨[65, 66], [67], [], [68], [], [69], -12, 340⟩)).1
      = (some ⟨[65, 66], [67], [], [68], [], [69], -12, 340⟩, none) :=
  (Meta_roundtrip ⟨[65, 66], [67], [], [68], [], [69], -12, 340⟩ emptyRow
    (by decide) (by decide) (by decide) (by decide) (by decide) (by decide)
    (by decide) (by decide)).2

/-- C10, the code at the failing input: in the line `"\t\t\t\t\t\tx\t5"` field 6 is the
non-numeric string `x`, which `toInt` rejects, yet `UnmarshalString` returns no error:
the error is overwritten when field 7 is parsed. -/
theorem UnmarshalString_bad_countryCode_no_error :
    (toInt [120]).2 = some GoError.ErrSyntax ∧
    Meta.UnmarshalString (some emptyRow) [9, 9, 9, 9, 9, 9, 120, 9, 53]
      = (some ⟨[], [], [], [], [], [], 0, 5⟩, none) := by
  decide

/-! ## Width resolution (C16, C17) -/

/-- C16: `IPIndexSize` returns the stored ip index width when it is non-zero; otherwise 4
for version 3 in IPv4 mode, 8 for version 3 in IPv6 mode, and 0 for every other version
and mode; e.g. version 3, IPv4 mode, nothing stored resolves to 4. -/
theorem Header_IPIndexSize_resolution (impl : headerImpl) :
    Header.IPIndexSize (some ⟨some impl⟩) =
      (if impl.IPIndexSize ≠ 0 then impl.IPIndexSize
       else if impl.Version = 3 ∧ impl.Mode = DataModeIPv4 then 4
       else if impl.Version = 3 ∧ impl.Mode = DataModeIPv6 then 8
       else 0) ∧
    Header.IPIndexSize (some ⟨some ⟨3, 1, 0, 0, 10, 0, 0, 0⟩⟩) = 4 ∧
    Header.IPIndexSize (some ⟨some ⟨3, 2, 0, 0, 10, 0, 0, 0⟩⟩) = 8 := by
  refine ⟨?_, rfl, rfl⟩
  unfold Header.IPIndexSize defaultIPIndexSizeMap
  simp only [Header.Version, Header.Mode]
  by_cases hs : impl.IPIndexSize = 0
  · have h0 : ¬ impl.IPIndexSize > 0 := by omega
    simp only [h0, hs, if_false, ne_eq, not_true_eq_false]
    by_cases hv : impl.Version = 3
    · by_cases h4 : impl.Mode = DataModeIPv4
      · simp [hv, h4]
      · by_cases h6 : impl.Mode = DataModeIPv6
        · have hne : ¬ DataModeIPv6 = DataModeIPv4 := by decide
          simp [hv, h6, hne]
        · simp [hv, h4, h6]
    · simp [hv]
  · have h0 : impl.IPIndexSize > 0 := by omega
    simp [h0, hs]

/-- C17: `MetaRowIndexSize` returns the stored meta row index width when it is non-zero;
otherwise, for version 3 and a 32-bit row count, the smallest width `w` of 1 to 4 with
`meta_row_count <= 256^w - 1`; otherwise, for every other version, 0. -/
theorem Header_MetaRowIndexSize_resolution (impl : headerImpl)
    (hcount : impl.MetaRowCount < 2 ^ 32) :
    (impl.MetaRowIndexSize ≠ 0 →
      Header.MetaRowIndexSize (some ⟨some impl⟩) = impl.MetaRowIndexSize) ∧
    (impl.MetaRowIndexSize = 0 → impl.Version = 3 →
      1 ≤ Header.MetaRowIndexSize (some ⟨some impl⟩) ∧
      Header.MetaRowIndexSize (some ⟨some impl⟩) ≤ 4 ∧
      impl.MetaRowCount ≤ 256 ^ Header.MetaRowIndexSize (some ⟨some impl⟩) - 1 ∧
      ∀ w : Nat, 1 ≤ w → impl.MetaRowCount ≤ 256 ^ w - 1 →
        Header.MetaRowIndexSize (some ⟨some impl⟩) ≤ w) ∧
    (impl.MetaRowIndexSize = 0 → impl.Version ≠ 3 →
      Header.MetaRowIndexSize (some ⟨some impl⟩) = 0) := by
  refine ⟨?_, ?_, ?_⟩
  · intro hs
    have h0 : impl.MetaRowIndexSize > 0 := by omega
    simp [Header.MetaRowIndexSize, h0]
  · intro hs hv
    have hsmall : ∀ w : Nat, 1 ≤ w → w ≤ 3 → 256 ^ w - 1 ≤ 16777215 := by
      intro w h1 h3
      interval_cases w <;> norm_num
    have hsmall2 : ∀ w : Nat, 1 ≤ w → w ≤ 2 → 256 ^ w - 1 ≤ 65535 := by
      intro w h1 h3
      interval_cases w <;> norm_num
    have hres : Header.MetaRowIndexSize (some ⟨some impl⟩) =
        if impl.MetaRowCount ≤ 255 then 1
        else if impl.MetaRowCount ≤ 65535 then 2
        else if impl.MetaRowCount ≤ 16777215 then 3
        else 4 := by
      simp only [Header.MetaRowIndexSize, Header.Version, Header.MetaRowCount, belong, hs, hv,
        gt_iff_lt, lt_self_iff_false, if_false, if_true]
      by_cases c1 : impl.MetaRowCount ≤ 255
      · simp [c1]
      · by_cases c2 : impl.MetaRowCount ≤ 65535
        · have : 256 ≤ impl.MetaRowCount := by omega
          simp [c1, c2, this]
        · by_cases c3 : impl.MetaRowCount ≤ 16777215
          · have : 65536 ≤ impl.MetaRowCount := by omega
            simp [c1, c2, c3, this]
          · have h4 : 16777216 ≤ impl.MetaRowCount := by omega
            have h5 : impl.MetaRowCount ≤ 4294967295 := by omega
            simp [c1, c2, c3, h4, h5]
    rw [hres]
    by_cases c1 : impl.MetaRowCount ≤ 255
    · simp only [c1, if_true]
      refine ⟨le_refl _, by omega, by omega, fun w hw _ => hw⟩
    · by_cases c2 : impl.MetaRowCount ≤ 65535
      · simp only [c1, c2, if_true, if_false]
        refine ⟨by omega, by omega, by norm_num; omega, ?_⟩
        intro w hw hle
        by_contra hcon
        have hw1 : w = 1 := by omega
        subst hw1
        omega
      · by_cases c3 : impl.MetaRowCount ≤ 16777215
        · simp only [c1, c2, c3, if_true, if_false]
          refine ⟨by omega, by omega, by norm_num; omega, ?_⟩
          intro w hw hle
          by_contra hcon
          have := hsmall2 w hw (by omega)
          omega
        · simp only [c1, c2, c3, if_false]
          refine ⟨by omega, by omega, by norm_num; omega, ?_⟩
          intro w hw hle
          by_contra hcon
          have := hsmall w hw (by omega)
          omega
  · intro hs hv
    have h0 : ¬ impl.MetaRowIndexSize > 0 := by omega
    simp [Header.MetaRowIndexSize, Header.Version, h0, hv]

/-- Witness for C17: version 3 with 70000 rows resolves to 3, with 10 rows to 1. -/
theorem Header_MetaRowIndexSize_resolution_witness :
    (70000 < 2 ^ 32 ∧ 10 < 2 ^ 32) ∧
    Header.MetaRowIndexSize (some ⟨some ⟨3, 1, 0, 0, 70000, 0, 0, 0⟩⟩) = 3 ∧
    Header.MetaRowIndexSize (some ⟨some ⟨3, 1, 0, 0, 10, 0, 0, 0⟩⟩) = 1 ∧
    ∀ w : Nat, 1 ≤ w → 70000 ≤ 256 ^ w - 1 →
      Header.MetaRowIndexSize (some ⟨some ⟨3, 1, 0, 0, 70000, 0, 0, 0⟩⟩) ≤ w :=
  ⟨by decide, by decide, by decide,
    ((Header_MetaRowIndexSize_resolution ⟨3, 1, 0, 0, 70000, 0, 0, 0⟩ (by decide)).2.1
      rfl rfl).2.2.2⟩

/-! ## Address to index (C18, C19) -/

/-- The positional value of `n` bytes is below `256^n`. -/
theorem bigEndianValue_lt (l : Bytes) (hb : ∀ b ∈ l, b < 256) :
    bigEndianValue l < 256 ^ l.length := by
  induction l with
  | nil => simp [bigEndianValue]
  | cons b rest ih =>
    have h1 : b < 256 := hb b (List.mem_cons_self _ _)
    have h2 := ih (fun c hc => hb c (List.mem_cons_of_mem _ hc))
    simp only [bigEndianValue, List.length_cons, Nat.pow_succ]
    have h3 : b * 256 ^ rest.length ≤ 255 * 256 ^ rest.length :=
      Nat.mul_le_mul_right _ (by omega)
    omega

/-- The value `binary.BigEndian.Uint64` reads from eight bytes is their positional value. -/
theorem BigEndianUint64_eq (l : Bytes) (hlen : l.length = 8) (hb : ∀ b ∈ l, b < 256) :
    BigEndianUint64 l = bigEndianValue l := by
  match l, hlen with
  | [a, b, c, d, e, f, g, h], _ =>
    have ha := hb a (by simp)
    have hb2 := hb b (by simp)
    have hc := hb c (by simp)
    have hd := hb d (by simp)
    have he := hb e (by simp)
    have hf := hb f (by simp)
    have hg := hb g (by simp)
    have hh := hb h (by simp)
    have h1 : BigEndianUint64 [a, b, c, d, e, f, g, h] =
        h ||| (g <<< 8) ||| (f <<< 16) ||| (e <<< 24) ||| (d <<< 32) ||| (c <<< 40) |||
          (b <<< 48) ||| (a <<< 56) := rfl
    rw [h1, lor_shiftLeft_eq_add h g 8 (by omega), lor_shiftLeft_eq_add _ f 16 (by omega),
      lor_shiftLeft_eq_add _ e 24 (by omega), lor_shiftLeft_eq_add _ d 32 (by omega),
      lor_shiftLeft_eq_add _ c 40 (by omega), lor_shiftLeft_eq_add _ b 48 (by omega),
      lor_shiftLeft_eq_add _ a 56 (by omega)]
    simp only [bigEndianValue, List.length_cons, List.length_nil]
    norm_num
    omega

/-- C18: in an IPv4-mode store, for an address whose 4-byte form is `b0.b1.b2.b3`, `Search`
is the range search for the 32-bit big-endian value of the four bytes, shifted right by 8
bits when the header version is 2 and as it is for every other version. -/
theorem Store_Search_IPv4 (s : Store) (addr : Bytes) (b0 b1 b2 b3 : Nat)
    (hmode : Header.Mode s.header = DataModeIPv4)
    (h4 : IPTo4 addr = some [b0, b1, b2, b3])
    (hb0 : b0 < 256) (hb1 : b1 < 256) (hb2 : b2 < 256) (hb3 : b3 < 256) :
    s.Search addr = s.searchByIPIndex
      (if Header.Version s.header = 2 then
        (b0 * 2 ^ 24 + b1 * 2 ^ 16 + b2 * 2 ^ 8 + b3) >>> 8
       else b0 * 2 ^ 24 + b1 * 2 ^ 16 + b2 * 2 ^ 8 + b3) ∧
    (b0 * 2 ^ 24 + b1 * 2 ^ 16 + b2 * 2 ^ 8 + b3) >>> 8 = b0 * 2 ^ 16 + b1 * 2 ^ 8 + b2 ∧
    b0 * 2 ^ 24 + b1 * 2 ^ 16 + b2 * 2 ^ 8 + b3 < 2 ^ 32 := by
  refine ⟨?_, ?_, by omega⟩
  · unfold Store.Search
    simp only [hmode, if_true, h4]
    rw [BigEndianUint32_bytes b0 b1 b2 b3 hb1 hb2 hb3]
  · rw [Nat.shiftRight_eq_div_pow]
    omega

/-- Witness for C18: the address 1.2.3.4 in a version 2 store indexes as `0x010203`, in a
version 3 store as `0x01020304`. -/
theorem Store_Search_IPv4_witness :
    (Header.Mode (some ⟨some ⟨2, 1, 0, 0, 0, 0, 0, 0⟩⟩) = DataModeIPv4 ∧
      IPTo4 [1, 2, 3, 4] = some [1, 2, 3, 4]) ∧
    (∀ (mt : List IPCity.Meta) (el : List Entity),
      (Store.mk (some ⟨some ⟨2, 1, 0, 0, 0, 0, 0, 0⟩⟩) mt el).Search [1, 2, 3, 4]
        = (Store.mk (some ⟨some ⟨2, 1, 0, 0, 0, 0, 0, 0⟩⟩) mt el).searchByIPIndex 0x010203) ∧
    (∀ (mt : List IPCity.Meta) (el : List Entity),
      (Store.mk (some ⟨some ⟨3, 1, 0, 0, 0, 0, 0, 0⟩⟩) mt el).Search [1, 2, 3, 4]
        = (Store.mk (some ⟨some ⟨3, 1, 0, 0, 0, 0, 0, 0⟩⟩) mt el).searchByIPIndex
            0x01020304) :=
  ⟨by decide,
    fun mt el => (Store_Search_IPv4 (Store.mk (some ⟨some ⟨2, 1, 0, 0, 0, 0, 0, 0⟩⟩) mt el)
      [1, 2, 3, 4] 1 2 3 4 rfl rfl (by decide) (by decide) (by decide) (by decide)).1,
    fun mt el => (Store_Search_IPv4 (Store.mk (some ⟨some ⟨3, 1, 0, 0, 0, 0, 0, 0⟩⟩) mt el)
      [1, 2, 3, 4] 1 2 3 4 rfl rfl (by decide) (by decide) (by decide) (by decide)).1⟩

/-- C19: in an IPv6-mode store, for a 16-byte address, `Search` is the range search for the
big-endian 64-bit value of the first 8 bytes; two 16-byte addresses with the same first 8
bytes get the same result. -/
theorem Store_Search_IPv6 (s : Store) (addr : Bytes)
    (hmode : Header.Mode s.header = DataModeIPv6) (hlen : addr.length = 16)
    (hbytes : ∀ b ∈ addr, b < 256) :
    s.Search addr = s.searchByIPIndex (bigEndianValue (addr.take 8)) ∧
    bigEndianValue (addr.take 8) < 2 ^ 64 ∧
    ∀ addr2 : Bytes, addr2.length = 16 → addr2.take 8 = addr.take 8 →
      s.Search addr2 = s.Search addr := by
  have hne : ¬ DataModeIPv6 = DataModeIPv4 := by decide
  have hsearch : ∀ a : Bytes, a.length = 16 →
      s.Search a = s.searchByIPIndex (BigEndianUint64 (a.take 8)) := by
    intro a ha
    have h16 : IPTo16 a = some a := by
      unfold IPTo16
      simp [ha]
    unfold Store.Search
    simp only [hmode, hne, if_false, if_true, h16]
  have htake : ∀ b ∈ addr.take 8, b < 256 := fun b hb => hbytes b (List.mem_of_mem_take hb)
  have hlen8 : (addr.take 8).length = 8 := by
    rw [List.length_take, hlen]
    rfl
  refine ⟨?_, ?_, ?_⟩
  · rw [hsearch addr hlen, BigEndianUint64_eq _ hlen8 htake]
  · have := bigEndianValue_lt _ htake
    rw [hlen8] at this
    exact this
  · intro addr2 hlen2 heq
    rw [hsearch addr2 hlen2, hsearch addr hlen, heq]

/-- Witness for C19: the address `2001:db8::1` in a version 3 IPv6 store. -/
theorem Store_Search_IPv6_witness :
    (Header.Mode (some ⟨some ⟨3, 2, 0, 0, 0, 0, 0, 0⟩⟩) = DataModeIPv6 ∧
      bigEndianValue (List.take 8 [32, 1, 13, 184, 0, 0, 0, 0, 0, 0, 0, 0, 0, 0, 0, 1])
        = 0x20010db800000000) ∧
    ∀ (mt : List IPCity.Meta) (el : List Entity),
      (Store.mk (some ⟨some ⟨3, 2, 0, 0, 0, 0, 0, 0⟩⟩) mt el).Search
          [32, 1, 13, 184, 0, 0, 0, 0, 0, 0, 0, 0, 0, 0, 0, 1]
        = (Store.mk (some ⟨some ⟨3, 2, 0, 0, 0, 0, 0, 0⟩⟩) mt el).searchByIPIndex
            (bigEndianValue
              (List.take 8 [32, 1, 13, 184, 0, 0, 0, 0, 0, 0, 0, 0, 0, 0, 0, 1])) :=
  ⟨by decide,
    fun mt el => (Store_Search_IPv6 (Store.mk (some ⟨some ⟨3, 2, 0, 0, 0, 0, 0, 0⟩⟩) mt el)
      [32, 1, 13, 184, 0, 0, 0, 0, 0, 0, 0, 0, 0, 0, 0, 1] rfl rfl (by decide)).1⟩

/-! ## Header decode and layout (C11, C12) -/

/-- The value `binary.BigEndian.Uint32` reads from four bytes is their positional value. -/
theorem BigEndianUint32_eq (l : Bytes) (hlen : l.length = 4) (hb : ∀ b ∈ l, b < 256) :
    BigEndianUint32 l = bigEndianValue l := by
  match l, hlen with
  | [a, b, c, d], _ =>
    rw [BigEndianUint32_bytes a b c d (hb b (by simp)) (hb c (by simp)) (hb d (by simp))]
    simp only [bigEndianValue, List.length_cons, List.length_nil]
    norm_num
    omega

/-- Reading `n` bytes from a stream that holds at least `n`. -/
theorem ioReadFull_of_le (r : Bytes) (n : Nat) (h : n ≤ r.length) :
    ioReadFull r n = ⟨r.take n, n, none, r.drop n⟩ := by
  unfold ioReadFull
  rw [if_pos h]

/-- Reading `n` bytes from a stream that holds fewer. -/
theorem ioReadFull_of_lt (r : Bytes) (n : Nat) (h : r.length < n) :
    ioReadFull r n = ⟨r ++ List.replicate (n - r.length) 0, r.length,
      some (if r = [] then GoError.EOF else GoError.ErrUnexpectedEOF), []⟩ := by
  unfold ioReadFull
  rw [if_neg (by omega)]
  cases r with
  | nil => simp
  | cons c rest => simp

/-- C11: header decode.  On a stream of fewer than 24 bytes `ReadFrom` fails with a short
read (`io.EOF` on an empty stream, `io.ErrUnexpectedEOF` otherwise); on 24 bytes or more
whose first 4 are not `ipCT` it fails with the magic mismatch naming them; in both cases
the header is unchanged.  Otherwise it succeeds, consumes 24 bytes, and takes version,
mode and the two widths from bytes 4, 5, 6, 7 and the four 32-bit fields, big-endian, from
bytes 8..11, 12..15, 16..19, 20..23. -/
theorem headerImpl_ReadFrom_decode (h : headerImpl) (r : Bytes)
    (hbytes : ∀ b ∈ r, b < 256) :
    (r.length < 24 →
      (headerImpl.ReadFrom (some h) r).1.1 = some h ∧
      (headerImpl.ReadFrom (some h) r).2
        = some (if r = [] then GoError.EOF else GoError.ErrUnexpectedEOF)) ∧
    (24 ≤ r.length → r.take 4 ≠ DataMagicNumber →
      (headerImpl.ReadFrom (some h) r).1.1 = some h ∧
      (headerImpl.ReadFrom (some h) r).2 = some (GoError.unrecognizedMagic (r.take 4))) ∧
    (24 ≤ r.length → r.take 4 = DataMagicNumber →
      headerImpl.ReadFrom (some h) r =
        ((some ⟨r.getD 4 0, r.getD 5 0, r.getD 6 0, r.getD 7 0,
            bigEndianValue ((r.drop 8).take 4), bigEndianValue ((r.drop 12).take 4),
            bigEndianValue ((r.drop 16).take 4), bigEndianValue ((r.drop 20).take 4)⟩,
          r.drop 24), none)) := by
  refine ⟨?_, ?_, ?_⟩
  · intro hshort
    unfold headerImpl.ReadFrom
    simp only [headerBytesLength, ioReadFull_of_lt r 24 hshort, Option.isSome_some, if_true,
      and_self]
  · intro hlen hmagic
    have hmn : ¬ DataMagicNumber = List.take 4 r := fun e => hmagic e.symm
    have htt : List.take 4 (List.take 24 r) = List.take 4 r := by
      rw [List.take_take]
      rfl
    unfold headerImpl.ReadFrom
    simp only [headerBytesLength, ioReadFull_of_le r 24 hlen, Option.isSome_none,
      Bool.false_eq_true, if_false, htt, ne_eq, hmn, not_false_eq_true, if_true, and_self]
  · intro hlen hmagic
    have htt : List.take 4 (List.take 24 r) = List.take 4 r := by
      rw [List.take_take]
      rfl
    have hget : ∀ k : Nat, k < 24 → (List.take 24 r).getD k 0 = r.getD k 0 := by
      intro k hk
      simp only [List.getD_eq_getElem?_getD, List.getElem?_take_of_lt hk]
    have hseg : ∀ k : Nat, k + 4 ≤ 24 →
        List.take 4 (List.drop k (List.take 24 r)) = List.take 4 (List.drop k r) := by
      intro k hk
      rw [List.drop_take, List.take_take]
      congr 1
      omega
    have hlast : List.drop 20 (List.take 24 r) = List.take 4 (List.drop 20 r) := by
      rw [List.drop_take]
    have hval : ∀ k : Nat, k + 4 ≤ 24 →
        BigEndianUint32 (List.take 4 (List.drop k r))
          = bigEndianValue (List.take 4 (List.drop k r)) := by
      intro k hk
      apply BigEndianUint32_eq
      · rw [List.length_take, List.length_drop]
        omega
      · intro b hb
        exact hbytes b (List.mem_of_mem_drop (List.mem_of_mem_take hb))
    unfold headerImpl.ReadFrom
    simp only [headerBytesLength, ioReadFull_of_le r 24 hlen, Option.isSome_none,
      Bool.false_eq_true, if_false, htt, hmagic, ne_eq, not_true_eq_false,
      hget 4 (by omega), hget 5 (by omega), hget 6 (by omega), hget 7 (by omega),
      hseg 8 (by omega), hseg 12 (by omega), hseg 16 (by omega), hlast,
      hval 8 (by omega), hval 12 (by omega), hval 16 (by omega), hval 20 (by omega)]

/-- Witness for C11: the 24 bytes of a version 3 IPv4 header with 70000 rows and 5
entities, followed by one more byte. -/
theorem headerImpl_ReadFrom_decode_witness :
    (∀ b ∈ [105, 112, 67, 84, 3, 1, 0, 0, 0, 1, 17, 112, 0, 0, 0, 5, 101, 83, 241, 0,
        101, 83, 241, 1, 9], b < 256) ∧
    headerImpl.ReadFrom (some ⟨0, 0, 0, 0, 0, 0, 0, 0⟩)
      [105, 112, 67, 84, 3, 1, 0, 0, 0, 1, 17, 112, 0, 0, 0, 5, 101, 83, 241, 0,
        101, 83, 241, 1, 9]
      = ((some ⟨3, 1, 0, 0, 70000, 5, 1700000000, 1700000001⟩, [9]), none) :=
  ⟨by decide,
    (headerImpl_ReadFrom_decode ⟨0, 0, 0, 0, 0, 0, 0, 0⟩
      [105, 112, 67, 84, 3, 1, 0, 0, 0, 1, 17, 112, 0, 0, 0, 5, 101, 83, 241, 0,
        101, 83, 241, 1, 9] (by decide)).2.2 (by decide) (by decide)⟩

/-- The four bytes written for a 32-bit value are bytes and have the value as their
positional value. -/
theorem BigEndianPutUint32_spec (v : Nat) (hv : v < 2 ^ 32) :
    (BigEndianPutUint32 v).length = 4 ∧ (∀ b ∈ BigEndianPutUint32 v, b < 256) ∧
    bigEndianValue (BigEndianPutUint32 v) = v := by
  have hlt : ∀ b ∈ BigEndianPutUint32 v, b < 256 := by
    intro b hb
    simp only [BigEndianPutUint32, List.mem_cons, List.mem_singleton, List.not_mem_nil,
      or_false] at hb
    rcases hb with h | h | h | h <;> rw [h] <;> exact Nat.mod_lt _ (by decide)
  refine ⟨rfl, hlt, ?_⟩
  rw [← BigEndianUint32_eq (BigEndianPutUint32 v) rfl hlt, BigEndianUint32_PutUint32 v hv]

/-- C12: header encode layout.  For every header whose version, mode and widths are bytes
and whose counts and times are 32-bit values, `Marshal` succeeds and produces exactly 24
bytes: `ipCT`, the version, mode, stored ip index width and stored meta row index width
bytes, then the meta row count, entity count, source update time and update time, each
as 4 bytes whose big-endian positional value is the field. -/
theorem Header_Marshal_layout (h : headerImpl)
    (hv : h.Version < 256) (hm : h.Mode < 256) (hi : h.IPIndexSize < 256)
    (hr : h.MetaRowIndexSize < 256) (hmc : h.MetaRowCount < 2 ^ 32)
    (hec : h.EntityCount < 2 ^ 32) (hst : h.SourceUpdatedTime < 2 ^ 32)
    (hut : h.UpdatedTime < 2 ^ 32) :
    Header.Marshal (some ⟨some h⟩) =
      ([105, 112, 67, 84] ++ [h.Version, h.Mode, h.IPIndexSize, h.MetaRowIndexSize] ++
        BigEndianPutUint32 h.MetaRowCount ++ BigEndianPutUint32 h.EntityCount ++
        BigEndianPutUint32 h.SourceUpdatedTime ++ BigEndianPutUint32 h.UpdatedTime, none) ∧
    (Header.Marshal (some ⟨some h⟩)).1.length = 24 ∧
    (∀ v ∈ [h.MetaRowCount, h.EntityCount, h.SourceUpdatedTime, h.UpdatedTime],
      (BigEndianPutUint32 v).length = 4 ∧ (∀ b ∈ BigEndianPutUint32 v, b < 256) ∧
      bigEndianValue (BigEndianPutUint32 v) = v) := by
  refine ⟨?_, rfl, ?_⟩
  · simp [Header.Marshal, Header.MarshalTo, headerImpl.WriteTo, DataMagicNumber,
      Nat.mod_eq_of_lt hv, Nat.mod_eq_of_lt hm, Nat.mod_eq_of_lt hi, Nat.mod_eq_of_lt hr]
  · intro v hvmem
    simp only [List.mem_cons, List.mem_singleton, List.not_mem_nil, or_false] at hvmem
    rcases hvmem with e | e | e | e <;> subst e
    · exact BigEndianPutUint32_spec _ hmc
    · exact BigEndianPutUint32_spec _ hec
    · exact BigEndianPutUint32_spec _ hst
    · exact BigEndianPutUint32_spec _ hut

/-- Witness for C12: a version 3 IPv4 header with 70000 rows and 5 entities. -/
theorem Header_Marshal_layout_witness :
    Header.Marshal (some ⟨some ⟨3, 1, 0, 0, 70000, 5, 1700000000, 1700000001⟩⟩) =
      ([105, 112, 67, 84] ++ [3, 1, 0, 0] ++ BigEndianPutUint32 70000 ++
        BigEndianPutUint32 5 ++ BigEndianPutUint32 1700000000 ++
        BigEndianPutUint32 1700000001, none) :=
  (Header_Marshal_layout ⟨3, 1, 0, 0, 70000, 5, 1700000000, 1700000001⟩
    (by decide) (by decide) (by decide) (by decide) (by decide) (by decide) (by decide)
    (by decide)).1

/-! ## Entity decode (C14) -/

/-- The 64-bit reader, started from zero on 1 to 8 bytes, gives their positional value. -/
theorem readUint64_eq (bytes : Bytes) (hb : ∀ b ∈ bytes, b < 256) (h1 : 1 ≤ bytes.length)
    (h8 : bytes.length ≤ 8) :
    readScalableBigEndianOrderBytesToUint64 bytes 0 = bigEndianValue bytes := by
  unfold readScalableBigEndianOrderBytesToUint64
  rw [if_pos h1, readScalableLoop_eq 64 _ bytes 0 0 hb (by omega) (by omega) (Nat.dvd_zero _)]
  simp

/-- The 32-bit reader, started from zero on 1 to 4 bytes, gives their positional value. -/
theorem readUint32_eq (bytes : Bytes) (hb : ∀ b ∈ bytes, b < 256) (h1 : 1 ≤ bytes.length)
    (h4 : bytes.length ≤ 4) :
    readScalableBigEndianOrderBytesToUint32 bytes 0 = bigEndianValue bytes := by
  unfold readScalableBigEndianOrderBytesToUint32
  rw [if_pos h1, readScalableLoop_eq 32 _ bytes 0 0 hb (by omega) (by omega) (Nat.dvd_zero _)]
  simp

/-- With valid widths and a whole record in the stream, the decoder succeeds, consumes the
record and reads its two fields as positional values. -/
theorem EntityUnmarshaler.UnmarshalFrom_of_le (a b : Nat) (reader : Bytes)
    (ha : a = 4 ∨ a = 8) (hb : b = 1 ∨ b = 2 ∨ b = 3 ∨ b = 4)
    (hlen : a + b ≤ reader.length) (hbytes : ∀ x ∈ reader, x < 256) :
    EntityUnmarshaler.UnmarshalFrom (some ⟨a, b⟩) reader (some ⟨0, 0⟩) =
      ((some ⟨bigEndianValue (reader.take a), bigEndianValue ((reader.drop a).take b)⟩,
        reader.drop (a + b)), none) ∧
    bigEndianValue (reader.take a) < 2 ^ 64 ∧
    bigEndianValue ((reader.drop a).take b) < 2 ^ 32 := by
  have hva : validateIPIndexSize a = true := by
    rcases ha with h | h <;> subst h <;> rfl
  have hvb : validateMetaRowIndexSize b = true := by
    rcases hb with h | h | h | h <;> subst h <;> rfl
  have htake : List.take a (List.take (a + b) reader) = List.take a reader := by
    rw [List.take_take]
    congr 1
    omega
  have hdrop : List.drop a (List.take (a + b) reader) = List.take b (List.drop a reader) := by
    rw [List.drop_take]
    congr 1
    omega
  have hla : (List.take a reader).length = a := by
    rw [List.length_take]
    omega
  have hlb : (List.take b (List.drop a reader)).length = b := by
    rw [List.length_take, List.length_drop]
    omega
  have hba : ∀ x ∈ List.take a reader, x < 256 :=
    fun x hx => hbytes x (List.mem_of_mem_take hx)
  have hbb : ∀ x ∈ List.take b (List.drop a reader), x < 256 :=
    fun x hx => hbytes x (List.mem_of_mem_drop (List.mem_of_mem_take hx))
  have hn1 : ¬ (a + b = 1 ∧ (List.take (a + b) reader).getD 0 0 = 0) := by omega
  refine ⟨?_, ?_, ?_⟩
  · simp only [EntityUnmarshaler.UnmarshalFrom, hva, hvb, Bool.not_true, Bool.or_self,
      Bool.false_eq_true, if_false, ioReadFull_of_le reader (a + b) hlen, hn1,
      Option.isSome_none, htake, hdrop,
      readUint64_eq _ hba (by omega) (by omega), readUint32_eq _ hbb (by omega) (by omega)]
  · have := bigEndianValue_lt _ hba
    rw [hla] at this
    have hle : (256 : Nat) ^ a ≤ 2 ^ 64 := by
      rcases ha with h | h <;> subst h <;> norm_num
    omega
  · have := bigEndianValue_lt _ hbb
    rw [hlb] at this
    have hle : (256 : Nat) ^ b ≤ 2 ^ 32 := by
      rcases hb with h | h | h | h <;> subst h <;> norm_num
    omega

/-- C14: entity decode is big-endian.  For an ip width `a` of 4 or 8, a meta width `b` of
1 to 4 and a stream with at least `a + b` bytes, `UnmarshalFrom` into a new zero entity
succeeds, consumes exactly `a + b` bytes, and sets the ip index to the positional value
of the first `a` bytes and the meta row index to that of the next `b` bytes. -/
theorem Entity_UnmarshalFrom_bigEndian (a b : Nat) (reader : Bytes)
    (ha : a = 4 ∨ a = 8) (hb : b = 1 ∨ b = 2 ∨ b = 3 ∨ b = 4)
    (hlen : a + b ≤ reader.length) (hbytes : ∀ x ∈ reader, x < 256) :
    EntityUnmarshaler.UnmarshalFrom (some ⟨a, b⟩) reader (some ⟨0, 0⟩) =
      ((some ⟨bigEndianValue (reader.take a), bigEndianValue ((reader.drop a).take b)⟩,
        reader.drop (a + b)), none) ∧
    bigEndianValue (reader.take a) < 2 ^ 64 ∧
    bigEndianValue ((reader.drop a).take b) < 2 ^ 32 :=
  EntityUnmarshaler.UnmarshalFrom_of_le a b reader ha hb hlen hbytes

/-- Witness for C14: widths 4 and 3 on the bytes `1 2 3 4 1 17 112` and one more byte. -/
theorem Entity_UnmarshalFrom_bigEndian_witness :
    EntityUnmarshaler.UnmarshalFrom (some ⟨4, 3⟩) [1, 2, 3, 4, 1, 17, 112, 0]
      (some ⟨0, 0⟩)
      = ((some ⟨bigEndianValue [1, 2, 3, 4], bigEndianValue [1, 17, 112]⟩, [0]), none) ∧
    bigEndianValue [1, 2, 3, 4] = 16909060 ∧ bigEndianValue [1, 17, 112] = 70000 :=
  ⟨(Entity_UnmarshalFrom_bigEndian 4 3 [1, 2, 3, 4, 1, 17, 112, 0] (by decide) (by decide)
    (by decide) (by decide)).1, by decide, by decide⟩

/-! ## Meta row positional decode (C13) -/

/-- The accumulated value of a digit run never decreases. -/
theorem foldl_digits_ge (body : Bytes) :
    ∀ a : Nat, a ≤ body.foldl (fun acc c => acc * 10 + (c - 48)) a := by
  induction body with
  | nil => intro a; exact le_refl _
  | cons c rest ih =>
    intro a
    simp only [List.foldl_cons]
    have := ih (a * 10 + (c - 48))
    omega

/-- The digit loop of `ParseUint` computes the value of a digit run that stays within
`2^63`. -/
theorem parseUintLoop_digits (body : Bytes) :
    ∀ a : Nat, (∀ c ∈ body, 48 ≤ c ∧ c ≤ 57) →
      body.foldl (fun acc c => acc * 10 + (c - 48)) a ≤ 2 ^ 63 →
      parseUintLoop body a = (body.foldl (fun acc c => acc * 10 + (c - 48)) a, none) := by
  induction body with
  | nil => intro a _ _; rfl
  | cons c rest ih =>
    intro a hd hle
    have hc := hd c (List.mem_cons_self _ _)
    have hrest : ∀ x ∈ rest, 48 ≤ x ∧ x ≤ 57 := fun x hx => hd x (List.mem_cons_of_mem _ hx)
    simp only [List.foldl_cons] at hle ⊢
    have hge := foldl_digits_ge rest (a * 10 + (c - 48))
    have h1 : ¬ ¬ (48 ≤ c ∧ c ≤ 57) := by omega
    have h2 : ¬ (a ≥ 1844674407370955162) := by omega
    have h3 : ¬ (a * 10 + (c - 48) > 2 ^ 64 - 1) := by omega
    rw [parseUintLoop, if_neg h1, if_neg h2, if_neg h3]
    exact ih _ hrest hle

/-- The closure `toInt` computes the value of a decimal numeral. -/
theorem toInt_of_decimalIntValue (s : Bytes) (v : Int) (h : decimalIntValue s = some v) :
    toInt s = (v, none) := by
  cases s with
  | nil => simp [decimalIntValue] at h
  | cons c t =>
    have hs : ¬ (c :: t : Bytes) = [] := by simp
    unfold toInt
    rw [if_neg hs]
    by_cases h45 : c = 45
    · subst h45
      simp only [decimalIntValue, List.head?_cons, Option.some.injEq, or_true, if_true,
        List.tail_cons] at h
      split_ifs at h with hcond
      obtain ⟨hne, hdig, hlo, hhi⟩ := hcond
      have hv := Option.some.inj h
      unfold decimalDigitsValue at hlo hv
      have hp := parseUintLoop_digits t 0 hdig (by omega)
      rw [strconvAtoi_neg_digits t _ hne hp (by omega), ← hv]
    · by_cases h43 : c = 43
      · subst h43
        simp only [decimalIntValue, List.head?_cons, Option.some.injEq, true_or, if_true,
          List.tail_cons, Nat.reduceEqDiff, if_false] at h
        split_ifs at h with hcond
        obtain ⟨hne, hdig, hlo, hhi⟩ := hcond
        have hv := Option.some.inj h
        unfold decimalDigitsValue at hhi hv
        have hp := parseUintLoop_digits t 0 hdig (by omega)
        have hs2 : ¬ t = [] := hne
        rw [← hv]
        simp [strconvAtoi, strconvParseUint, hp, hs2]
        omega
      · simp only [decimalIntValue, List.head?_cons, Option.some.injEq, h43, h45, or_self,
          if_false] at h
        split_ifs at h with hcond
        obtain ⟨hne, hdig, hlo, hhi⟩ := hcond
        have hv := Option.some.inj h
        unfold decimalDigitsValue at hhi hv
        have hp := parseUintLoop_digits (c :: t) 0 hdig (by omega)
        rw [strconvAtoi_digits (c :: t) _ hne hdig hp (by omega), ← hv]

/-- From position 8 on the loop of `UnmarshalString` ignores the pieces. -/
theorem UnmarshalStringLoop_ignore (rest : List Bytes) :
    ∀ (i : Nat) (r : IPCity.Meta) (e : Option GoError), 8 ≤ i →
      Meta.UnmarshalStringLoop rest i r e = (r, e) := by
  induction rest with
  | nil => intro i r e _; rfl
  | cons p ps ih =>
    intro i r e hi
    rw [Meta.UnmarshalStringLoop]
    repeat rw [if_neg (show ¬ i = _ by omega)]
    exact ih _ r e (by omega)

/-- What `UnmarshalString` makes of the pieces of a line, decoded into a new row: the first
six pieces verbatim, `toInt` of pieces 6 and 7, the zero value for a missing piece; the
error returned is that of the last numeric piece present. -/
theorem UnmarshalStringLoop_eq (ps : List Bytes) :
    Meta.UnmarshalStringLoop ps 0 emptyRow none =
      (⟨ps.getD 0 [], ps.getD 1 [], ps.getD 2 [], ps.getD 3 [], ps.getD 4 [], ps.getD 5 [],
          (toInt (ps.getD 6 [])).1, (toInt (ps.getD 7 [])).1⟩,
        if 8 ≤ ps.length then (toInt (ps.getD 7 [])).2
        else if ps.length = 7 then (toInt (ps.getD 6 [])).2
        else none) := by
  match ps with
  | [] => simp [Meta.UnmarshalStringLoop, emptyRow, toInt]
  | [p0] => simp [Meta.UnmarshalStringLoop, emptyRow, toInt]
  | [p0, p1] => simp [Meta.UnmarshalStringLoop, emptyRow, toInt]
  | [p0, p1, p2] => simp [Meta.UnmarshalStringLoop, emptyRow, toInt]
  | [p0, p1, p2, p3] => simp [Meta.UnmarshalStringLoop, emptyRow, toInt]
  | [p0, p1, p2, p3, p4] => simp [Meta.UnmarshalStringLoop, emptyRow, toInt]
  | [p0, p1, p2, p3, p4, p5] => simp [Meta.UnmarshalStringLoop, emptyRow, toInt]
  | [p0, p1, p2, p3, p4, p5, p6] =>
    have h0 : toInt [] = (0, none) := rfl
    simp [Meta.UnmarshalStringLoop, emptyRow, h0]
  | p0 :: p1 :: p2 :: p3 :: p4 :: p5 :: p6 :: p7 :: rest =>
    simp [Meta.UnmarshalStringLoop, emptyRow, UnmarshalStringLoop_ignore rest 8]

/-- C13: meta row positional decode.  Let the pieces be the line without one trailing
newline, split on tabs.  If pieces 6 and 7, when present, are empty or decimal integers
of values `v6` and `v7` (0 for a missing or empty piece), `UnmarshalString` into a new row
succeeds and the row has the first six pieces verbatim as its strings and `v6`, `v7` as
its codes; a missing piece leaves the zero value and pieces after the 8th are ignored. -/
theorem Meta_UnmarshalString_positional (line : Bytes) (v6 v7 : Int)
    (h6 : fieldIntValue ((stringsSplit 9 (stringsTrimSuffixNewline line))[6]?) = some v6)
    (h7 : fieldIntValue ((stringsSplit 9 (stringsTrimSuffixNewline line))[7]?) = some v7) :
    Meta.UnmarshalString (some emptyRow) line =
      (some ⟨(stringsSplit 9 (stringsTrimSuffixNewline line)).getD 0 [],
          (stringsSplit 9 (stringsTrimSuffixNewline line)).getD 1 [],
          (stringsSplit 9 (stringsTrimSuffixNewline line)).getD 2 [],
          (stringsSplit 9 (stringsTrimSuffixNewline line)).getD 3 [],
          (stringsSplit 9 (stringsTrimSuffixNewline line)).getD 4 [],
          (stringsSplit 9 (stringsTrimSuffixNewline line)).getD 5 [], v6, v7⟩, none) := by
  have hfield : ∀ (ps : List Bytes) (k : Nat) (v : Int),
      fieldIntValue (ps[k]?) = some v → toInt (ps.getD k []) = (v, none) := by
    intro ps k v hv
    rw [List.getD_eq_getElem?_getD]
    cases hp : ps[k]? with
    | none =>
      rw [hp] at hv
      simp only [fieldIntValue, Option.some.injEq] at hv
      rw [← hv]
      rfl
    | some p =>
      rw [hp] at hv
      simp only [fieldIntValue] at hv
      simp only [Option.getD_some]
      by_cases hpe : p = []
      · rw [if_pos hpe, Option.some.injEq] at hv
        rw [hpe, ← hv]
        rfl
      · rw [if_neg hpe] at hv
        exact toInt_of_decimalIntValue p v hv
  unfold Meta.UnmarshalString
  simp only [UnmarshalStringLoop_eq, hfield _ 6 v6 h6, hfield _ 7 v7 h7]
  split_ifs <;> rfl

/-- Witness for C13: the line `"AB\tC\t\tD\t\tE\t-12\t340\tx\n"` with nine pieces. -/
theorem Meta_UnmarshalString_positional_witness :
    Meta.UnmarshalString (some emptyRow)
      [65, 66, 9, 67, 9, 9, 68, 9, 9, 69, 9, 45, 49, 50, 9, 51, 52, 48, 9, 120, 10]
      = (some ⟨[65, 66], [67], [], [68], [], [69], -12, 340⟩, none) :=
  Meta_UnmarshalString_positional
    [65, 66, 9, 67, 9, 9, 68, 9, 9, 69, 9, 45, 49, 50, 9, 51, 52, 48, 9, 120, 10] (-12) 340
    (by decide) (by decide)

/-! ## Entity run and sentinel (C15) -/

/-- With valid widths and less than a whole record left, the decoder fails: with `io.EOF`
at the end of the stream or on a single zero byte, with `io.ErrUnexpectedEOF` otherwise. -/
theorem EntityUnmarshaler.UnmarshalFrom_of_lt (a b : Nat) (reader : Bytes)
    (ha : a = 4 ∨ a = 8) (hb : b = 1 ∨ b = 2 ∨ b = 3 ∨ b = 4)
    (hlt : reader.length < a + b) :
    EntityUnmarshaler.UnmarshalFrom (some ⟨a, b⟩) reader (some ⟨0, 0⟩) =
      ((some ⟨0, 0⟩, []),
        some (if reader = [] ∨ reader = [0] then GoError.EOF
          else GoError.ErrUnexpectedEOF)) := by
  have hva : validateIPIndexSize a = true := by
    rcases ha with h | h <;> subst h <;> rfl
  have hvb : validateMetaRowIndexSize b = true := by
    rcases hb with h | h | h | h <;> subst h <;> rfl
  simp only [EntityUnmarshaler.UnmarshalFrom, hva, hvb, Bool.not_true, Bool.or_self,
    Bool.false_eq_true, if_false, ioReadFull_of_lt reader (a + b) hlt]
  match reader with
  | [] => simp
  | [c] =>
    by_cases hc : c = 0
    · simp [hc]
    · simp [hc]
  | c :: d :: t => simp

/-- The records of a stream that starts with a whole record. -/
theorem entityRecords_cons (a b : Nat) (reader : Bytes) (hw : 0 < a + b)
    (hlen : a + b ≤ reader.length) :
    entityRecords a b reader =
      ⟨bigEndianValue (reader.take a), bigEndianValue ((reader.drop a).take b)⟩ ::
        entityRecords a b (reader.drop (a + b)) := by
  unfold entityRecords
  rw [Nat.div_eq_sub_div hw hlen, List.range_succ_eq_map, List.map_cons, List.map_map,
    List.length_drop]
  congr 1
  · simp
  · apply List.map_congr_left
    intro i _
    simp only [Function.comp, List.drop_drop]
    have e1 : (i + 1) * (a + b) = a + b + i * (a + b) := by ring
    have e2 : a + b + i * (a + b) + a = a + b + (i * (a + b) + a) := by ring
    rw [e1, e2]

/-- No whole record, no records. -/
theorem entityRecords_of_lt (a b : Nat) (reader : Bytes) (hlt : reader.length < a + b) :
    entityRecords a b reader = [] := by
  unfold entityRecords
  rw [Nat.div_eq_of_lt hlt]
  rfl

/-- The entity loop with valid widths and enough fuel: it collects the whole records of the
stream and ends with `io.EOF` when nothing or a single zero byte follows them, with
`io.ErrUnexpectedEOF` otherwise. -/
theorem unmarshalEntityListLoop_eq (a b : Nat) (ha : a = 4 ∨ a = 8)
    (hb : b = 1 ∨ b = 2 ∨ b = 3 ∨ b = 4) :
    ∀ (fuel : Nat) (reader : Bytes) (acc : List Entity), reader.length < fuel →
      (∀ x ∈ reader, x < 256) →
      unmarshalEntityListLoop ⟨a, b⟩ fuel reader acc =
        ⟨acc ++ entityRecords a b reader, [],
          some (if reader.length % (a + b) = 0 ∨
              (reader.length % (a + b) = 1 ∧ reader.getLast? = some 0) then GoError.EOF
            else GoError.ErrUnexpectedEOF)⟩ := by
  intro fuel
  induction fuel with
  | zero => intro reader acc h _; omega
  | succ fuel ih =>
    intro reader acc hfuel hbytes
    have hw : 5 ≤ a + b := by omega
    by_cases hlen : a + b ≤ reader.length
    · have hstep := (EntityUnmarshaler.UnmarshalFrom_of_le a b reader ha hb hlen hbytes).1
      rw [unmarshalEntityListLoop, hstep]
      simp only [Option.isSome_none, Bool.false_eq_true, if_false, Option.getD_some]
      rw [ih (reader.drop (a + b)) _ (by rw [List.length_drop]; omega)
        (fun x hx => hbytes x (List.mem_of_mem_drop hx)),
        entityRecords_cons a b reader (by omega) hlen]
      have hmod : (reader.drop (a + b)).length % (a + b) = reader.length % (a + b) := by
        rw [List.length_drop]
        conv_rhs => rw [← Nat.sub_add_cancel hlen]
        rw [Nat.add_mod_right]
      have hlast : (reader.drop (a + b)).length % (a + b) = 1 →
          (reader.drop (a + b)).getLast? = reader.getLast? := by
        intro h1
        rw [List.getLast?_drop, if_neg]
        intro hle
        have : (reader.drop (a + b)).length = 0 := by
          rw [List.length_drop]
          omega
        rw [this] at h1
        simp at h1
      have hcond : ((reader.drop (a + b)).length % (a + b) = 0 ∨
          ((reader.drop (a + b)).length % (a + b) = 1 ∧
            (reader.drop (a + b)).getLast? = some 0)) ↔
          (reader.length % (a + b) = 0 ∨
            (reader.length % (a + b) = 1 ∧ reader.getLast? = some 0)) := by
        constructor
        · rintro (h | ⟨h1, h2⟩)
          · exact Or.inl (hmod ▸ h)
          · exact Or.inr ⟨hmod ▸ h1, (hlast h1) ▸ h2⟩
        · rintro (h | ⟨h1, h2⟩)
          · exact Or.inl (hmod.symm ▸ h)
          · have h1b : (reader.drop (a + b)).length % (a + b) = 1 := hmod.symm ▸ h1
            exact Or.inr ⟨h1b, (hlast h1b).symm ▸ h2⟩
      simp only [hcond, List.append_assoc, List.singleton_append]
    · have hlt : reader.length < a + b := by omega
      rw [unmarshalEntityListLoop, EntityUnmarshaler.UnmarshalFrom_of_lt a b reader ha hb hlt]
      simp only [Option.isSome_some, if_true, entityRecords_of_lt a b reader hlt,
        List.append_nil, Nat.mod_eq_of_lt hlt]
      have hcond : (reader = [] ∨ reader = [0]) ↔
          (reader.length = 0 ∨ (reader.length = 1 ∧ reader.getLast? = some 0)) := by
        match reader with
        | [] => simp
        | [c] => simp
        | c :: d :: t => simp
      simp only [hcond]

/-- A successful decode leaves a shorter stream. -/
theorem EntityUnmarshaler.UnmarshalFrom_rest_lt (u : EntityUnmarshaler) (reader : Bytes)
    (e : Entity)
    (h : (EntityUnmarshaler.UnmarshalFrom (some u) reader (some e)).2 = none) :
    (EntityUnmarshaler.UnmarshalFrom (some u) reader (some e)).1.2.length < reader.length := by
  unfold EntityUnmarshaler.UnmarshalFrom at h ⊢
  by_cases hv : (!validateIPIndexSize u.IPIndexSize ||
      !validateMetaRowIndexSize u.MetaRowIndexSize) = true
  · simp [hv] at h
  · simp only [hv, Bool.false_eq_true, if_false] at h ⊢
    have hpos : 0 < u.IPIndexSize := by
      by_contra h0
      have : u.IPIndexSize = 0 := by omega
      simp [this, validateIPIndexSize] at hv
    by_cases hlen : u.IPIndexSize + u.MetaRowIndexSize ≤ reader.length
    · rw [ioReadFull_of_le _ _ hlen] at h ⊢
      have hdrop : (List.drop (u.IPIndexSize + u.MetaRowIndexSize) reader).length
          < reader.length := by
        rw [List.length_drop]
        omega
      simp only at h ⊢
      split_ifs at h ⊢ <;> exact hdrop
    · rw [ioReadFull_of_lt _ _ (by omega)] at h
      simp only [Option.isSome_some, if_true] at h
      split_ifs at h

/-- The entity loop leaves by its own `break`: with more fuel than the stream has bytes it
ends with an error, whatever the widths. -/
theorem unmarshalEntityListLoop_fuel (u : EntityUnmarshaler) :
    ∀ (fuel : Nat) (reader : Bytes) (acc : List Entity), reader.length < fuel →
      (unmarshalEntityListLoop u fuel reader acc).err.isSome = true := by
  intro fuel
  induction fuel with
  | zero => intro reader acc h; omega
  | succ fuel ih =>
    intro reader acc hfuel
    rw [unmarshalEntityListLoop]
    cases hres : (EntityUnmarshaler.UnmarshalFrom (some u) reader (some ⟨0, 0⟩)).2 with
    | some err => simp
    | none =>
      have hlt := EntityUnmarshaler.UnmarshalFrom_rest_lt u reader ⟨0, 0⟩ hres
      simp only [Option.isSome_none, Bool.false_eq_true, if_false]
      exact ih _ _ (by omega)

/-- A meta table loop that ends without error has added one row per round. -/
theorem unmarshalMetaTableLoop_length :
    ∀ (n i : Nat) (reader : Bytes) (acc : List IPCity.Meta),
      (unmarshalMetaTableLoop n i reader acc).err = none →
      (unmarshalMetaTableLoop n i reader acc).metaTable.length = acc.length + n := by
  intro n
  induction n with
  | zero => intro i reader acc _; rfl
  | succ n ih =>
    intro i reader acc h
    rw [unmarshalMetaTableLoop] at h ⊢
    by_cases h1 : (bufioReadBytes 10 reader).err.isSome = true
    · simp only [h1, if_true] at h
      rw [h] at h1
      simp at h1
    · simp only [h1, Bool.false_eq_true, if_false] at h ⊢
      by_cases h2 : (Meta.Unmarshal (some emptyRowValue)
          (bufioReadBytes 10 reader).line).2.isSome = true
      · simp only [h2, if_true] at h
        rw [h] at h2
        simp at h2
      · simp only [h2, Bool.false_eq_true, if_false] at h ⊢
        rw [ih _ _ _ h, List.length_append, List.length_singleton]
        omega

/-- C15: entity run and sentinel.  Take a stream whose header decodes to `h` with entity
count 0 and valid resolved widths `a` and `b`, and whose meta table stage succeeds and
leaves the bytes `ent`.  Then `Store.UnmarshalFrom` succeeds exactly when `ent` is a run
of whole records of `a + b` bytes followed by nothing or by one single zero byte; it then
yields the header, the table and exactly those records in stream order; for any other
trailing fragment the load fails with the wrapped `io.ErrUnexpectedEOF`. -/
theorem Store_UnmarshalFrom_entity_run (s : Store) (stream rest1 ent : Bytes)
    (h : headerImpl) (table : List IPCity.Meta) (i : Nat)
    (hhdr : Header.UnmarshalFrom (some ⟨some ⟨0, 0, 0, 0, 0, 0, 0, 0⟩⟩) stream
      = ((some ⟨some h⟩, rest1), none))
    (hmeta : unmarshalMetaTableLoop h.MetaRowCount 0 rest1 [] = ⟨table, ent, i, none⟩)
    (hcount : h.EntityCount = 0)
    (ha : Header.IPIndexSize (some ⟨some h⟩) = 4 ∨ Header.IPIndexSize (some ⟨some h⟩) = 8)
    (hb : Header.MetaRowIndexSize (some ⟨some h⟩) = 1 ∨
      Header.MetaRowIndexSize (some ⟨some h⟩) = 2 ∨
      Header.MetaRowIndexSize (some ⟨some h⟩) = 3 ∨
      Header.MetaRowIndexSize (some ⟨some h⟩) = 4)
    (hbytes : ∀ x ∈ ent, x < 256) :
    ((Store.UnmarshalFrom s stream).2 = none ↔
      (ent.length % (Header.IPIndexSize (some ⟨some h⟩) +
          Header.MetaRowIndexSize (some ⟨some h⟩)) = 0 ∨
        (ent.length % (Header.IPIndexSize (some ⟨some h⟩) +
            Header.MetaRowIndexSize (some ⟨some h⟩)) = 1 ∧ ent.getLast? = some 0))) ∧
    ((Store.UnmarshalFrom s stream).2 = none →
      Store.UnmarshalFrom s stream =
        (⟨some ⟨some h⟩, table,
          entityRecords (Header.IPIndexSize (some ⟨some h⟩))
            (Header.MetaRowIndexSize (some ⟨some h⟩)) ent⟩, none)) ∧
    ((Store.UnmarshalFrom s stream).2 ≠ none →
      (Store.UnmarshalFrom s stream).2
        = some (GoError.unmarshalEntityListError GoError.ErrUnexpectedEOF)) := by
  have hlen : table.length = h.MetaRowCount := by
    have := unmarshalMetaTableLoop_length h.MetaRowCount 0 rest1 [] (by rw [hmeta])
    rw [hmeta] at this
    simpa using this
  have hloop := unmarshalEntityListLoop_eq _ _ ha hb (ent.length + 1) ent []
    (Nat.lt_succ_self _) hbytes
  have hres : Store.UnmarshalFrom s stream =
      if (ent.length % (Header.IPIndexSize (some ⟨some h⟩) +
          Header.MetaRowIndexSize (some ⟨some h⟩)) = 0 ∨
        (ent.length % (Header.IPIndexSize (some ⟨some h⟩) +
            Header.MetaRowIndexSize (some ⟨some h⟩)) = 1 ∧ ent.getLast? = some 0)) then
        (⟨some ⟨some h⟩, table,
          entityRecords (Header.IPIndexSize (some ⟨some h⟩))
            (Header.MetaRowIndexSize (some ⟨some h⟩)) ent⟩, none)
      else (⟨some ⟨some h⟩, table, s.entityList⟩,
        some (GoError.unmarshalEntityListError GoError.ErrUnexpectedEOF)) := by
    unfold Store.UnmarshalFrom
    by_cases hc : (ent.length % (Header.IPIndexSize (some ⟨some h⟩) +
          Header.MetaRowIndexSize (some ⟨some h⟩)) = 0 ∨
        (ent.length % (Header.IPIndexSize (some ⟨some h⟩) +
            Header.MetaRowIndexSize (some ⟨some h⟩)) = 1 ∧ ent.getLast? = some 0))
    · rw [if_pos hc]
      simp only [hhdr, Header.MetaRowCount, hmeta, Store.MetaRowCount, hlen, ne_eq,
        not_true_eq_false, if_false, hloop, hc, if_true, List.nil_append,
        Header.EntityCount, hcount, gt_iff_lt, lt_self_iff_false, false_and, and_false]
    · rw [if_neg hc]
      simp only [hhdr, Header.MetaRowCount, hmeta, Store.MetaRowCount, hlen, ne_eq,
        not_true_eq_false, if_false, hloop, hc]
      simp
  rw [hres]
  split_ifs with hc
  · simp [hc]
  · simp [hc]

/-- Witness for C15: a version 3 IPv4 header with one row and entity count 0, the row
`A`, two records of 4 + 1 bytes and the single zero byte. -/
theorem Store_UnmarshalFrom_entity_run_witness :
    (Store.UnmarshalFrom ⟨none, [], []⟩
      ([105, 112, 67, 84, 3, 1, 0, 0, 0, 0, 0, 1, 0, 0, 0, 0, 0, 0, 0, 0, 0, 0, 0, 0] ++
        [65, 10] ++ [0, 0, 0, 100, 0, 0, 0, 0, 200, 0, 0])).2 = none ∧
    Store.UnmarshalFrom ⟨none, [], []⟩
      ([105, 112, 67, 84, 3, 1, 0, 0, 0, 0, 0, 1, 0, 0, 0, 0, 0, 0, 0, 0, 0, 0, 0, 0] ++
        [65, 10] ++ [0, 0, 0, 100, 0, 0, 0, 0, 200, 0, 0])
      = (⟨some ⟨some ⟨3, 1, 0, 0, 1, 0, 0, 0⟩⟩, [rowNamed [65]], [⟨100, 0⟩, ⟨200, 0⟩]⟩,
          none) :=
  ⟨((Store_UnmarshalFrom_entity_run ⟨none, [], []⟩
      ([105, 112, 67, 84, 3, 1, 0, 0, 0, 0, 0, 1, 0, 0, 0, 0, 0, 0, 0, 0, 0, 0, 0, 0] ++
        [65, 10] ++ [0, 0, 0, 100, 0, 0, 0, 0, 200, 0, 0])
      ([65, 10] ++ [0, 0, 0, 100, 0, 0, 0, 0, 200, 0, 0])
      [0, 0, 0, 100, 0, 0, 0, 0, 200, 0, 0] ⟨3, 1, 0, 0, 1, 0, 0, 0⟩ [rowNamed [65]] 1
      (by decide) (by decide) (by decide) (by decide) (by decide) (by decide)).1).mpr
      (by decide),
    by decide⟩

/-! ## Loading into the registry (C20) -/

/-- A stream that does not start with the magic number fails the header stage. -/
theorem headerImpl.ReadFrom_bad_magic (h : headerImpl) (r : Bytes)
    (hmagic : r.take 4 ≠ DataMagicNumber) :
    (headerImpl.ReadFrom (some h) r).2 ≠ none := by
  unfold headerImpl.ReadFrom
  by_cases hlen : 24 ≤ r.length
  · have hmn : ¬ DataMagicNumber = List.take 4 r := fun e => hmagic e.symm
    have htt : List.take 4 (List.take 24 r) = List.take 4 r := by
      rw [List.take_take]
      rfl
    simp [headerBytesLength, ioReadFull_of_le r 24 hlen, htt, hmn]
  · simp [headerBytesLength, ioReadFull_of_lt r 24 (by omega)]

/-- C20: `Load` is all-or-nothing on the registry.  Either it fails and the client is
exactly as it was, or it succeeds and the new store list is the old one with exactly one
store appended at the end, the store that `Store.UnmarshalFrom` built without error from
the whole file.  In particular a file that cannot be opened, and a file whose first 4
bytes are not the magic number, fail and add nothing. -/
theorem Client_Load_all_or_nothing (c : Client) (file : Option Bytes) :
    (((Client.Load c file).2 ≠ none ∧ (Client.Load c file).1 = c) ∨
      ((Client.Load c file).2 = none ∧
        ∃ (content : Bytes) (s : Store), file = some content ∧
          Store.UnmarshalFrom ⟨none, [], []⟩ content = (s, none) ∧
          (Client.Load c file).1.stores = c.stores ++ [s])) ∧
    ((Client.Load c none).2 ≠ none ∧ (Client.Load c none).1 = c) ∧
    (∀ content : Bytes, content.take 4 ≠ DataMagicNumber →
      (Client.Load c (some content)).2 ≠ none ∧ (Client.Load c (some content)).1 = c) := by
  refine ⟨?_, ⟨by simp [Client.Load], rfl⟩, ?_⟩
  · cases file with
    | none => exact Or.inl ⟨by simp [Client.Load], rfl⟩
    | some content =>
      cases hres : (Store.UnmarshalFrom ⟨none, [], []⟩ content).2 with
      | some err =>
        left
        simp [Client.Load, hres]
      | none =>
        right
        refine ⟨by simp [Client.Load, hres], content,
          (Store.UnmarshalFrom ⟨none, [], []⟩ content).1, rfl, ?_, by simp [Client.Load, hres]⟩
        rw [← hres]
  · intro content hmagic
    have hhd := headerImpl.ReadFrom_bad_magic ⟨0, 0, 0, 0, 0, 0, 0, 0⟩ content hmagic
    have hfail : ∃ err, (Store.UnmarshalFrom ⟨none, [], []⟩ content).2 = some err := by
      unfold Store.UnmarshalFrom
      simp only [Header.UnmarshalFrom]
      cases he : (headerImpl.ReadFrom (some ⟨0, 0, 0, 0, 0, 0, 0, 0⟩) content).2 with
      | none => exact absurd he hhd
      | some err => exact ⟨_, rfl⟩
    obtain ⟨err, herr⟩ := hfail
    simp [Client.Load, herr]

/-! ## Loaded counts (C21) -/

/-- A load that succeeds has passed both count checks: the meta table has as many rows as
the header says, and with a non-zero entity count the entity list has as many entries. -/
theorem Store.UnmarshalFrom_counts (s : Store) (stream : Bytes) (s2 : Store)
    (h : Store.UnmarshalFrom s stream = (s2, none)) :
    s2.metaTable.length = Header.MetaRowCount s2.header ∧
    (Header.EntityCount s2.header > 0 →
      s2.entityList.length = Header.EntityCount s2.header) := by
  unfold Store.UnmarshalFrom at h
  simp only at h
  split at h
  · simp at h
  · split at h
    · simp at h
    · split_ifs at h with c1 c2 c3
      · simp at h
      · simp at h
      · simp at h
      · simp only [Prod.mk.injEq, and_true] at h
        subst h
        simp only [Store.MetaRowCount, Store.EntityCount, ne_eq, not_not, not_and] at c1 c3
        refine ⟨by exact_mod_cast c1, fun hpos => ?_⟩
        have := c3 hpos
        exact_mod_cast this

/-- The number of whole records of a stream. -/
theorem entityRecords_length (a b : Nat) (stream : Bytes) :
    (entityRecords a b stream).length = stream.length / (a + b) := by
  simp [entityRecords]

/-- The result of a load whose header and meta table stages succeed, with valid resolved
widths: a trailing fragment other than one zero byte fails the entity stage; otherwise the
records are kept and a non-zero entity count of the header is compared with their number. -/
theorem Store.UnmarshalFrom_of_stages (s : Store) (stream rest1 ent : Bytes)
    (h : headerImpl) (table : List IPCity.Meta) (i : Nat)
    (hhdr : Header.UnmarshalFrom (some ⟨some ⟨0, 0, 0, 0, 0, 0, 0, 0⟩⟩) stream
      = ((some ⟨some h⟩, rest1), none))
    (hmeta : unmarshalMetaTableLoop h.MetaRowCount 0 rest1 [] = ⟨table, ent, i, none⟩)
    (ha : Header.IPIndexSize (some ⟨some h⟩) = 4 ∨ Header.IPIndexSize (some ⟨some h⟩) = 8)
    (hb : Header.MetaRowIndexSize (some ⟨some h⟩) = 1 ∨
      Header.MetaRowIndexSize (some ⟨some h⟩) = 2 ∨
      Header.MetaRowIndexSize (some ⟨some h⟩) = 3 ∨
      Header.MetaRowIndexSize (some ⟨some h⟩) = 4)
    (hbytes : ∀ x ∈ ent, x < 256) :
    Store.UnmarshalFrom s stream =
      if (ent.length % (Header.IPIndexSize (some ⟨some h⟩) +
          Header.MetaRowIndexSize (some ⟨some h⟩)) = 0 ∨
        (ent.length % (Header.IPIndexSize (some ⟨some h⟩) +
            Header.MetaRowIndexSize (some ⟨some h⟩)) = 1 ∧ ent.getLast? = some 0)) then
        if h.EntityCount > 0 ∧ ent.length / (Header.IPIndexSize (some ⟨some h⟩) +
            Header.MetaRowIndexSize (some ⟨some h⟩)) ≠ h.EntityCount then
          (⟨some ⟨some h⟩, table,
            entityRecords (Header.IPIndexSize (some ⟨some h⟩))
              (Header.MetaRowIndexSize (some ⟨some h⟩)) ent⟩,
            some (GoError.invalidEntityListSize
              (ent.length / (Header.IPIndexSize (some ⟨some h⟩) +
                Header.MetaRowIndexSize (some ⟨some h⟩))) h.EntityCount))
        else
          (⟨some ⟨some h⟩, table,
            entityRecords (Header.IPIndexSize (some ⟨some h⟩))
              (Header.MetaRowIndexSize (some ⟨some h⟩)) ent⟩, none)
      else (⟨some ⟨some h⟩, table, s.entityList⟩,
        some (GoError.unmarshalEntityListError GoError.ErrUnexpectedEOF)) := by
  have hlen : table.length = h.MetaRowCount := by
    have := unmarshalMetaTableLoop_length h.MetaRowCount 0 rest1 [] (by rw [hmeta])
    rw [hmeta] at this
    simpa using this
  have hloop := unmarshalEntityListLoop_eq _ _ ha hb (ent.length + 1) ent []
    (Nat.lt_succ_self _) hbytes
  unfold Store.UnmarshalFrom
  by_cases hc : (ent.length % (Header.IPIndexSize (some ⟨some h⟩) +
        Header.MetaRowIndexSize (some ⟨some h⟩)) = 0 ∨
      (ent.length % (Header.IPIndexSize (some ⟨some h⟩) +
          Header.MetaRowIndexSize (some ⟨some h⟩)) = 1 ∧ ent.getLast? = some 0))
  · rw [if_pos hc]
    simp only [hhdr, Header.MetaRowCount, hmeta, Store.MetaRowCount, hlen, ne_eq,
      not_true_eq_false, if_false, hloop, hc, if_true, List.nil_append,
      Header.EntityCount, and_false, Store.EntityCount, entityRecords_length,
      Nat.cast_inj]
  · rw [if_neg hc]
    simp only [hhdr, Header.MetaRowCount, hmeta, Store.MetaRowCount, hlen, ne_eq,
      not_true_eq_false, if_false, hloop, hc]
    simp

/-- C21: loaded counts agree with the header.  Every load that succeeds yields a store
whose meta table has exactly `MetaRowCount` rows and, when `EntityCount` is positive, whose
entity list has exactly `EntityCount` entries.  For a stream whose header and meta table
stages succeed with valid widths: when its number of whole records differs from a positive
`EntityCount` the load fails; when it equals it, or when `EntityCount` is 0, a run of
whole records followed by nothing or one zero byte loads, whatever its number. -/
theorem Store_UnmarshalFrom_counts_agree (s : Store) (stream rest1 ent : Bytes)
    (h : headerImpl) (table : List IPCity.Meta) (i : Nat)
    (hhdr : Header.UnmarshalFrom (some ⟨some ⟨0, 0, 0, 0, 0, 0, 0, 0⟩⟩) stream
      = ((some ⟨some h⟩, rest1), none))
    (hmeta : unmarshalMetaTableLoop h.MetaRowCount 0 rest1 [] = ⟨table, ent, i, none⟩)
    (ha : Header.IPIndexSize (some ⟨some h⟩) = 4 ∨ Header.IPIndexSize (some ⟨some h⟩) = 8)
    (hb : Header.MetaRowIndexSize (some ⟨some h⟩) = 1 ∨
      Header.MetaRowIndexSize (some ⟨some h⟩) = 2 ∨
      Header.MetaRowIndexSize (some ⟨some h⟩) = 3 ∨
      Header.MetaRowIndexSize (some ⟨some h⟩) = 4)
    (hbytes : ∀ x ∈ ent, x < 256) :
    (∀ (s0 : Store) (stream0 : Bytes) (s2 : Store),
      Store.UnmarshalFrom s0 stream0 = (s2, none) →
      s2.metaTable.length = Header.MetaRowCount s2.header ∧
      (Header.EntityCount s2.header > 0 →
        s2.entityList.length = Header.EntityCount s2.header)) ∧
    (h.EntityCount > 0 →
      ent.length / (Header.IPIndexSize (some ⟨some h⟩) +
        Header.MetaRowIndexSize (some ⟨some h⟩)) ≠ h.EntityCount →
      (Store.UnmarshalFrom s stream).2 ≠ none) ∧
    ((h.EntityCount = 0 ∨
        ent.length / (Header.IPIndexSize (some ⟨some h⟩) +
          Header.MetaRowIndexSize (some ⟨some h⟩)) = h.EntityCount) →
      (ent.length % (Header.IPIndexSize (some ⟨some h⟩) +
          Header.MetaRowIndexSize (some ⟨some h⟩)) = 0 ∨
        (ent.length % (Header.IPIndexSize (some ⟨some h⟩) +
            Header.MetaRowIndexSize (some ⟨some h⟩)) = 1 ∧ ent.getLast? = some 0)) →
      Store.UnmarshalFrom s stream =
        (⟨some ⟨some h⟩, table,
          entityRecords (Header.IPIndexSize (some ⟨some h⟩))
            (Header.MetaRowIndexSize (some ⟨some h⟩)) ent⟩, none) ∧
      (entityRecords (Header.IPIndexSize (some ⟨some h⟩))
          (Header.MetaRowIndexSize (some ⟨some h⟩)) ent).length =
        ent.length / (Header.IPIndexSize (some ⟨some h⟩) +
          Header.MetaRowIndexSize (some ⟨some h⟩))) := by
  have hres := Store.UnmarshalFrom_of_stages s stream rest1 ent h table i hhdr hmeta ha hb
    hbytes
  refine ⟨fun s0 stream0 s2 h0 => Store.UnmarshalFrom_counts s0 stream0 s2 h0, ?_, ?_⟩
  · intro hpos hne
    rw [hres]
    split_ifs with c1 c2
    · simp
    · exact absurd ⟨hpos, hne⟩ c2
    · simp
  · intro hcnt htail
    refine ⟨?_, entityRecords_length _ _ _⟩
    rw [hres, if_pos htail, if_neg]
    rintro ⟨hpos, hne⟩
    rcases hcnt with h0 | heq
    · omega
    · exact hne heq

/-- Witness for C21: a header announcing 1 entity, the row `A` and two records of 4 + 1
bytes: the load fails. -/
theorem Store_UnmarshalFrom_counts_agree_witness :
    (Store.UnmarshalFrom ⟨none, [], []⟩
      ([105, 112, 67, 84, 3, 1, 0, 0, 0, 0, 0, 1, 0, 0, 0, 1, 1, 2, 3, 4, 5, 6, 7, 8] ++
        [65, 10] ++ [0, 0, 0, 100, 0, 0, 0, 0, 200, 1])).2 ≠ none :=
  (Store_UnmarshalFrom_counts_agree ⟨none, [], []⟩
    ([105, 112, 67, 84, 3, 1, 0, 0, 0, 0, 0, 1, 0, 0, 0, 1, 1, 2, 3, 4, 5, 6, 7, 8] ++
      [65, 10] ++ [0, 0, 0, 100, 0, 0, 0, 0, 200, 1])
    ([65, 10] ++ [0, 0, 0, 100, 0, 0, 0, 0, 200, 1])
    [0, 0, 0, 100, 0, 0, 0, 0, 200, 1] ⟨3, 1, 0, 0, 1, 1, 16909060, 84281096⟩
    [rowNamed [65]] 1
    (by decide) (by decide) (by decide) (by decide) (by decide)).2.1
    (by decide) (by decide)

/-! ## Invalid widths (C22) -/

/-- With an invalid width the entity loop stops in its first round, before any read. -/
theorem unmarshalEntityListLoop_invalid (u : EntityUnmarshaler)
    (hinv : (!validateIPIndexSize u.IPIndexSize ||
      !validateMetaRowIndexSize u.MetaRowIndexSize) = true)
    (fuel : Nat) (reader : Bytes) (acc : List Entity) :
    unmarshalEntityListLoop u (fuel + 1) reader acc =
      ⟨acc, reader, some GoError.unmarshalerInvalidIndexSize⟩ := by
  simp [unmarshalEntityListLoop, EntityUnmarshaler.UnmarshalFrom, hinv]

/-- C22: invalid widths are surfaced at load.  For every stream whose header decodes to a
header that resolves to an ip index width other than 4 and 8, or to a meta row index width
other than 1, 2, 3, 4, `Store.UnmarshalFrom` fails and leaves the entity list as it was;
when the meta table stage succeeds the error is that of the unmarshaler with invalid index
size, whatever bytes follow, also none.  A header of a version other than 3 with both
stored widths 0 resolves to the widths 0 and 0. -/
theorem Store_UnmarshalFrom_invalid_widths (s : Store) (stream rest1 : Bytes)
    (h : headerImpl)
    (hhdr : Header.UnmarshalFrom (some ⟨some ⟨0, 0, 0, 0, 0, 0, 0, 0⟩⟩) stream
      = ((some ⟨some h⟩, rest1), none))
    (hinv : ¬ (Header.IPIndexSize (some ⟨some h⟩) = 4 ∨
        Header.IPIndexSize (some ⟨some h⟩) = 8) ∨
      ¬ (Header.MetaRowIndexSize (some ⟨some h⟩) = 1 ∨
        Header.MetaRowIndexSize (some ⟨some h⟩) = 2 ∨
        Header.MetaRowIndexSize (some ⟨some h⟩) = 3 ∨
        Header.MetaRowIndexSize (some ⟨some h⟩) = 4)) :
    (Store.UnmarshalFrom s stream).2 ≠ none ∧
    (Store.UnmarshalFrom s stream).1.entityList = s.entityList ∧
    (∀ (table : List IPCity.Meta) (ent : Bytes) (i : Nat),
      unmarshalMetaTableLoop h.MetaRowCount 0 rest1 [] = ⟨table, ent, i, none⟩ →
      (Store.UnmarshalFrom s stream).2 =
        some (GoError.unmarshalEntityListError GoError.unmarshalerInvalidIndexSize)) ∧
    (∀ h2 : headerImpl, h2.Version ≠ 3 → h2.IPIndexSize = 0 → h2.MetaRowIndexSize = 0 →
      Header.IPIndexSize (some ⟨some h2⟩) = 0 ∧
      Header.MetaRowIndexSize (some ⟨some h2⟩) = 0) := by
  have hv : (!validateIPIndexSize (Header.IPIndexSize (some ⟨some h⟩)) ||
      !validateMetaRowIndexSize (Header.MetaRowIndexSize (some ⟨some h⟩))) = true := by
    simp only [validateIPIndexSize, validateMetaRowIndexSize, Bool.or_eq_true,
      Bool.not_eq_true', Bool.or_eq_false_iff, beq_eq_false_iff_ne, ne_eq]
    rcases hinv with hi | hi
    · left
      exact ⟨fun e => hi (Or.inl e), fun e => hi (Or.inr e)⟩
    · right
      exact ⟨⟨⟨fun e => hi (Or.inl e), fun e => hi (Or.inr (Or.inl e))⟩,
        fun e => hi (Or.inr (Or.inr (Or.inl e)))⟩,
        fun e => hi (Or.inr (Or.inr (Or.inr e)))⟩
  have hres : Store.UnmarshalFrom s stream =
      match (unmarshalMetaTableLoop h.MetaRowCount 0 rest1 []).err with
      | some err =>
        (⟨some ⟨some h⟩, s.metaTable, s.entityList⟩,
          some (GoError.unmarshalMetaTableRowError
            (unmarshalMetaTableLoop h.MetaRowCount 0 rest1 []).i h.MetaRowCount err))
      | none =>
        if ((unmarshalMetaTableLoop h.MetaRowCount 0 rest1 []).metaTable.length : Int)
            ≠ (h.MetaRowCount : Int) then
          (⟨some ⟨some h⟩, (unmarshalMetaTableLoop h.MetaRowCount 0 rest1 []).metaTable,
              s.entityList⟩,
            some (GoError.invalidMetaTableSize
              (unmarshalMetaTableLoop h.MetaRowCount 0 rest1 []).metaTable.length
              h.MetaRowCount))
        else
          (⟨some ⟨some h⟩, (unmarshalMetaTableLoop h.MetaRowCount 0 rest1 []).metaTable,
              s.entityList⟩,
            some (GoError.unmarshalEntityListError GoError.unmarshalerInvalidIndexSize)) := by
    have hl := unmarshalEntityListLoop_invalid
      ⟨Header.IPIndexSize (some ⟨some h⟩), Header.MetaRowIndexSize (some ⟨some h⟩)⟩ hv
    unfold Store.UnmarshalFrom
    simp only [hhdr, Header.MetaRowCount, Store.MetaRowCount, hl]
    cases (unmarshalMetaTableLoop h.MetaRowCount 0 rest1 []).err with
    | some err => rfl
    | none => simp
  refine ⟨?_, ?_, ?_, ?_⟩
  · rw [hres]
    cases (unmarshalMetaTableLoop h.MetaRowCount 0 rest1 []).err with
    | some err => simp
    | none =>
      simp only
      split_ifs <;> simp
  · rw [hres]
    cases (unmarshalMetaTableLoop h.MetaRowCount 0 rest1 []).err with
    | some err => rfl
    | none =>
      simp only
      split_ifs <;> rfl
  · intro table ent i hmeta
    have hlen : table.length = h.MetaRowCount := by
      have := unmarshalMetaTableLoop_length h.MetaRowCount 0 rest1 [] (by rw [hmeta])
      rw [hmeta] at this
      simpa using this
    rw [hres, hmeta]
    simp [hlen]
  · intro h2 hver hip hmw
    constructor
    · simp [Header.IPIndexSize, defaultIPIndexSizeMap, Header.Version, hip, hver]
    · simp [Header.MetaRowIndexSize, Header.Version, hmw, hver]

/-- Witness for C22: a version 2 header with no stored widths and entity count 0, the row
`A` and nothing after it: the load fails. -/
theorem Store_UnmarshalFrom_invalid_widths_witness :
    (Store.UnmarshalFrom ⟨none, [], []⟩
      ([105, 112, 67, 84, 2, 1, 0, 0, 0, 0, 0, 1, 0, 0, 0, 0, 1, 2, 3, 4, 5, 6, 7, 8] ++
        [65, 10])).2 =
      some (GoError.unmarshalEntityListError GoError.unmarshalerInvalidIndexSize) :=
  (Store_UnmarshalFrom_invalid_widths ⟨none, [], []⟩
    ([105, 112, 67, 84, 2, 1, 0, 0, 0, 0, 0, 1, 0, 0, 0, 0, 1, 2, 3, 4, 5, 6, 7, 8] ++
      [65, 10]) [65, 10] ⟨2, 1, 0, 0, 1, 0, 16909060, 84281096⟩
    (by decide) (by decide)).2.2.1 [rowNamed [65]] [] 1 (by decide)

/-! ## Out-of-range row references (C23) -/

/-- The range search in terms of the entity it selects. -/
theorem searchByIPIndex_selected (s : Store) (t : Nat) (e : Entity)
    (hsel : s.selectedEntity t = some e) :
    s.searchByIPIndex t = s.Meta (e.metaRowIndex : Nat) := by
  unfold Store.selectedEntity at hsel
  unfold Store.searchByIPIndex
  simp only at hsel ⊢
  by_cases h1 : (s.Entity (sortSearch s.entityList.length
      (fun i => decide (Entity.IPIndex (s.Entity i) ≥ t)))).isSome = true
  · rw [if_pos h1] at hsel ⊢
    rw [hsel]
    rfl
  · rw [if_neg h1] at hsel
    exact absurd hsel (by simp)

/-- C23: out-of-range row references are never clamped.  When the range search selects an
existing entity whose meta row index is not below the number of rows of the meta table,
`Meta` gives nil for it and the search yields a missing result.  Whenever the search
selects an entity and returns a row, the row is the one at that entity's own index. -/
theorem searchByIPIndex_out_of_range (s : Store) (t : Nat) (e : Entity)
    (hsel : s.selectedEntity t = some e)
    (hout : s.metaTable.length ≤ e.metaRowIndex) :
    s.Meta (e.metaRowIndex : Nat) = none ∧ s.searchByIPIndex t = none ∧
    (∀ (s2 : Store) (t2 : Nat) (e2 : Entity) (row : IPCity.Meta),
      s2.selectedEntity t2 = some e2 → s2.searchByIPIndex t2 = some row →
      s2.metaTable[e2.metaRowIndex]? = some row) := by
  have hnone : s.Meta (e.metaRowIndex : Nat) = none := by
    rw [Store.Meta_natCast]
    exact List.getElem?_eq_none hout
  refine ⟨hnone, ?_, ?_⟩
  · rw [searchByIPIndex_selected s t e hsel, hnone]
  · intro s2 t2 e2 row hsel2 hrow
    rw [searchByIPIndex_selected s2 t2 e2 hsel2, Store.Meta_natCast] at hrow
    exact hrow

/-- Witness for C23: the only entity, found by an exact match, points at row 5 of a table
of three rows. -/
theorem searchByIPIndex_out_of_range_witness :
    ((Store.mk none [rowNamed [65], rowNamed [66], rowNamed [67]] [⟨100, 5⟩]).selectedEntity
        100 = some ⟨100, 5⟩ ∧ 3 ≤ 5) ∧
    (Store.mk none [rowNamed [65], rowNamed [66], rowNamed [67]] [⟨100, 5⟩]).searchByIPIndex
      100 = none :=
  ⟨by decide,
    (searchByIPIndex_out_of_range
      (Store.mk none [rowNamed [65], rowNamed [66], rowNamed [67]] [⟨100, 5⟩]) 100 ⟨100, 5⟩
      (by decide) (by decide)).2.1⟩

/-! ## Wrong family and totality (C24, C25) -/

/-- The 16-byte form of an address that has a 4-byte form starts with 8 zero bytes. -/
theorem IPTo16_of_IPTo4 (addr : Bytes) (h4 : (IPTo4 addr).isSome = true) :
    ∃ b : Bytes, IPTo16 addr = some b ∧ BigEndianUint64 (b.take 8) = 0 := by
  by_cases hlen : addr.length = 4
  · refine ⟨[0, 0, 0, 0, 0, 0, 0, 0, 0, 0, 255, 255] ++ addr, ?_, ?_⟩
    · simp [IPTo16, hlen]
    · simp [BigEndianUint64]
  · unfold IPTo4 at h4
    rw [if_neg hlen] at h4
    by_cases hc : addr.length = 16 ∧ ((addr.take 10).all (fun b => b == 0)) = true ∧
        addr.getD 10 0 = 255 ∧ addr.getD 11 0 = 255
    · obtain ⟨h16, hz, _, _⟩ := hc
      refine ⟨addr, by simp [IPTo16, h16], ?_⟩
      match addr, h16 with
      | [a0, a1, a2, a3, a4, a5, a6, a7, a8, a9, a10, a11, a12, a13, a14, a15], _ =>
        simp only [List.take, List.all_cons, List.all_nil, Bool.and_true, Bool.and_eq_true,
          beq_iff_eq] at hz
        obtain ⟨e0, e1, e2, e3, e4, e5, e6, e7, _, _⟩ := hz
        subst e0 e1 e2 e3 e4 e5 e6 e7
        simp [BigEndianUint64]
    · rw [if_neg hc] at h4
      exact absurd h4 (by simp)

/-- C24: an address of the wrong family is looked up as index 0.  In an IPv4-mode store an
address with no 4-byte form (the absent address, a 16-byte address that is not
IPv4-mapped), and in an IPv6-mode store an address with a 4-byte form (an IPv4 address,
whose 16-byte form starts with 8 zero bytes), get from `Search` exactly the result of the
range search for index 0, hence a populated row whenever that search gives one. -/
theorem Store_Search_wrong_family (s : Store) (addr : Bytes) :
    (Header.Mode s.header = DataModeIPv4 → IPTo4 addr = none →
      s.Search addr = s.searchByIPIndex 0 ∧
      (populated (s.searchByIPIndex 0) = true → populated (s.Search addr) = true)) ∧
    (Header.Mode s.header = DataModeIPv6 → (IPTo4 addr).isSome = true →
      s.Search addr = s.searchByIPIndex 0 ∧
      (populated (s.searchByIPIndex 0) = true → populated (s.Search addr) = true)) ∧
    IPTo4 [] = none ∧
    (addr.length = 16 →
      ¬ (((addr.take 10).all (fun b => b == 0)) = true ∧ addr.getD 10 0 = 255 ∧
        addr.getD 11 0 = 255) →
      IPTo4 addr = none) := by
  refine ⟨?_, ?_, rfl, ?_⟩
  · intro hmode h4
    have hres : s.Search addr = s.searchByIPIndex 0 := by
      unfold Store.Search
      simp only [hmode, if_true, h4]
    exact ⟨hres, fun hp => hres ▸ hp⟩
  · intro hmode h4
    obtain ⟨b, h16, hzero⟩ := IPTo16_of_IPTo4 addr h4
    have hne : ¬ DataModeIPv6 = DataModeIPv4 := by decide
    have hres : s.Search addr = s.searchByIPIndex 0 := by
      unfold Store.Search
      simp only [hmode, hne, if_false, if_true, h16, hzero]
    exact ⟨hres, fun hp => hres ▸ hp⟩
  · intro h16 hnot
    unfold IPTo4
    have h4 : ¬ addr.length = 4 := by omega
    rw [if_neg h4, if_neg]
    rintro ⟨_, hz, ha, hb⟩
    exact hnot ⟨hz, ha, hb⟩

/-- Witness for C24: an IPv6-mode store that maps index 0 to a named row returns that row
for the IPv4 address 1.2.3.4; an IPv4-mode store does so for `2001:db8::1`. -/
theorem Store_Search_wrong_family_witness :
    (Store.mk (some ⟨some ⟨3, 2, 0, 0, 1, 1, 0, 0⟩⟩) [rowNamed [65]] [⟨0, 0⟩]).Search
      [1, 2, 3, 4] = some (rowNamed [65]) ∧
    (Store.mk (some ⟨some ⟨3, 1, 0, 0, 1, 1, 0, 0⟩⟩) [rowNamed [65]] [⟨0, 0⟩]).Search
      [32, 1, 13, 184, 0, 0, 0, 0, 0, 0, 0, 0, 0, 0, 0, 1] = some (rowNamed [65]) :=
  ⟨((Store_Search_wrong_family
      (Store.mk (some ⟨some ⟨3, 2, 0, 0, 1, 1, 0, 0⟩⟩) [rowNamed [65]] [⟨0, 0⟩])
      [1, 2, 3, 4]).2.1 rfl rfl).1,
    ((Store_Search_wrong_family
      (Store.mk (some ⟨some ⟨3, 1, 0, 0, 1, 1, 0, 0⟩⟩) [rowNamed [65]] [⟨0, 0⟩])
      [32, 1, 13, 184, 0, 0, 0, 0, 0, 0, 0, 0, 0, 0, 0, 1]).1 rfl (by decide)).1⟩

/-- A result of `Meta` is a row of the meta table. -/
theorem Store.Meta_mem (s : Store) (i : Int) (row : IPCity.Meta) (h : s.Meta i = some row) :
    row ∈ s.metaTable := by
  unfold Store.Meta at h
  split_ifs at h
  exact List.mem_iff_getElem?.2 ⟨_, h⟩

/-- A result of the range search is a row of the meta table. -/
theorem searchByIPIndex_mem (s : Store) (t : Nat) (row : IPCity.Meta)
    (h : s.searchByIPIndex t = some row) : row ∈ s.metaTable := by
  unfold Store.searchByIPIndex at h
  simp only at h
  split_ifs at h <;> exact Store.Meta_mem s _ row h

/-- The loop of `sort.Search` has left by itself within `n` rounds: any further rounds
granted change nothing. -/
theorem sortSearchLoop_extra (f : Int → Bool) (n : Nat) :
    ∀ extra : Nat, sortSearchLoop f (n + extra) 0 n = sortSearchLoop f n 0 n := by
  intro extra
  induction extra with
  | zero => rfl
  | succ k ih =>
    rw [← Nat.add_assoc, sortSearchLoop_fuel f (n + k) 0 n (by omega), ih]

/-- Inside the slice the index expression gives the element. -/
theorem goIndex_of_getElem? {α : Type} (a : List α) (k : Nat) (x : α) (h : a[k]? = some x) :
    goIndex a (k : Int) = Except.ok x := by
  unfold goIndex
  have hk : ¬ ((k : Int) < 0) := by omega
  rw [if_neg hk]
  simp only [Int.toNat_ofNat, h]

/-- Outside the slice the index expression panics. -/
theorem goIndex_out_of_range {α : Type} (a : List α) (i : Int)
    (h : i < 0 ∨ (a.length : Int) ≤ i) :
    goIndex a i = Except.error GoPanic.indexOutOfRange := by
  unfold goIndex
  by_cases hi : i < 0
  · rw [if_pos hi]
  · rw [if_neg hi]
    have : a[i.toNat]? = none := List.getElem?_eq_none (by omega)
    rw [this]

/-- The checked `Entity` never panics and gives what `Entity` gives. -/
theorem EntityChecked_eq (s : Store) (i : Int) :
    s.EntityChecked i = Except.ok (s.Entity i) := by
  unfold Store.EntityChecked Store.Entity
  by_cases hg : i < s.EntityCount ∧ i ≥ 0
  · rw [if_pos hg, if_pos hg]
    unfold Store.EntityCount at hg
    obtain ⟨k, rfl⟩ := Int.eq_ofNat_of_zero_le hg.2
    have hk : k < s.entityList.length := by omega
    rw [goIndex_of_getElem? s.entityList k _ (List.getElem?_eq_getElem hk)]
    simp only [Int.toNat_ofNat, List.getElem?_eq_getElem hk]
    rfl
  · rw [if_neg hg, if_neg hg]
    rfl

/-- The checked `Meta` never panics and gives what `Meta` gives. -/
theorem MetaChecked_eq (s : Store) (i : Int) :
    s.MetaChecked i = Except.ok (s.Meta i) := by
  unfold Store.MetaChecked Store.Meta
  by_cases hg : i < s.MetaRowCount ∧ i ≥ 0
  · rw [if_pos hg, if_pos hg]
    unfold Store.MetaRowCount at hg
    obtain ⟨k, rfl⟩ := Int.eq_ofNat_of_zero_le hg.2
    have hk : k < s.metaTable.length := by omega
    rw [goIndex_of_getElem? s.metaTable k _ (List.getElem?_eq_getElem hk)]
    simp only [Int.toNat_ofNat, List.getElem?_eq_getElem hk]
    rfl
  · rw [if_neg hg, if_neg hg]
    rfl

/-- Over a predicate that never panics the checked loop of `sort.Search` never panics and
gives what the loop gives. -/
theorem sortSearchLoopChecked_eq (g : Int → Except GoPanic Bool) (f : Int → Bool)
    (hg : ∀ i, g i = Except.ok (f i)) :
    ∀ fuel i j : Nat,
      sortSearchLoopChecked g fuel i j = Except.ok (sortSearchLoop f fuel i j) := by
  intro fuel
  induction fuel with
  | zero => intro i j; rfl
  | succ n ih =>
    intro i j
    unfold sortSearchLoopChecked sortSearchLoop
    by_cases hij : i < j
    · rw [if_pos hij, if_pos hij]
      simp only [hg, bind, Except.bind]
      by_cases hf : f (((i + j) / 2 : Nat) : Int) = true
      · simp only [hf, Bool.not_true, Bool.false_eq_true, if_false]
        exact ih _ _
      · simp only [Bool.not_eq_true] at hf
        simp only [hf, Bool.not_false, if_true]
        exact ih _ _
    · rw [if_neg hij, if_neg hij]
      rfl

/-- The predicate of the range search never panics. -/
theorem searchPredicateChecked_eq (s : Store) (t : Nat) (i : Int) :
    (do
      let e ← s.EntityChecked i
      pure (decide (Entity.IPIndex e ≥ t)) : Except GoPanic Bool)
      = Except.ok (decide (Entity.IPIndex (s.Entity i) ≥ t)) := by
  rw [EntityChecked_eq]
  rfl

/-- The checked range search never panics and gives what the range search gives. -/
theorem searchByIPIndexChecked_eq (s : Store) (t : Nat) :
    s.searchByIPIndexChecked t = Except.ok (s.searchByIPIndex t) := by
  unfold Store.searchByIPIndexChecked Store.searchByIPIndex sortSearchChecked sortSearch
  rw [sortSearchLoopChecked_eq _ (fun i => decide (Entity.IPIndex (s.Entity i) ≥ t))
    (searchPredicateChecked_eq s t)]
  simp only [bind, Except.bind, pure, Except.pure, EntityChecked_eq, MetaChecked_eq]
  split_ifs <;> rfl

/-- On four bytes the checked `Uint32` never panics. -/
theorem BigEndianUint32Checked_eq (b : Bytes) (h : b.length = 4) :
    BigEndianUint32Checked b = Except.ok (BigEndianUint32 b) := by
  match b, h with
  | [b0, b1, b2, b3], _ => rfl

/-- On eight bytes the checked `Uint64` never panics. -/
theorem BigEndianUint64Checked_eq (b : Bytes) (h : b.length = 8) :
    BigEndianUint64Checked b = Except.ok (BigEndianUint64 b) := by
  match b, h with
  | [b0, b1, b2, b3, b4, b5, b6, b7], _ => rfl

/-- A 4-byte form has 4 bytes. -/
theorem IPTo4_length (ip b : Bytes) (hb : IPTo4 ip = some b) : b.length = 4 := by
  unfold IPTo4 at hb
  split_ifs at hb with h1 h2
  · rw [← Option.some.inj hb]
    exact h1
  · rw [← Option.some.inj hb, List.length_drop]
    omega

/-- A 16-byte form has 16 bytes. -/
theorem IPTo16_length (ip b : Bytes) (hb : IPTo16 ip = some b) : b.length = 16 := by
  unfold IPTo16 at hb
  split_ifs at hb with h1 h2
  · rw [← Option.some.inj hb, List.length_append, h1]
    rfl
  · rw [← Option.some.inj hb]
    exact h2

/-- The checked `To4` never panics and gives what `To4` gives. -/
theorem IPTo4Checked_eq (ip : Bytes) : IPTo4Checked ip = Except.ok (IPTo4 ip) := by
  unfold IPTo4Checked IPTo4
  by_cases h4 : ip.length = 4
  · rw [if_pos h4, if_pos h4]
    rfl
  · rw [if_neg h4, if_neg h4]
    by_cases h16 : ip.length = 16
    · rw [if_pos h16]
      match ip, h16 with
      | [a0, a1, a2, a3, a4, a5, a6, a7, a8, a9, a10, a11, a12, a13, a14, a15], _ =>
        simp only [goSlice, goIndex, bind, Except.bind, pure, Except.pure, List.length_cons,
          List.length_nil, List.take, List.drop, List.getD_cons_succ, List.getD_cons_zero]
        simp
        split_ifs <;> simp_all
    · rw [if_neg h16, if_neg (fun h => h16 h.1)]
      rfl

/-- The checked `To16` never panics and gives what `To16` gives. -/
theorem IPTo16Checked_eq (ip : Bytes) : IPTo16Checked ip = Except.ok (IPTo16 ip) := by
  unfold IPTo16Checked IPTo16
  by_cases h4 : ip.length = 4
  · rw [if_pos h4, if_pos h4]
    match ip, h4 with
    | [a, b, c, d], _ => rfl
  · rw [if_neg h4, if_neg h4]
    split_ifs <;> rfl

/-- The slice expression `b[0:8]` of a 16-byte form never panics. -/
theorem goSlice_high (b : Bytes) (h : b.length = 16) :
    goSlice b 0 8 = Except.ok (b.take 8) := by
  unfold goSlice
  rw [if_pos (by omega)]
  rfl

/-- The checked `Search` never panics and gives what `Search` gives. -/
theorem SearchChecked_eq (s : Store) (addr : Bytes) :
    s.SearchChecked addr = Except.ok (s.Search addr) := by
  unfold Store.SearchChecked Store.Search
  simp only [IPTo4Checked_eq, IPTo16Checked_eq]
  by_cases hm4 : Header.Mode s.header = DataModeIPv4
  · simp only [if_pos hm4]
    cases h4 : IPTo4 addr with
    | none =>
      simp only [bind, Except.bind, pure, Except.pure]
      exact searchByIPIndexChecked_eq s 0
    | some b =>
      have hlen := IPTo4_length addr b h4
      simp only [bind, Except.bind, pure, Except.pure, BigEndianUint32Checked_eq b hlen]
      by_cases hv : Header.Version s.header = 2
      · simp only [if_pos hv]
        exact searchByIPIndexChecked_eq s _
      · simp only [if_neg hv]
        exact searchByIPIndexChecked_eq s _
  · simp only [if_neg hm4]
    by_cases hm6 : Header.Mode s.header = DataModeIPv6
    · simp only [if_pos hm6]
      cases h16 : IPTo16 addr with
      | none =>
        simp only [bind, Except.bind, pure, Except.pure]
        exact searchByIPIndexChecked_eq s 0
      | some b =>
        have hlen := IPTo16_length addr b h16
        have h8 : (b.take 8).length = 8 := by rw [List.length_take, hlen]; rfl
        simp only [bind, Except.bind, pure, Except.pure, goSlice_high b hlen,
          BigEndianUint64Checked_eq _ h8]
        exact searchByIPIndexChecked_eq s _
    · simp only [if_neg hm6, bind, Except.bind, pure, Except.pure]
      exact searchByIPIndexChecked_eq s 0


/-- C25: `Search` is total and never indexes out of bounds.  For every store and every
address, `Search` run with the bounds checks of every index and slice expression on its
path (the entity list, the meta table, the address bytes) ends without a panic and with
the value of `Search`, which is a missing result or a row of the store's meta table.  The
binary search leaves its loop by itself, whatever the order of the entities: further
rounds granted change nothing.  The checks are real: an index outside the entity list or
the meta table, and an integer read from an address of fewer bytes than are read,
panic. -/
theorem Store_Search_total (s : Store) (addr : Bytes) :
    s.SearchChecked addr = Except.ok (s.Search addr) ∧
    (s.Search addr = none ∨ ∃ row ∈ s.metaTable, s.Search addr = some row) ∧
    (∀ t extra : Nat,
      sortSearchLoopChecked (fun i => do
          let e ← s.EntityChecked i
          pure (decide (Entity.IPIndex e ≥ t)))
        (s.entityList.length + extra) 0 s.entityList.length
      = Except.ok (sortSearchLoop (fun i => decide (Entity.IPIndex (s.Entity i) ≥ t))
          s.entityList.length 0 s.entityList.length)) ∧
    (∀ i : Int, i < 0 ∨ (s.entityList.length : Int) ≤ i →
      goIndex s.entityList i = Except.error GoPanic.indexOutOfRange) ∧
    (∀ i : Int, i < 0 ∨ (s.metaTable.length : Int) ≤ i →
      goIndex s.metaTable i = Except.error GoPanic.indexOutOfRange) ∧
    (addr.length < 4 →
      BigEndianUint32Checked addr = Except.error GoPanic.indexOutOfRange) ∧
    (addr.length < 8 → goSlice addr 0 8 = Except.error GoPanic.sliceBoundsOutOfRange) := by
  refine ⟨SearchChecked_eq s addr, ?_, ?_, goIndex_out_of_range s.entityList,
    goIndex_out_of_range s.metaTable, ?_, ?_⟩
  · cases hres : s.Search addr with
    | none => exact Or.inl rfl
    | some row =>
      right
      refine ⟨row, ?_, rfl⟩
      unfold Store.Search at hres
      exact searchByIPIndex_mem s _ row hres
  · intro t extra
    rw [sortSearchLoopChecked_eq _ (fun i => decide (Entity.IPIndex (s.Entity i) ≥ t))
      (searchPredicateChecked_eq s t), sortSearchLoop_extra]
  · intro h
    unfold BigEndianUint32Checked
    rw [goIndex_out_of_range addr 3 (Or.inr (by omega))]
    rfl
  · intro h
    unfold goSlice
    rw [if_neg (by omega)]

/-- Witness for C25: a header-less store whose only entity points outside the meta
table, asked for an address of 5 bytes: the guarded lookup gives a missing result, where
the index expression alone panics. -/
theorem Store_Search_total_witness :
    (Store.mk none [rowNamed [65]] [⟨0, 7⟩]).SearchChecked [1, 2, 3, 4, 5] = Except.ok none ∧
    goIndex [rowNamed [65]] 7 = Except.error GoPanic.indexOutOfRange :=
  ⟨(Store_Search_total (Store.mk none [rowNamed [65]] [⟨0, 7⟩]) [1, 2, 3, 4, 5]).1.trans
      (congrArg Except.ok (by decide)),
    (Store_Search_total (Store.mk none [rowNamed [65]] [⟨0, 7⟩]) [1, 2, 3, 4, 5]).2.2.2.2.1 7
      (Or.inr (by decide))⟩

end IPCity
